import Mathlib

/-!
The batch conversion engine of heic_converter and the helpers around it.

A shallow embedding of `src/src/batch_processor.cpp` (class `BatchProcessor`), of the
configuration helpers of `config.cpp`, of the single-file path through `converter.cpp` and
`image_processor.cpp`, of the BMP writer of `format_encoder.cpp` and of the EXIF fallback
writer of `metadata_handler.cpp`, together with the parts of the C++ library they rely on,
followed by theorems about the embedding.

Conventions of the embedding

* `std::string` is `String`, `std::vector<std::string>` is `List String`.
* `int` members are `Int`; `size_t` loop indices are `Nat`.  The scheduler converts the
  `int` batch size to `size_t`; the class keeps `iBatchSize >= 1` (constructor, setter), and
  `n + b - 1 < 2^64` for every vector the program can hold, so no wrap-around is modelled.
  The `int` counters are exact for lists shorter than `2^31` files, and the `int` collision
  counter of `fn_generateOutputFilename` is a `Nat`, exact below `2^31` numbered candidates.
* The outside world (filesystem, codec state, running threads) is an abstract state `σ` that is
  passed explicitly through every call which may read or change it.
* Thrown C++ objects are values of `Thrown`; a call that may throw returns `Except Thrown _`.
* A filesystem state, as the output-name resolver sees it, is the list `FS` of the existing
  paths together with `StatError`, the status queries that fail; `std::filesystem::exists`
  throws for these (`fsExists`).  `noStatError` is the state in which every query succeeds,
  `nameMaxStatError` the one in which names longer than `NAME_MAX` are refused.
* Logging (`fn_logInfo`, `fn_logWarning`, `fn_logError`) has no effect on any value the
  functions compute and is left out.
* A byte (`unsigned char`) is a `Nat`; a byte vector or the content of a file is a `List Nat`.
  In the BMP writer the `int` arithmetic wraps into 32 signed bits (`wrapInt32`) and the
  `uint32_t` header fields are reduced modulo `2^32`; in the EXIF writer the `uint16_t`
  segment length is reduced modulo `2^16`.
* An access `v[i]` to a vector outside its bounds, which C++ leaves undefined, is an outcome
  of its own (`SkipOutcome.outOfBounds`, `FallbackResult.undefinedBehaviour`).
* Memory exhaustion (`std::bad_alloc`) is not modelled.
-/

namespace HeicConverter

/-! ## C++ library model -/

/-- A thrown C++ object, split the way the handlers of `fn_processSingleFile` split it:
an object derived from `std::exception` (with its `what()` text) or anything else. -/
inductive Thrown where
  | stdException (what : String)
  | other
  deriving DecidableEq, Repr

/-- Results that are a value or a thrown object can be compared. -/
instance exceptDecidableEq {ε α : Type} [DecidableEq ε] [DecidableEq α] :
    DecidableEq (Except ε α)
  | .ok a, .ok b =>
    if h : a = b then isTrue (by rw [h]) else isFalse (fun h2 => h (Except.ok.inj h2))
  | .error a, .error b =>
    if h : a = b then isTrue (by rw [h]) else isFalse (fun h2 => h (Except.error.inj h2))
  | .ok _, .error _ => isFalse (fun h => Except.noConfusion h)
  | .error _, .ok _ => isFalse (fun h => Except.noConfusion h)

/-- The characters of `std::filesystem::path::filename()`: what follows the last `/`. -/
def filenameChars (p : List Char) : List Char :=
  (p.reverse.takeWhile (fun c => c ≠ '/')).reverse

/-- The characters of `std::filesystem::path::stem()` of a filename: the filename without
its last extension; `.` and `..`, names without a period and names whose only period is the
first character are returned whole. -/
def stemChars (f : List Char) : List Char :=
  if f = ['.'] ∨ f = ['.', '.'] then f
  else if f.all (fun c => c ≠ '.') then f
  else
    let pre := ((f.reverse.dropWhile (fun c => c ≠ '.')).drop 1).reverse
    if pre = [] then f else pre

/-- The model of `std::filesystem::path(p).stem().string()`. -/
def pathStem (p : String) : String :=
  String.mk (stemChars (filenameChars p.data))

/-- The model of `(std::filesystem::path(dir) / name).string()` on a POSIX system: an absolute
`name` replaces `dir`; otherwise a separator is inserted when `dir` has a filename. -/
def pathJoin (dir name : String) : String :=
  if name.data.head? = some '/' then name
  else if dir.data ≠ [] ∧ dir.data.getLast? ≠ some '/' then dir ++ "/" ++ name
  else dir ++ name

/-- The paths that exist in a filesystem state: finitely many. -/
abbrev FS := List String

/-- The part of a filesystem state that makes a status query fail: `statError p` is the
`std::filesystem::filesystem_error` in which the query for `p` ends (a name that is too long,
a directory that may not be searched, too many symbolic links, ...), `none` when the query
succeeds. -/
abbrev StatError := String → Option Thrown

/-- A filesystem state in which every status query succeeds. -/
def noStatError : StatError := fun _ => none

/-- Whether a component of the path is longer than `NAME_MAX` = 255 bytes; `n` is the number
of bytes of the component read so far. -/
def componentTooLong : List Char → Nat → Bool
  | [], n => decide (n > 255)
  | c :: cs, n =>
    if c = '/' then decide (n > 255) || componentTooLong cs 0
    else componentTooLong cs (n + c.utf8Size)

/-- The failing status queries of a Linux filesystem as far as they depend on the path alone:
a path with a component longer than `NAME_MAX` gives `ENAMETOOLONG`. -/
def nameMaxStatError : StatError := fun p =>
  if componentTooLong p.data 0 then
    some (.stdException "filesystem error: cannot get file status: File name too long")
  else none

/-- The model of `std::filesystem::exists(p)` on a filesystem state with the existing paths
`fs`: the call throws when the status query fails, and otherwise tells whether `p` exists. -/
def fsExists (statError : StatError) (fs : FS) (p : String) : Except Thrown Bool :=
  match statError p with
  | some e => .error e
  | none => .ok (fs.contains p)

/-! ## BatchProcessor: state, statistics, configuration -/

/-- The member variables of `class BatchProcessor` (batch_processor.h). -/
structure BatchProcessor where
  iProcessedCount : Int
  iFailedCount : Int
  vsFailedFiles : List String
  iBatchSize : Int
  bParallelProcessing : Bool
  deriving DecidableEq, Repr

namespace BatchProcessor

/-- The constructor `BatchProcessor::BatchProcessor()`. -/
def new : BatchProcessor :=
  { iProcessedCount := 0, iFailedCount := 0, vsFailedFiles := [],
    iBatchSize := 10, bParallelProcessing := true }

/-- `BatchProcessor::fn_getProcessedCount`. -/
def fn_getProcessedCount (bp : BatchProcessor) : Int := bp.iProcessedCount

/-- `BatchProcessor::fn_getFailedCount`. -/
def fn_getFailedCount (bp : BatchProcessor) : Int := bp.iFailedCount

/-- `BatchProcessor::fn_getFailedFiles`. -/
def fn_getFailedFiles (bp : BatchProcessor) : List String := bp.vsFailedFiles

/-- `BatchProcessor::fn_clearStatistics`. -/
def fn_clearStatistics (bp : BatchProcessor) : BatchProcessor :=
  { bp with iProcessedCount := 0, iFailedCount := 0, vsFailedFiles := [] }

/-- `BatchProcessor::fn_setBatchSize`: a positive size is stored, anything else only logs
a warning. -/
def fn_setBatchSize (bp : BatchProcessor) (iNewBatchSize : Int) : BatchProcessor :=
  if iNewBatchSize > 0 then { bp with iBatchSize := iNewBatchSize } else bp

/-- `BatchProcessor::fn_getBatchSize`. -/
def fn_getBatchSize (bp : BatchProcessor) : Int := bp.iBatchSize

/-- `BatchProcessor::fn_setParallelProcessing`. -/
def fn_setParallelProcessing (bp : BatchProcessor) (bEnable : Bool) : BatchProcessor :=
  { bp with bParallelProcessing := bEnable }

/-- `BatchProcessor::fn_isParallelProcessing`. -/
def fn_isParallelProcessing (bp : BatchProcessor) : Bool := bp.bParallelProcessing

/-- The statistics update that follows every outcome in `fn_internalBatchProcess`
(lines 263-271 and 287-295): count a success, or count a failure and record its file. -/
def recordOutcome (bp : BatchProcessor) (bSuccess : Bool) (sFile : String) : BatchProcessor :=
  if bSuccess then { bp with iProcessedCount := bp.iProcessedCount + 1 }
  else { bp with iFailedCount := bp.iFailedCount + 1,
                 vsFailedFiles := bp.vsFailedFiles ++ [sFile] }

end BatchProcessor

/-! ## Output-name resolution -/

/-- The file name tried in round `iCounter` of the collision loop:
`sFilename + "_" + std::to_string(iCounter) + "." + sOutputFormat`. -/
def numberedFilename (sFilename sOutputFormat : String) (iCounter : Nat) : String :=
  sFilename ++ "_" ++ toString iCounter ++ "." ++ sOutputFormat

/-- The `while (std::filesystem::exists(oOutputPath))` loop of `fn_generateOutputFilename`,
with a bound on the number of tests of the loop condition; `none` when the bound is used up.
A test that throws ends the loop, and the function, with the thrown object: the function has
no handler. -/
def generateLoop (statError : StatError) (fs : FS)
    (sFilename sOutputFormat sOutputDirectory : String) :
    Nat → String → Nat → Option (Except Thrown String)
  | 0, _, _ => none
  | fuel + 1, oOutputPath, iCounter =>
    match fsExists statError fs oOutputPath with
    | .error e => some (.error e)
    | .ok true =>
      generateLoop statError fs sFilename sOutputFormat sOutputDirectory fuel
        (pathJoin sOutputDirectory (numberedFilename sFilename sOutputFormat iCounter))
        (iCounter + 1)
    | .ok false => some (.ok oOutputPath)

/-- `BatchProcessor::fn_generateOutputFilename` on the filesystem state `statError`, `fs`:
the returned path, or the object thrown by a status query.  The loop is given
`fs.length + 2` tests of its condition, which is enough for every state
(see `generateOutputFilename_spec`). -/
def fn_generateOutputFilename (statError : StatError) (fs : FS)
    (sInputFile sOutputFormat sOutputDirectory : String) : Option (Except Thrown String) :=
  let sFilename := pathStem sInputFile
  let sOutputFilename := sFilename ++ "." ++ sOutputFormat
  let oOutputPath := pathJoin sOutputDirectory sOutputFilename
  generateLoop statError fs sFilename sOutputFormat sOutputDirectory (fs.length + 2)
    oOutputPath 1

/-! ## Collaborators -/

/-- Everything `BatchProcessor` calls without defining it, over a world state `σ` and a type
`φ` of future handles.  Every field is an arbitrary function: a theorem stated for all
`Collab σ φ` holds for every behaviour of these collaborators. -/
structure Collab (σ φ : Type) where
  /-- The call `std::filesystem::exists(p)`. -/
  pathExists : String → σ → Bool
  /-- The call `std::filesystem::is_directory(p)`. -/
  isDirectory : String → σ → Bool
  /-- The statement `std::ofstream oTestFile(p)` followed by `oTestFile.is_open()`. -/
  ofstreamOpen : String → σ → Except Thrown Bool × σ
  /-- The calls `oTestFile.close(); std::filesystem::remove(p)`. -/
  removeFile : String → σ → Except Thrown Unit × σ
  /-- The free function `fn_createDirectory` (file_utils, not part of the sources at hand). -/
  fn_createDirectory : String → σ → Bool × σ
  /-- The free function `fn_collectDirectoryFiles(sDirectory, bRecursive)` (file_utils). -/
  fn_collectDirectoryFiles : String → Bool → σ → List String × σ
  /-- The free function `fn_isHeicFile` (file_utils). -/
  fn_isHeicFile : String → Bool
  /-- The call `fn_generateOutputFilename(sInputFile, sOutputFormat, sOutputDirectory)` as it
  runs against the world: it returns a path, or a library call inside it throws. -/
  resolve : String → String → String → σ → Except Thrown String × σ
  /-- The statements `Converter oConverter; oConverter.fn_convertFile(sInputFile, sOutputFile)`:
  an `int` result, or a thrown object. -/
  convert : String → String → σ → Except Thrown Int × σ
  /-- The call `std::async(std::launch::async, task)`: starts `task`, gives its future. -/
  async : (σ → Bool × σ) → σ → φ × σ
  /-- The call `std::future<bool>::get()`: waits for the task and gives its result. -/
  get : φ → σ → Bool × σ

/-! ## Single-file task -/

/-- The `try` block of `fn_processSingleFile` (lines 319-333): resolve the output name,
run the converter, compare its result with 0. -/
def processSingleFileTry {σ φ : Type} (K : Collab σ φ)
    (sInputFile sOutputFormat sOutputDirectory : String) (w : σ) : Except Thrown Bool × σ :=
  match K.resolve sInputFile sOutputFormat sOutputDirectory w with
  | (.error e, w1) => (.error e, w1)
  | (.ok sOutputFile, w1) =>
    match K.convert sInputFile sOutputFile w1 with
    | (.error e, w2) => (.error e, w2)
    | (.ok result, w2) => (.ok (decide (result = 0)), w2)

/-- `BatchProcessor::fn_processSingleFile`: the `try` block with its two handlers,
`catch (const std::exception&)` and `catch (...)`, both of which return `false`.
`iQuality` and `bPreserveMetadata` are parameters the body never reads. -/
def fn_processSingleFile {σ φ : Type} (K : Collab σ φ)
    (sInputFile sOutputFormat sOutputDirectory : String)
    (_iQuality : Int) (_bPreserveMetadata : Bool) (w : σ) : Bool × σ :=
  match processSingleFileTry K sInputFile sOutputFormat sOutputDirectory w with
  | (.ok b, w1) => (b, w1)
  | (.error (.stdException _), w1) => (false, w1)
  | (.error .other, w1) => (false, w1)

/-! ## Scheduler -/

/-- The number of chunks: `size_t stBatches = (stTotalFiles + iBatchSize - 1) / iBatchSize`. -/
def stBatches (stTotalFiles iBatchSize : Nat) : Nat :=
  (stTotalFiles + iBatchSize - 1) / iBatchSize

/-- The first index of a chunk: `size_t stStart = stBatch * iBatchSize`. -/
def stStart (stBatch iBatchSize : Nat) : Nat :=
  stBatch * iBatchSize

/-- The index after the last one of a chunk:
`size_t stEnd = std::min(stStart + iBatchSize, stTotalFiles)`. -/
def stEnd (stBatch iBatchSize stTotalFiles : Nat) : Nat :=
  min (stStart stBatch iBatchSize + iBatchSize) stTotalFiles

/-- The values `stIdx` takes in `for (stIdx = stStart; stIdx < stEnd; stIdx++)`. -/
def chunkIndices (stBatch iBatchSize stTotalFiles : Nat) : List Nat :=
  List.range' (stStart stBatch iBatchSize)
    (stEnd stBatch iBatchSize stTotalFiles - stStart stBatch iBatchSize)

/-- The files of chunk `stBatch`: `vsFiles[stIdx]` for the indices of the chunk. -/
def chunkFiles (vsFiles : List String) (iBatchSize stBatch : Nat) : List String :=
  (chunkIndices stBatch iBatchSize vsFiles.length).map (fun stIdx => vsFiles.getD stIdx "")

/-- The sequential branch for one chunk (lines 277-296). -/
def processChunkSequential {σ φ : Type} (K : Collab σ φ) (vsFiles : List String)
    (sOutputFormat sOutputDirectory : String) (iQuality : Int) (bPreserveMetadata : Bool)
    (idxs : List Nat) (s : BatchProcessor × σ) : BatchProcessor × σ :=
  idxs.foldl (fun s stIdx =>
    let r := fn_processSingleFile K (vsFiles.getD stIdx "") sOutputFormat sOutputDirectory
      iQuality bPreserveMetadata s.2
    (s.1.recordOutcome r.1 (vsFiles.getD stIdx ""), r.2)) s

/-- The first loop of the parallel branch (lines 241-256): one `std::async` per index, the
futures pushed onto `vfResults`. -/
def launchChunk {σ φ : Type} (K : Collab σ φ) (vsFiles : List String)
    (sOutputFormat sOutputDirectory : String) (iQuality : Int) (bPreserveMetadata : Bool)
    (idxs : List Nat) (w : σ) : List φ × σ :=
  idxs.foldl (fun acc stIdx =>
    let r := K.async (fn_processSingleFile K (vsFiles.getD stIdx "") sOutputFormat
      sOutputDirectory iQuality bPreserveMetadata) acc.2
    (acc.1 ++ [r.1], r.2)) ([], w)

/-- The second loop of the parallel branch (lines 259-272): `vfResults[stIdx - stStart].get()`
and the statistics update, in index order. -/
def collectChunk {σ φ : Type} (K : Collab σ φ) (vsFiles : List String) (stStart0 : Nat)
    (vfResults : List φ) (idxs : List Nat) (s : BatchProcessor × σ) : BatchProcessor × σ :=
  idxs.foldl (fun s stIdx =>
    match vfResults[stIdx - stStart0]? with
    | some fut =>
      let r := K.get fut s.2
      (s.1.recordOutcome r.1 (vsFiles.getD stIdx ""), r.2)
    | none => s) s

/-- The body of the loop over chunks of `fn_internalBatchProcess` (lines 223-297).  The batch
size and the parallel flag are members the loop never writes; they are read from `bp`. -/
def processChunk {σ φ : Type} (K : Collab σ φ) (bp : BatchProcessor) (vsFiles : List String)
    (sOutputFormat sOutputDirectory : String) (iQuality : Int) (bPreserveMetadata : Bool)
    (s : BatchProcessor × σ) (stBatch : Nat) : BatchProcessor × σ :=
  let idxs := chunkIndices stBatch bp.iBatchSize.toNat vsFiles.length
  if bp.bParallelProcessing then
    let l := launchChunk K vsFiles sOutputFormat sOutputDirectory iQuality bPreserveMetadata
      idxs s.2
    collectChunk K vsFiles (stStart stBatch bp.iBatchSize.toNat) l.1 idxs (s.1, l.2)
  else
    processChunkSequential K vsFiles sOutputFormat sOutputDirectory iQuality
      bPreserveMetadata idxs s

/-- `BatchProcessor::fn_internalBatchProcess`: the return value, the object afterwards and
the world afterwards. -/
def fn_internalBatchProcess {σ φ : Type} (K : Collab σ φ) (bp : BatchProcessor)
    (vsFiles : List String) (sOutputFormat sOutputDirectory : String) (iQuality : Int)
    (bPreserveMetadata : Bool) (_bVerbose : Bool) (w : σ) : Bool × BatchProcessor × σ :=
  if vsFiles.isEmpty then (true, bp, w)
  else
    let s := (List.range (stBatches vsFiles.length bp.iBatchSize.toNat)).foldl
      (processChunk K bp vsFiles sOutputFormat sOutputDirectory iQuality bPreserveMetadata)
      (bp, w)
    (decide (s.1.iFailedCount = 0), s.1, s.2)

/-! ## Entry points -/

/-- `BatchProcessor::fn_directoryExists`: exists, is a directory, and a test file can be
created and removed; any throw inside the `try` block gives `false`. -/
def fn_directoryExists {σ φ : Type} (K : Collab σ φ) (sDirectory : String) (w : σ) : Bool × σ :=
  if !K.pathExists sDirectory w then (false, w)
  else if !K.isDirectory sDirectory w then (false, w)
  else
    let oTestPath := pathJoin sDirectory ".write_test"
    match K.ofstreamOpen oTestPath w with
    | (.error _, w1) => (false, w1)
    | (.ok false, w1) => (false, w1)
    | (.ok true, w1) =>
      match K.removeFile oTestPath w1 with
      | (.error _, w2) => (false, w2)
      | (.ok _, w2) => (true, w2)

/-- The output-directory validation shared by both entry points (lines 45-54, 88-97):
`true` when the directory passes `fn_directoryExists` or `fn_createDirectory` succeeds. -/
def ensureOutputDirectory {σ φ : Type} (K : Collab σ φ) (sOutputDirectory : String) (w : σ) :
    Bool × σ :=
  let d := fn_directoryExists K sOutputDirectory w
  if !d.1 then
    let c := K.fn_createDirectory sOutputDirectory d.2
    if !c.1 then (false, c.2) else (true, c.2)
  else (true, d.2)

/-- `BatchProcessor::fn_processBatch`. -/
def fn_processBatch {σ φ : Type} (K : Collab σ φ) (bp : BatchProcessor)
    (vsInputFiles : List String) (sOutputFormat sOutputDirectory : String) (iQuality : Int)
    (bPreserveMetadata : Bool) (bVerbose : Bool) (w : σ) : Bool × BatchProcessor × σ :=
  let bp1 := bp.fn_clearStatistics
  let v := ensureOutputDirectory K sOutputDirectory w
  if !v.1 then (false, bp1, v.2)
  else
    fn_internalBatchProcess K bp1 vsInputFiles sOutputFormat sOutputDirectory iQuality
      bPreserveMetadata bVerbose v.2

/-- `BatchProcessor::fn_processDirectory`. -/
def fn_processDirectory {σ φ : Type} (K : Collab σ φ) (bp : BatchProcessor)
    (sInputDirectory sOutputFormat sOutputDirectory : String) (bRecursive : Bool)
    (iQuality : Int) (bPreserveMetadata : Bool) (bVerbose : Bool) (w : σ) :
    Bool × BatchProcessor × σ :=
  let bp1 := bp.fn_clearStatistics
  if !K.pathExists sInputDirectory w then (false, bp1, w)
  else
    let v := ensureOutputDirectory K sOutputDirectory w
    if !v.1 then (false, bp1, v.2)
    else
      let c := K.fn_collectDirectoryFiles sInputDirectory bRecursive v.2
      let vsHeicFiles := c.1.filter K.fn_isHeicFile
      if vsHeicFiles.isEmpty then (true, bp1, c.2)
      else
        fn_internalBatchProcess K bp1 vsHeicFiles sOutputFormat sOutputDirectory iQuality
          bPreserveMetadata bVerbose c.2

/-! ## Concrete collaborators -/

/-- A collaborator set in which the conversion started as the `k`-th one of the run (counting
from 0) succeeds exactly when `outcome k`; the world state is the number of conversions
started so far.  `bOutputDirUsable` is the answer of every output-directory check.  A future
holds the result of its task, which runs when it is launched. -/
def outcomeCollab (bOutputDirUsable : Bool) (outcome : Nat → Bool) : Collab Nat Bool where
  pathExists _ _ := bOutputDirUsable
  isDirectory _ _ := bOutputDirUsable
  ofstreamOpen _ w := (.ok bOutputDirUsable, w)
  removeFile _ w := (.ok (), w)
  fn_createDirectory _ w := (bOutputDirUsable, w)
  fn_collectDirectoryFiles _ _ w := ([], w)
  fn_isHeicFile _ := true
  resolve sInputFile sOutputFormat sOutputDirectory w :=
    (.ok (pathJoin sOutputDirectory (pathStem sInputFile ++ "." ++ sOutputFormat)), w)
  convert _ _ w := (.ok (if outcome w then 0 else 6), w + 1)
  async task w := task w
  get b w := (b, w)

/-- Whether the characters `pat` start the list `s`. -/
def startsWithChars : List Char → List Char → Bool
  | [], _ => true
  | _ :: _, [] => false
  | a :: as, b :: bs => a == b && startsWithChars as bs

/-- The characters of `std::filesystem::path::extension()` of a filename: from its last
period on; empty for `.` and `..`, for names without a period and for names whose only period
is the first character. -/
def extensionChars (f : List Char) : List Char :=
  if f = ['.'] ∨ f = ['.', '.'] then []
  else if f.all (fun c => c ≠ '.') then []
  else
    let pre := ((f.reverse.dropWhile (fun c => c ≠ '.')).drop 1).reverse
    if pre = [] then [] else '.' :: (f.reverse.takeWhile (fun c => c ≠ '.')).reverse

/-- The model of `std::filesystem::path(p).extension().string()`. -/
def pathExtension (p : String) : String :=
  String.mk (extensionChars (filenameChars p.data))

/-- Modelled from the spec: `fn_isHeicFile` of file_utils, whose source is not at hand.  The
directory scan is filtered by an exact-case match of the file's extension against the HEIC/HEIF
extensions. -/
def fn_isHeicFile (sFilePath : String) : Bool :=
  pathExtension sFilePath == ".heic" || pathExtension sFilePath == ".heif"

/-- Whether path `p` lies below directory `sDirectory`. -/
def isUnderDirectory (sDirectory p : String) : Bool :=
  startsWithChars (sDirectory.data ++ ['/']) p.data

/-- Whether path `p`, lying below `sDirectory`, is an entry of that directory itself. -/
def isDirectChild (sDirectory p : String) : Bool :=
  (p.data.drop (sDirectory.data.length + 1)).all (fun c => c ≠ '/')

/-- A world with a filesystem: the existing paths, which of them are directories, and the
record of the conversions run so far as pairs (input, output), like `vConvertedFiles` of the
test fixture. -/
structure Disk where
  paths : FS
  dirs : List String
  converted : List (String × String)
  deriving DecidableEq, Repr

/-- The collaborators over a `Disk`, for the failing status queries `statError` and a
converter `conv` that acts on the existing paths.  Output names are resolved by
`fn_generateOutputFilename` against the current paths, and a status query that fails there
throws; the queries the entry points make on the directories they are given are answered
from the existing paths.  Opening the test file creates it when it does not exist, removing
it leaves no path of that name.  Every converter call is recorded; a future holds the result
of its task, which runs when it is launched. -/
def diskCollab (statError : StatError) (conv : String → String → FS → Except Thrown Int × FS) :
    Collab Disk Bool where
  pathExists p w := w.paths.contains p
  isDirectory p w := w.dirs.contains p
  ofstreamOpen p w :=
    (.ok true, { w with paths := if w.paths.contains p then w.paths else p :: w.paths })
  removeFile p w := (.ok (), { w with paths := w.paths.filter (fun q => q != p) })
  fn_createDirectory p w := (true, { w with paths := p :: w.paths, dirs := p :: w.dirs })
  fn_collectDirectoryFiles sDirectory bRecursive w :=
    (w.paths.filter (fun p => isUnderDirectory sDirectory p && !w.dirs.contains p
      && (bRecursive || isDirectChild sDirectory p)), w)
  fn_isHeicFile := fn_isHeicFile
  resolve sInputFile sOutputFormat sOutputDirectory w :=
    match fn_generateOutputFilename statError w.paths sInputFile sOutputFormat
        sOutputDirectory with
    | some (.ok p) => (.ok p, w)
    | some (.error e) => (.error e, w)
    | none => (.error .other, w)
  convert sInputFile sOutputFile w :=
    let r := conv sInputFile sOutputFile w.paths
    (r.1, { w with paths := r.2, converted := w.converted ++ [(sInputFile, sOutputFile)] })
  async task w := task w
  get b w := (b, w)

/-- Whether `pat` occurs in `s`: `s.find(pat) != std::string::npos`. -/
def containsSubstring (s pat : String) : Bool :=
  s.data.tails.any (startsWithChars pat.data)

/-- The converter of the test fixture (`MockConverter::fn_convertFile`): an input whose path
contains `marker` fails with `ERROR_DECODING_FAILED` (6); any other input gets its output
file created and the result `ERROR_SUCCESS` (0). -/
def mockConvert (marker : String) (sInputPath sOutputPath : String) (fs : FS) :
    Except Thrown Int × FS :=
  if containsSubstring sInputPath marker then (.ok 6, fs)
  else (.ok 0, sOutputPath :: fs)

/-- The number of outcomes recorded so far: processed plus failed. -/
def outcomesRecorded (bp : BatchProcessor) : Int :=
  bp.iProcessedCount + bp.iFailedCount

/-- The statistics update for position `i` of the list when the conversion of position `i`
has the outcome `outcome i`. -/
def recordAt (vsFiles : List String) (outcome : Nat → Bool) (bp : BatchProcessor) (i : Nat) :
    BatchProcessor :=
  bp.recordOutcome (outcome i) (vsFiles.getD i "")

/-- The value of a decimal digit character. -/
def digitValue (c : Char) : Nat :=
  c.toNat - 48

/-- The number a list of decimal digit characters denotes, most significant digit first. -/
def decimalValue (cs : List Char) : Nat :=
  cs.foldl (fun acc c => acc * 10 + digitValue c) 0

/-- The path tested in round `k` of `fn_generateOutputFilename`: round 0 tests
`dir / (stem + "." + fmt)`, round `k >= 1` tests `dir / (stem + "_" + k + "." + fmt)`. -/
def candidatePath (sInputFile sOutputFormat sOutputDirectory : String) (k : Nat) : String :=
  if k = 0 then pathJoin sOutputDirectory (pathStem sInputFile ++ "." ++ sOutputFormat)
  else pathJoin sOutputDirectory (numberedFilename (pathStem sInputFile) sOutputFormat k)

/-- The configuration of a `BatchProcessor`: batch size and parallel flag. -/
def configOf (bp : BatchProcessor) : Int × Bool :=
  (bp.iBatchSize, bp.bParallelProcessing)

/-- The `fn_logError` calls made by the body of `fn_processDirectory` itself (lines 84 and
94): the message for a missing input directory, or the one for an output directory that could
not be created. -/
def processDirectoryErrors {σ φ : Type} (K : Collab σ φ)
    (sInputDirectory sOutputDirectory : String) (w : σ) : List String :=
  if !K.pathExists sInputDirectory w then
    ["Input directory does not exist: " ++ sInputDirectory]
  else if !(ensureOutputDirectory K sOutputDirectory w).1 then
    ["Failed to create output directory: " ++ sOutputDirectory]
  else []

/-- One batch invocation with its arguments: a call of `fn_processBatch` or of
`fn_processDirectory`. -/
inductive BatchCall where
  | batch (vsInputFiles : List String) (sOutputFormat sOutputDirectory : String)
      (iQuality : Int) (bPreserveMetadata bVerbose : Bool)
  | directory (sInputDirectory sOutputFormat sOutputDirectory : String) (bRecursive : Bool)
      (iQuality : Int) (bPreserveMetadata bVerbose : Bool)

/-- The invocation `c` made on the object `bp` in the world `w`. -/
def runCall {σ φ : Type} (K : Collab σ φ) (bp : BatchProcessor) (c : BatchCall) (w : σ) :
    Bool × BatchProcessor × σ :=
  match c with
  | .batch vsInputFiles sOutputFormat sOutputDirectory iQuality bPreserveMetadata bVerbose =>
    fn_processBatch K bp vsInputFiles sOutputFormat sOutputDirectory iQuality
      bPreserveMetadata bVerbose w
  | .directory sInputDirectory sOutputFormat sOutputDirectory bRecursive iQuality
      bPreserveMetadata bVerbose =>
    fn_processDirectory K bp sInputDirectory sOutputFormat sOutputDirectory bRecursive
      iQuality bPreserveMetadata bVerbose w

/-- The invocations `cs` made one after the other on one object: the object and the world
they leave. -/
def runCalls {σ φ : Type} (K : Collab σ φ) (bp : BatchProcessor) (cs : List BatchCall)
    (w : σ) : BatchProcessor × σ :=
  cs.foldl (fun s c => (runCall K s.1 c s.2).2) (bp, w)

/-- A call of the public interface of `BatchProcessor` that may change the object. -/
inductive Operation where
  | setBatchSize (iNewBatchSize : Int)
  | setParallelProcessing (bEnable : Bool)
  | clearStatistics
  | invoke (c : BatchCall)

/-- The effect of one public call on the object and the world. -/
def applyOperation {σ φ : Type} (K : Collab σ φ) (s : BatchProcessor × σ) :
    Operation → BatchProcessor × σ
  | .setBatchSize n => (s.1.fn_setBatchSize n, s.2)
  | .setParallelProcessing b => (s.1.fn_setParallelProcessing b, s.2)
  | .clearStatistics => (s.1.fn_clearStatistics, s.2)
  | .invoke c => (runCall K s.1 c s.2).2

/-! ## Worlds that deliver a given outcome per list position -/

/-- The collaborators `K`, called directly, deliver the assigned outcomes: in a world in
which `ordinal w` single-file tasks have been started, a call of `fn_processSingleFile`
returns `outcome (ordinal w)` and leaves a world in which one more task has been started.
Nothing else is required of the world the call leaves. -/
def SequentialOutcomes {σ φ : Type} (K : Collab σ φ) (outcome : Nat → Bool)
    (ordinal : σ → Nat) : Prop :=
  ∀ (f fmt dir : String) (q : Int) (pm : Bool) (w : σ),
    (fn_processSingleFile K f fmt dir q pm w).1 = outcome (ordinal w) ∧
    ordinal (fn_processSingleFile K f fmt dir q pm w).2 = ordinal w + 1

/-- The collaborators `K`, used through futures, deliver the assigned outcomes: the future
given by `std::async` in a world in which `k` tasks have been started is the one launched as
number `k` (`launchedAt fut k`), one more task counts as started afterwards, and `get` on a
future launched as number `k` returns `outcome k`.  When the tasks run and in which order they
complete is left open: the worlds `async` and `get` leave are otherwise arbitrary. -/
def ParallelOutcomes {σ φ : Type} (K : Collab σ φ) (outcome : Nat → Bool)
    (ordinal : σ → Nat) (launchedAt : φ → Nat → Prop) : Prop :=
  (∀ (f fmt dir : String) (q : Int) (pm : Bool) (w : σ),
    launchedAt (K.async (fn_processSingleFile K f fmt dir q pm) w).1 (ordinal w) ∧
    ordinal (K.async (fn_processSingleFile K f fmt dir q pm) w).2 = ordinal w + 1) ∧
  (∀ (fut : φ) (k : Nat) (w : σ), launchedAt fut k →
    (K.get fut w).1 = outcome k ∧ ordinal (K.get fut w).2 = ordinal w)

/-- A world with a task pool: the number of tasks started, the tasks launched and not yet
completed (newest first) and the tasks completed, in completion order. -/
structure Pool where
  started : Nat
  pending : List Nat
  completed : List Nat
  deriving DecidableEq, Repr

/-- Collaborators over a `Pool` in which the task started as number `k` has the outcome
`outcome k`.  A task called directly completes at once.  A task given to `std::async` is only
queued; the first `get` on a queued task lets all queued tasks complete, the one launched
last completing first, so inside a chunk tasks complete in the reverse of their launch
order. -/
def poolCollab (outcome : Nat → Bool) : Collab Pool Nat where
  pathExists _ _ := true
  isDirectory _ _ := true
  ofstreamOpen _ w := (.ok true, w)
  removeFile _ w := (.ok (), w)
  fn_createDirectory _ w := (true, w)
  fn_collectDirectoryFiles _ _ w := ([], w)
  fn_isHeicFile _ := true
  resolve sInputFile sOutputFormat sOutputDirectory w :=
    (.ok (pathJoin sOutputDirectory (pathStem sInputFile ++ "." ++ sOutputFormat)), w)
  convert _ _ w :=
    (.ok (if outcome w.started then 0 else 6),
      { w with started := w.started + 1, completed := w.completed ++ [w.started] })
  async _ w := (w.started, { w with started := w.started + 1, pending := w.started :: w.pending })
  get fut w :=
    (outcome fut,
      if w.pending.contains fut then
        { w with pending := [], completed := w.completed ++ w.pending }
      else w)

/-! ## The scheduler's use of futures, as a trace -/

/-- What the scheduler does with futures: `launched k` is the return of the `std::async` call
number `k` (counting from 0), `joined k` the return of `get()` on the future that call gave.
A task starts no earlier than its `std::async` call and has completed when `get()` on its
future returns. -/
inductive Event where
  | launched (id : Nat)
  | joined (id : Nat)
  deriving DecidableEq, Repr

/-- The events so far and the number of `std::async` calls so far. -/
structure Trace where
  events : List Event
  launches : Nat
  deriving DecidableEq, Repr

/-- The collaborators `K` with a record of the scheduler's `std::async` and `get()` calls
kept beside the world of `K`; a future carries the number of the call that created it.  All
calls behave as in `K`. -/
def withTrace {σ φ : Type} (K : Collab σ φ) : Collab (σ × Trace) (φ × Nat) where
  pathExists p w := K.pathExists p w.1
  isDirectory p w := K.isDirectory p w.1
  ofstreamOpen p w := ((K.ofstreamOpen p w.1).1, ((K.ofstreamOpen p w.1).2, w.2))
  removeFile p w := ((K.removeFile p w.1).1, ((K.removeFile p w.1).2, w.2))
  fn_createDirectory p w := ((K.fn_createDirectory p w.1).1, ((K.fn_createDirectory p w.1).2, w.2))
  fn_collectDirectoryFiles d r w :=
    ((K.fn_collectDirectoryFiles d r w.1).1, ((K.fn_collectDirectoryFiles d r w.1).2, w.2))
  fn_isHeicFile := K.fn_isHeicFile
  resolve i f d w := ((K.resolve i f d w.1).1, ((K.resolve i f d w.1).2, w.2))
  convert i o w := ((K.convert i o w.1).1, ((K.convert i o w.1).2, w.2))
  async task w :=
    let r := K.async (fun s => ((task (s, w.2)).1, (task (s, w.2)).2.1)) w.1
    ((r.1, w.2.launches),
      (r.2, { events := w.2.events ++ [Event.launched w.2.launches],
              launches := w.2.launches + 1 }))
  get fut w :=
    let r := K.get fut.1 w.1
    (r.1, (r.2, { w.2 with events := w.2.events ++ [Event.joined fut.2] }))

/-- The events of chunk `k` in parallel mode: one launch per index of the chunk, then one
join per index of the chunk, both in index order. -/
def chunkEvents (iBatchSize stTotalFiles k : Nat) : List Event :=
  (chunkIndices k iBatchSize stTotalFiles).map Event.launched
    ++ (chunkIndices k iBatchSize stTotalFiles).map Event.joined

/-- The number of launches in a list of events. -/
def launchCount (t : List Event) : Nat :=
  t.countP (fun e => match e with | .launched _ => true | .joined _ => false)

/-- The number of joins in a list of events. -/
def joinCount (t : List Event) : Nat :=
  t.countP (fun e => match e with | .launched _ => false | .joined _ => true)

/-- The numbers of the launches in a list of events, in order. -/
def launchedIds (t : List Event) : List Nat :=
  t.filterMap (fun e => match e with | .launched i => some i | .joined _ => none)

/-- The numbers of the joins in a list of events, in order. -/
def joinedIds (t : List Event) : List Nat :=
  t.filterMap (fun e => match e with | .launched _ => none | .joined i => some i)

/-! ## Configuration helpers (config.cpp) -/

/-- The statement `std::transform(s.begin(), s.end(), s.begin(), tolower)` in the "C" locale:
the letters `A` to `Z` are replaced by `a` to `z`, every other character is kept. -/
def transformToLower (s : String) : String :=
  String.mk (s.data.map Char.toLower)

/-- The statement `if (!s.empty() && s[0] != '.') s = "." + s;` of config.cpp. -/
def addLeadingDot (s : String) : String :=
  if s.data ≠ [] ∧ s.data.head? ≠ some '.' then "." ++ s else s

/-- The table `vsSUPPORTED_INPUT_FORMATS` of config.h. -/
def vsSUPPORTED_INPUT_FORMATS : List String := [".heic", ".heif", ".HEIC", ".HEIF"]

/-- `fn_isSupportedInputFormat` (config.cpp): an empty string is rejected; otherwise the
string is lower-cased, then given a leading period when it has none, then looked up in
`vsSUPPORTED_INPUT_FORMATS`. -/
def fn_isSupportedInputFormat (sExtension : String) : Bool :=
  if sExtension.data = [] then false
  else
    let sLowerExtension := addLeadingDot (transformToLower sExtension)
    vsSUPPORTED_INPUT_FORMATS.any (fun sSupportedFormat => sLowerExtension == sSupportedFormat)

/-- `fn_normalizeExtension` (config.cpp): a leading period is added when a non-empty string
has none, then the string is lower-cased. -/
def fn_normalizeExtension (sExtension : String) : String :=
  transformToLower (addLeadingDot sExtension)

/-- `fn_getDefaultOutputFormat` (config.cpp). -/
def fn_getDefaultOutputFormat : String := ".jpg"

/-- The characters of `std::filesystem::path::parent_path()` on a POSIX system: the path up to
the end of its last-but-one component.  That is the part before the final name without the
separators that end it, or the root directory `/` when nothing but separators comes before the
final name. -/
def parentPathChars (p : List Char) : List Char :=
  let dirPart := (p.reverse.dropWhile (fun c => c ≠ '/')).reverse
  let stripped := (dirPart.reverse.dropWhile (fun c => c = '/')).reverse
  if stripped = [] then (if dirPart = [] then [] else ['/']) else stripped

/-- The model of `std::filesystem::path(p).parent_path().string()`. -/
def parentPath (p : String) : String :=
  String.mk (parentPathChars p.data)

/-- The model of `std::filesystem::path(p).has_extension()`. -/
def hasExtension (p : String) : Bool :=
  !(extensionChars (filenameChars p.data)).isEmpty

/-- `fn_getDefaultOutputPath` (config.cpp); `isDirectory` is the answer of
`std::filesystem::is_directory` for a path. -/
def fn_getDefaultOutputPath (isDirectory : String → Bool) (sInputPath : String) : String :=
  if isDirectory sInputPath then sInputPath
  else if hasExtension sInputPath then
    let sStem := pathStem sInputPath
    parentPath sInputPath ++ "/" ++ sStem ++ fn_getDefaultOutputFormat
  else sInputPath ++ fn_getDefaultOutputFormat

/-- The path `p` with its extension (the characters `std::filesystem::path::extension()`
gives) replaced by `sNewExtension`: `p` up to its extension, then `sNewExtension`. -/
def withExtensionReplaced (p sNewExtension : String) : String :=
  String.mk (p.data.take (p.data.length - (extensionChars (filenameChars p.data)).length))
    ++ sNewExtension

/-- The string `e` lower-cased and with a leading period added when it does not start with
one. -/
def lowerCasedDotted (e : String) : String :=
  if (transformToLower e).data.head? = some '.' then transformToLower e
  else "." ++ transformToLower e

/-! ## Single-file conversion (image_processor.cpp, converter.cpp) -/

/-- The error code `ERROR_SUCCESS` of config.h. -/
def ERROR_SUCCESS : Int := 0

/-- The error code `ERROR_FILE_NOT_FOUND` of config.h. -/
def ERROR_FILE_NOT_FOUND : Int := 3

/-- The error code `ERROR_WRITE_PERMISSION` of config.h. -/
def ERROR_WRITE_PERMISSION : Int := 5

/-- The error code `ERROR_DECODING_FAILED` of config.h. -/
def ERROR_DECODING_FAILED : Int := 6

/-- The fields of `struct oDecodedImage` (heic_decoder.h) that `ImageProcessor` reads. -/
structure oDecodedImage where
  vData : List Nat
  iWidth : Int
  iHeight : Int
  iChannels : Int
  sError : String
  deriving DecidableEq, Repr

/-- What `ImageProcessor` and `Converter` call without defining it, over a world state `σ`. -/
structure ConverterWorld (σ : Type) where
  /-- The call `std::filesystem::exists(p)`. -/
  pathExists : String → σ → Bool
  /-- The call `std::filesystem::create_directories(p)`: its result, or a thrown
  `filesystem_error`. -/
  createDirectories : String → σ → Except Thrown Bool × σ
  /-- The calls `HeicDecoder oDecoder; oDecoder.fn_setEmbeddedCodecPath(..);
  oDecoder.fn_decodeFile(sInputPath)`. -/
  fn_decodeFile : String → σ → oDecodedImage × σ

namespace ImageProcessor

/-- `ImageProcessor::fn_getSupportedOutputFormats`. -/
def fn_getSupportedOutputFormats : List String :=
  ["jpg", "jpeg", "png", "webp", "bmp", "tiff"]

/-- `ImageProcessor::fn_validateOutputFormat`: the lower-cased format is looked up in the
supported output formats. -/
def fn_validateOutputFormat (sFormat : String) : Bool :=
  let sLowerFormat := transformToLower sFormat
  fn_getSupportedOutputFormats.any (fun sSupportedFormat => sLowerFormat == sSupportedFormat)

/-- `ImageProcessor::fn_determineOutputFormat`: the lower-cased extension of the output path
without its period when that is a supported format, and "jpg" otherwise. -/
def fn_determineOutputFormat (sOutputPath : String) : String :=
  let sExtension := pathExtension sOutputPath
  if sExtension.data = [] then "jpg"
  else
    let sExtension :=
      if sExtension.data.head? = some '.' then String.mk (sExtension.data.drop 1)
      else sExtension
    let sExtension := transformToLower sExtension
    if !fn_validateOutputFormat sExtension then "jpg" else sExtension

/-- `ImageProcessor::fn_decodeHEIC`: the decoded image, or nothing when the decoder reports
an error text. -/
def fn_decodeHEIC {σ : Type} (W : ConverterWorld σ) (sInputPath : String) (w : σ) :
    Option oDecodedImage × σ :=
  let r := W.fn_decodeFile sInputPath w
  if r.1.sError.data ≠ [] then (none, r.2) else (some r.1, r.2)

/-- `ImageProcessor::fn_encodeImage`: the dispatch on the lower-cased format, each branch of
which is a placeholder that returns `false`. -/
def fn_encodeImage (_pImageData : List Nat) (_iWidth _iHeight _iChannels : Int)
    (_sOutputPath sOutputFormat : String) (_iQuality : Int) : Bool :=
  let sFormat := transformToLower sOutputFormat
  if sFormat == "jpg" || sFormat == "jpeg" then false
  else if sFormat == "png" then false
  else if sFormat == "webp" then false
  else if sFormat == "bmp" then false
  else if sFormat == "tiff" then false
  else false

/-- `ImageProcessor::fn_convertImage`.  The member `m_sLastError`, which only
`fn_getLastError` reads, is left out like the log. -/
def fn_convertImage {σ : Type} (W : ConverterWorld σ)
    (sInputPath sOutputPath sOutputFormat : String) (iQuality : Int) (w : σ) : Bool × σ :=
  if !W.pathExists sInputPath w then (false, w)
  else
    let sFormat :=
      if sOutputFormat.data = [] then fn_determineOutputFormat sOutputPath else sOutputFormat
    if !fn_validateOutputFormat sFormat then (false, w)
    else if iQuality < 1 ∨ iQuality > 100 then (false, w)
    else
      match fn_decodeHEIC W sInputPath w with
      | (none, w1) => (false, w1)
      | (some oResult, w1) =>
        let bEncodeSuccess := fn_encodeImage oResult.vData oResult.iWidth oResult.iHeight
          oResult.iChannels sOutputPath sFormat iQuality
        if !bEncodeSuccess then (false, w1) else (true, w1)

end ImageProcessor

namespace Converter

/-- `Converter::fn_convertFile` with the member `m_pImageProcessor->fn_convertImage` as a
parameter: a missing input gives `ERROR_FILE_NOT_FOUND`; a missing output directory is
created, `ERROR_WRITE_PERMISSION` when that gives `false`; the format is the extension of the
output path without its period (".jpg" when there is none); the image processor is called
with the quality 85; its `false` gives `ERROR_DECODING_FAILED`, its `true`
`ERROR_SUCCESS`. -/
def fn_convertFileVia {σ : Type} (W : ConverterWorld σ)
    (fn_convertImage : String → String → String → Int → σ → Bool × σ)
    (sInputPath sOutputPath : String) (w : σ) : Except Thrown Int × σ :=
  if !W.pathExists sInputPath w then (.ok ERROR_FILE_NOT_FOUND, w)
  else
    let outputDir := parentPath sOutputPath
    let created : Except Thrown Bool × σ :=
      if outputDir.data ≠ [] ∧ !W.pathExists outputDir w then
        W.createDirectories outputDir w
      else (.ok true, w)
    match created with
    | (.error e, w1) => (.error e, w1)
    | (.ok false, w1) => (.ok ERROR_WRITE_PERMISSION, w1)
    | (.ok true, w1) =>
      let sOutputFormat := pathExtension sOutputPath
      let sOutputFormat := if sOutputFormat.data = [] then ".jpg" else sOutputFormat
      let formatWithoutDot :=
        if sOutputFormat.data.head? = some '.' then String.mk (sOutputFormat.data.drop 1)
        else sOutputFormat
      let r := fn_convertImage sInputPath sOutputPath formatWithoutDot 85 w1
      if !r.1 then (.ok ERROR_DECODING_FAILED, r.2) else (.ok ERROR_SUCCESS, r.2)

/-- `Converter::fn_convertFile`: the image processor of a `Converter` is an
`ImageProcessor`. -/
def fn_convertFile {σ : Type} (W : ConverterWorld σ) (sInputPath sOutputPath : String) (w : σ) :
    Except Thrown Int × σ :=
  fn_convertFileVia W (ImageProcessor.fn_convertImage W) sInputPath sOutputPath w

end Converter

/-! ## BMP encoder (format_encoder.cpp) -/

/-- The value of an `int` expression whose mathematical value is `x`: two's complement
wrap-around into 32 signed bits.  C++ leaves signed overflow undefined; the compilers of the
supported platforms wrap. -/
def wrapInt32 (x : Int) : Int :=
  (x + 2147483648) % 4294967296 - 2147483648

/-- The conversion of an `int` or `size_t` value to `uint32_t`: reduction modulo `2^32`. -/
def toUInt32 (x : Int) : Nat :=
  (x % 4294967296).toNat

/-- The C++ remainder `a % b` on `int`: the quotient is truncated towards zero, so the
remainder has the sign of `a`. -/
def cRem (a b : Int) : Int :=
  if 0 ≤ a then a % b else -((-a) % b)

/-- The fields of `sImageData` (format_encoder.h) that `fn_encodeBMP` reads.  `pData` is a raw
pointer: `pData k` is the byte at offset `k` from it. -/
structure sImageData where
  pData : Int → Nat
  iWidth : Int
  iHeight : Int
  iChannels : Int

/-- The local `struct sBMPFileHeader` of `fn_encodeBMP`, packed to 14 bytes. -/
structure sBMPFileHeader where
  bfType : Nat
  bfSize : Nat
  bfReserved1 : Nat
  bfReserved2 : Nat
  bfOffBits : Nat
  deriving DecidableEq, Repr

/-- The local `struct sBMPInfoHeader` of `fn_encodeBMP`, packed to 40 bytes; the `int32_t`
fields hold the two's complement bit pattern. -/
structure sBMPInfoHeader where
  biSize : Nat
  biWidth : Nat
  biHeight : Nat
  biPlanes : Nat
  biBitCount : Nat
  biCompression : Nat
  biSizeImage : Nat
  biXPelsPerMeter : Nat
  biYPelsPerMeter : Nat
  biClrUsed : Nat
  biClrImportant : Nat
  deriving DecidableEq, Repr

/-- The two bytes of a `uint16_t` in memory on a little-endian machine. -/
def le16 (n : Nat) : List Nat :=
  [n % 256, n / 256 % 256]

/-- The four bytes of a `uint32_t` or `int32_t` in memory on a little-endian machine. -/
def le32 (n : Nat) : List Nat :=
  [n % 256, n / 256 % 256, n / 65536 % 256, n / 16777216 % 256]

namespace FormatEncoder

/-- `int iRowPadding = (4 - (iWidth * iChannels) % 4) % 4;` -/
def iRowPadding (oImageData : sImageData) : Int :=
  cRem (4 - cRem (wrapInt32 (oImageData.iWidth * oImageData.iChannels)) 4) 4

/-- `int iRowSize = iWidth * iChannels + iRowPadding;` -/
def iRowSize (oImageData : sImageData) : Int :=
  wrapInt32 (wrapInt32 (oImageData.iWidth * oImageData.iChannels) + iRowPadding oImageData)

/-- The info header as `fn_encodeBMP` fills it: the defaults of the struct, the image
dimensions, `biBitCount = iChannels * 8` and `biSizeImage = iRowSize * iHeight`. -/
def bmpInfoHeader (oImageData : sImageData) : sBMPInfoHeader :=
  { biSize := 40
    biWidth := toUInt32 oImageData.iWidth
    biHeight := toUInt32 oImageData.iHeight
    biPlanes := 1
    biBitCount := (wrapInt32 (oImageData.iChannels * 8) % 65536).toNat
    biCompression := 0
    biSizeImage := toUInt32 (wrapInt32 (iRowSize oImageData * oImageData.iHeight))
    biXPelsPerMeter := 0
    biYPelsPerMeter := 0
    biClrUsed := 0
    biClrImportant := 0 }

/-- The file header as `fn_encodeBMP` fills it:
`bfOffBits = sizeof(sBMPFileHeader) + sizeof(sBMPInfoHeader)` and
`bfSize = bfOffBits + biSizeImage`, both in `uint32_t`. -/
def bmpFileHeader (oImageData : sImageData) : sBMPFileHeader :=
  { bfType := 0x4D42
    bfSize := (toUInt32 (14 + 40) + (bmpInfoHeader oImageData).biSizeImage) % 4294967296
    bfReserved1 := 0
    bfReserved2 := 0
    bfOffBits := toUInt32 (14 + 40) }

/-- The bytes `oFile.write(reinterpret_cast<char*>(&oFileHeader), sizeof(oFileHeader))`
writes. -/
def fileHeaderBytes (h : sBMPFileHeader) : List Nat :=
  le16 h.bfType ++ le32 h.bfSize ++ le16 h.bfReserved1 ++ le16 h.bfReserved2 ++ le32 h.bfOffBits

/-- The bytes `oFile.write(reinterpret_cast<char*>(&oInfoHeader), sizeof(oInfoHeader))`
writes. -/
def infoHeaderBytes (h : sBMPInfoHeader) : List Nat :=
  le32 h.biSize ++ le32 h.biWidth ++ le32 h.biHeight ++ le16 h.biPlanes ++ le16 h.biBitCount
    ++ le32 h.biCompression ++ le32 h.biSizeImage ++ le32 h.biXPelsPerMeter
    ++ le32 h.biYPelsPerMeter ++ le32 h.biClrUsed ++ le32 h.biClrImportant

/-- The bytes the body of the loop over `x` puts for pixel `x` of the row at offset `pRow`:
B, G, R, and A for four channels. -/
def bmpPixel (oImageData : sImageData) (pRow : Int) (x : Nat) : List Nat :=
  if oImageData.iChannels ≥ 3 then
    [oImageData.pData (pRow + wrapInt32 (wrapInt32 ((x : Int) * oImageData.iChannels) + 2)),
     oImageData.pData (pRow + wrapInt32 (wrapInt32 ((x : Int) * oImageData.iChannels) + 1)),
     oImageData.pData (pRow + wrapInt32 (wrapInt32 ((x : Int) * oImageData.iChannels) + 0))]
    ++ (if oImageData.iChannels = 4 then
      [oImageData.pData (pRow + wrapInt32 (wrapInt32 ((x : Int) * oImageData.iChannels) + 3))]
      else [])
  else []

/-- The pixel bytes of row `y`: the loop `for (int x = 0; x < iWidth; x++)`. -/
def bmpRowData (oImageData : sImageData) (y : Nat) : List Nat :=
  let pRow := wrapInt32 (wrapInt32 ((y : Int) * oImageData.iWidth) * oImageData.iChannels)
  (List.range oImageData.iWidth.toNat).flatMap (bmpPixel oImageData pRow)

/-- The bytes put for row `y`: its pixels, then the loop
`for (int p = 0; p < iRowPadding; p++) oFile.put(0)`. -/
def bmpRow (oImageData : sImageData) (y : Nat) : List Nat :=
  bmpRowData oImageData y ++ List.replicate (iRowPadding oImageData).toNat 0

/-- The rows in the order they are written: the loop
`for (int y = iHeight - 1; y >= 0; y--)`. -/
def bmpRows (oImageData : sImageData) : List (List Nat) :=
  (List.range oImageData.iHeight.toNat).reverse.map (bmpRow oImageData)

/-- `FormatEncoder::fn_encodeBMP`: `none` stands for the result `false` (a channel count other
than 3 and 4, or `bOpens = false`: the output stream does not open), `some bytes` for the
result `true` after `bytes` have been handed to the stream, in this order. -/
def fn_encodeBMP (bOpens : Bool) (oImageData : sImageData) : Option (List Nat) :=
  if oImageData.iChannels ≠ 3 ∧ oImageData.iChannels ≠ 4 then none
  else if !bOpens then none
  else
    some (fileHeaderBytes (bmpFileHeader oImageData)
      ++ infoHeaderBytes (bmpInfoHeader oImageData)
      ++ (bmpRows oImageData).flatten)

end FormatEncoder

/-! ## Writing EXIF into a JPEG file: the fallback path (metadata_handler.cpp) -/

/-- How the loop that skips the APP0/APP1 segments ends: with the final `pos`, or at a read
`fileData[index]` with `index >= fileData.size()`, which C++ leaves undefined. -/
inductive SkipOutcome where
  | done (pos : Nat)
  | outOfBounds (index : Nat)
  deriving DecidableEq, Repr

/-- The value of `uint16_t markerLength = (fileData[pos + 2] << 8) | fileData[pos + 3]`. -/
def markerLengthOf (hi lo : Nat) : Nat :=
  ((hi <<< 8) ||| lo) % 65536

/-- The loop `while (pos < fileData.size())` of `writeExifToJpeg` (lines 286-304), with a
bound on the number of rounds; `none` when the bound is used up.  Every `fileData[i]` is
looked up in the vector; a lookup outside it ends the run with `outOfBounds i`. -/
def skipLoop (fileData : List Nat) : Nat → Nat → Option SkipOutcome
  | 0, pos => if pos < fileData.length then none else some (.done pos)
  | fuel + 1, pos =>
    if pos < fileData.length then
      match fileData[pos]? with
      | none => some (.outOfBounds pos)
      | some b0 =>
        if b0 ≠ 0xFF then some (.done pos)
        else
          match fileData[pos + 1]? with
          | none => some (.outOfBounds (pos + 1))
          | some marker =>
            if marker = 0xE0 ∨ marker = 0xE1 then
              if pos + 3 ≥ fileData.length then some (.done pos)
              else
                match fileData[pos + 2]?, fileData[pos + 3]? with
                | some hi, some lo =>
                  skipLoop fileData fuel (pos + (markerLengthOf hi lo + 2))
                | none, _ => some (.outOfBounds (pos + 2))
                | _, none => some (.outOfBounds (pos + 3))
            else some (.done pos)
    else some (.done pos)

/-- The skip loop as `writeExifToJpeg` runs it: `size_t pos = 2`, and as many rounds as the
file has bytes, which is enough for every file (see `skipLoop_terminates`). -/
def skipExistingMarkers (fileData : List Nat) : Option SkipOutcome :=
  skipLoop fileData fileData.length 2

/-- The bytes of "Exif\0\0". -/
def exifHeader : List Nat := [0x45, 0x78, 0x69, 0x66, 0, 0]

/-- The test `hasHeader` of `writeExifToJpeg`: at least six bytes, the first six being
"Exif\0\0". -/
def hasHeader (exifData : List Nat) : Bool :=
  decide (exifData.length ≥ 6) && exifData.getD 0 0 == 0x45 && exifData.getD 1 0 == 0x78
    && exifData.getD 2 0 == 0x69 && exifData.getD 3 0 == 0x66
    && exifData.getD 4 0 == 0 && exifData.getD 5 0 == 0

/-- The vector `exifToWrite`: the payload itself when it has the header, else the header
followed by the payload. -/
def exifToWrite (exifData : List Nat) : List Nat :=
  if hasHeader exifData then exifData else exifHeader ++ exifData

/-- The value of `uint16_t segmentLength = static_cast<uint16_t>(exifToWrite.size() + 2)`. -/
def segmentLength (exifData : List Nat) : Nat :=
  ((exifToWrite exifData).length + 2) % 65536

/-- The start of `newFileData` (lines 265-284): SOI, the APP1 marker, the two length bytes
`(segmentLength >> 8) & 0xFF` and `segmentLength & 0xFF`, then `exifToWrite`. -/
def newFileDataStart (exifData : List Nat) : List Nat :=
  [0xFF, 0xD8, 0xFF, 0xE1,
    ((segmentLength exifData) >>> 8) &&& 0xFF, (segmentLength exifData) &&& 0xFF]
  ++ exifToWrite exifData

/-- What the fallback path of `writeExifToJpeg` does with a file that was read as
`fileData`, for a non-empty payload: `notJpeg` is the result `false` for a file that does not
start with FF D8; `written bytes` is the new content `newFileData` handed to the output
stream; `undefinedBehaviour` stands for a run that leaves the vector (a read outside it in
the skip loop, or a final `pos` beyond its end, where `fileData.begin() + pos` is past the
end). -/
inductive FallbackResult where
  | notJpeg
  | written (newFileData : List Nat)
  | undefinedBehaviour
  deriving DecidableEq, Repr

/-- The fallback path of `MetadataHandler::writeExifToJpeg` (lines 226-317) on the file
content `fileData`, for an output stream that opens. -/
def writeExifFallback (fileData exifData : List Nat) : Option FallbackResult :=
  if fileData.length < 2 ∨ fileData.getD 0 0 ≠ 0xFF ∨ fileData.getD 1 0 ≠ 0xD8 then
    some .notJpeg
  else
    match skipExistingMarkers fileData with
    | none => none
    | some (.outOfBounds _) => some .undefinedBehaviour
    | some (.done pos) =>
      if pos ≤ fileData.length then
        some (.written (newFileDataStart exifData ++ fileData.drop pos))
      else some .undefinedBehaviour

/-! # Theorems -/

/-! ## Chunk arithmetic -/

theorem stBatches_mul_ge (n b : Nat) (hb : 1 ≤ b) : n ≤ stBatches n b * b := by
  unfold stBatches
  have h := Nat.lt_div_mul_add (a := n + b - 1) (b := b) (by omega)
  omega

theorem stBatches_pred_mul_lt (n b : Nat) (hn : 1 ≤ n) (hb : 1 ≤ b) :
    (stBatches n b - 1) * b < n := by
  unfold stBatches
  have h := Nat.div_mul_le_self (n + b - 1) b
  have hq : 1 ≤ (n + b - 1) / b := by
    rw [Nat.le_div_iff_mul_le (by omega)]
    omega
  have e : ((n + b - 1) / b - 1) * b = (n + b - 1) / b * b - b := by
    rw [Nat.sub_mul, Nat.one_mul]
  rw [e]
  have : b ≤ (n + b - 1) / b * b := by
    calc b = 1 * b := (Nat.one_mul b).symm
      _ ≤ (n + b - 1) / b * b := Nat.mul_le_mul_right b hq
  omega

theorem stStart_succ (k b : Nat) : stStart (k + 1) b = stStart k b + b := by
  unfold stStart
  rw [Nat.succ_mul]

theorem stStart_mono (j k b : Nat) (h : j ≤ k) : stStart j b ≤ stStart k b := by
  unfold stStart
  exact Nat.mul_le_mul_right b h

/-- A chunk below the chunk count starts inside the list. -/
theorem stStart_lt (n b k : Nat) (hb : 1 ≤ b) (hk : k < stBatches n b) : stStart k b < n := by
  have hn : 1 ≤ n := by
    rcases Nat.eq_zero_or_pos n with h | h
    · subst h
      unfold stBatches at hk
      have : (0 + b - 1) / b = 0 := by
        apply Nat.div_eq_of_lt
        omega
      omega
    · exact h
  have h1 := stBatches_pred_mul_lt n b hn hb
  have h2 := stStart_mono k (stBatches n b - 1) b (by omega)
  unfold stStart at h2 ⊢
  omega

theorem chunkIndices_length (k b n : Nat) :
    (chunkIndices k b n).length = stEnd k b n - stStart k b := by
  unfold chunkIndices
  rw [List.length_range']

/-- The indices of the chunks `0 .. m-1`, one chunk after the other, are `0 .. min (m*b) n - 1`. -/
theorem range_chunks (n b : Nat) (m : Nat) :
    ((List.range m).map (fun k => chunkIndices k b n)).flatten
      = List.range (min (stStart m b) n) := by
  induction m with
  | zero => simp [stStart]
  | succ m ih =>
    rw [List.range_succ, List.map_append, List.flatten_append, ih]
    simp only [List.map_cons, List.map_nil, List.flatten_cons, List.flatten_nil,
      List.append_nil]
    unfold chunkIndices stEnd
    rw [stStart_succ]
    generalize stStart m b = x
    rcases Nat.lt_or_ge n x with h | h
    · have e1 : min (x + b) n - x = 0 := by omega
      have e2 : min x n = min (x + b) n := by omega
      rw [e1, e2]
      simp
    · have e2 : min x n = x := by omega
      rw [e2, List.range_eq_range', List.range_eq_range']
      have := List.range'_append 0 x (min (x + b) n - x) 1
      simp only [Nat.zero_add, Nat.one_mul] at this
      rw [this]
      congr 1
      omega

/-- All chunks together visit every index of the list once, in increasing order. -/
theorem range_chunks_all (n b : Nat) (hb : 1 ≤ b) :
    ((List.range (stBatches n b)).map (fun k => chunkIndices k b n)).flatten = List.range n := by
  rw [range_chunks]
  have := stBatches_mul_ge n b hb
  unfold stStart
  congr 1
  omega

theorem map_getD_range (l : List String) :
    (List.range l.length).map (fun i => l.getD i "") = l := by
  apply List.ext_getElem
  · simp
  · intro i h1 h2
    simp only [List.getElem_map, List.getElem_range]
    exact List.getD_eq_getElem l "" h2

theorem mem_chunkIndices (k b n i : Nat) :
    i ∈ chunkIndices k b n ↔ k * b ≤ i ∧ i < min ((k + 1) * b) n := by
  unfold chunkIndices stEnd stStart
  rw [List.mem_range', Nat.succ_mul]
  constructor
  · rintro ⟨j, hj, rfl⟩
    omega
  · rintro ⟨h1, h2⟩
    exact ⟨i - k * b, by omega, by omega⟩

theorem stBatches_eq_ceil (n b : Nat) (hn : 1 ≤ n) (hb : 1 ≤ b) :
    stBatches n b = ⌈(n : ℚ) / (b : ℚ)⌉₊ := by
  have hbq : (0 : ℚ) < (b : ℚ) := by exact_mod_cast hb
  apply le_antisymm
  · have h := stBatches_pred_mul_lt n b hn hb
    have h2 : ((stBatches n b - 1 : ℕ) : ℚ) < (n : ℚ) / (b : ℚ) := by
      rw [lt_div_iff₀ hbq]
      exact_mod_cast h
    have h3 := Nat.lt_ceil.mpr h2
    omega
  · rw [Nat.ceil_le, div_le_iff₀ hbq]
    exact_mod_cast stBatches_mul_ge n b hb

/-- C6: for a list of n >= 1 files and a batch size b >= 1 the scheduler forms ceil(n/b)
chunks; chunk k visits exactly the indices from k*b up to, not including, min((k+1)*b, n);
every chunk is non-empty and has at most b files, every chunk but the last has exactly b, and
the chunks in order give back the input list.  With b = 2 and n = 5 the sizes are 2, 2, 1. -/
theorem chunks_partition_input (vsFiles : List String) (b : Nat)
    (hn : 1 ≤ vsFiles.length) (hb : 1 ≤ b) :
    stBatches vsFiles.length b = ⌈(vsFiles.length : ℚ) / (b : ℚ)⌉₊ ∧
    (∀ k, k < stBatches vsFiles.length b →
      (∀ i, i ∈ chunkIndices k b vsFiles.length ↔
        k * b ≤ i ∧ i < min ((k + 1) * b) vsFiles.length) ∧
      chunkIndices k b vsFiles.length
        = List.range' (k * b) (min ((k + 1) * b) vsFiles.length - k * b) ∧
      chunkFiles vsFiles b k ≠ [] ∧
      (chunkFiles vsFiles b k).length ≤ b ∧
      (k + 1 < stBatches vsFiles.length b → (chunkFiles vsFiles b k).length = b)) ∧
    ((List.range (stBatches vsFiles.length b)).map (chunkFiles vsFiles b)).flatten = vsFiles ∧
    (List.range (stBatches 5 2)).map (fun k => (chunkIndices k 2 5).length) = [2, 2, 1] := by
  refine ⟨stBatches_eq_ceil _ b hn hb, ?_, ?_, by decide⟩
  · intro k hk
    have hlt := stStart_lt vsFiles.length b k hb hk
    have hlen : (chunkFiles vsFiles b k).length
        = stEnd k b vsFiles.length - stStart k b := by
      unfold chunkFiles
      rw [List.length_map, chunkIndices_length]
    refine ⟨fun i => mem_chunkIndices k b _ i, ?_, ?_, ?_, ?_⟩
    · unfold chunkIndices stEnd stStart
      rw [Nat.succ_mul]
    · intro h
      rw [h] at hlen
      unfold stEnd at hlen
      simp only [List.length_nil] at hlen
      omega
    · rw [hlen]
      unfold stEnd
      omega
    · intro hk1
      have h1 := stStart_lt vsFiles.length b (k + 1) hb hk1
      rw [stStart_succ] at h1
      rw [hlen]
      unfold stEnd
      omega
  · have h := range_chunks_all vsFiles.length b hb
    have e : (List.range (stBatches vsFiles.length b)).map (chunkFiles vsFiles b)
        = ((List.range (stBatches vsFiles.length b)).map
            (fun k => chunkIndices k b vsFiles.length)).map
              (List.map (fun i => vsFiles.getD i "")) := by
      rw [List.map_map]
      rfl
    rw [e, ← List.map_flatten, h, map_getD_range]

/-- The chunking theorem at five files and batch size two. -/
theorem chunks_partition_input_witness :
    1 ≤ ["a", "b", "c", "d", "e"].length ∧ 1 ≤ 2 ∧
    stBatches 5 2 = ⌈((5 : ℕ) : ℚ) / ((2 : ℕ) : ℚ)⌉₊ ∧
    ((List.range (stBatches 5 2)).map (chunkFiles ["a", "b", "c", "d", "e"] 2)).flatten
      = ["a", "b", "c", "d", "e"] :=
  ⟨by decide, by decide,
    (chunks_partition_input ["a", "b", "c", "d", "e"] 2 (by decide) (by decide)).1,
    (chunks_partition_input ["a", "b", "c", "d", "e"] 2 (by decide) (by decide)).2.2.1⟩


/-! ## Counting invariant of the scheduler -/

theorem outcomesRecorded_recordOutcome (bp : BatchProcessor) (b : Bool) (f : String) :
    outcomesRecorded (bp.recordOutcome b f) = outcomesRecorded bp + 1 := by
  unfold outcomesRecorded BatchProcessor.recordOutcome
  cases b <;> simp <;> omega

theorem outcomesRecorded_sequential {σ φ : Type} (K : Collab σ φ) (vsFiles : List String)
    (fmt dir : String) (q : Int) (pm : Bool) (idxs : List Nat) (s : BatchProcessor × σ) :
    outcomesRecorded (processChunkSequential K vsFiles fmt dir q pm idxs s).1
      = outcomesRecorded s.1 + idxs.length := by
  unfold processChunkSequential
  induction idxs generalizing s with
  | nil => simp
  | cons i rest ih =>
    rw [List.foldl_cons, ih]
    simp only [outcomesRecorded_recordOutcome, List.length_cons]
    push_cast
    omega

theorem launchChunk_length_aux {σ φ : Type} (K : Collab σ φ) (vsFiles : List String)
    (fmt dir : String) (q : Int) (pm : Bool) (idxs : List Nat) (acc : List φ × σ) :
    (idxs.foldl (fun acc stIdx =>
        let r := K.async (fn_processSingleFile K (vsFiles.getD stIdx "") fmt dir q pm) acc.2
        (acc.1 ++ [r.1], r.2)) acc).1.length = acc.1.length + idxs.length := by
  induction idxs generalizing acc with
  | nil => simp
  | cons i rest ih =>
    rw [List.foldl_cons, ih]
    simp only [List.length_append, List.length_cons, List.length_nil]
    omega

/-- One future is pushed per index of the chunk. -/
theorem launchChunk_length {σ φ : Type} (K : Collab σ φ) (vsFiles : List String)
    (fmt dir : String) (q : Int) (pm : Bool) (idxs : List Nat) (w : σ) :
    (launchChunk K vsFiles fmt dir q pm idxs w).1.length = idxs.length := by
  unfold launchChunk
  rw [launchChunk_length_aux]
  simp

theorem outcomesRecorded_collect {σ φ : Type} (K : Collab σ φ) (vsFiles : List String)
    (st : Nat) (vf : List φ) (idxs : List Nat) (s : BatchProcessor × σ)
    (h : ∀ i ∈ idxs, i - st < vf.length) :
    outcomesRecorded (collectChunk K vsFiles st vf idxs s).1
      = outcomesRecorded s.1 + idxs.length := by
  unfold collectChunk
  induction idxs generalizing s with
  | nil => simp
  | cons i rest ih =>
    rw [List.foldl_cons, ih _ (fun j hj => h j (List.mem_cons_of_mem _ hj))]
    have hi := h i (List.mem_cons_self _ _)
    rw [List.getElem?_eq_getElem hi]
    simp only [outcomesRecorded_recordOutcome, List.length_cons]
    push_cast
    omega

/-- Every chunk records one outcome per index, in parallel and in sequential mode. -/
theorem outcomesRecorded_processChunk {σ φ : Type} (K : Collab σ φ) (bp : BatchProcessor)
    (vsFiles : List String) (fmt dir : String) (q : Int) (pm : Bool)
    (s : BatchProcessor × σ) (k : Nat) :
    outcomesRecorded (processChunk K bp vsFiles fmt dir q pm s k).1
      = outcomesRecorded s.1 + (chunkIndices k bp.iBatchSize.toNat vsFiles.length).length := by
  unfold processChunk
  cases bp.bParallelProcessing with
  | false => simp [outcomesRecorded_sequential]
  | true =>
    simp only [if_true]
    rw [outcomesRecorded_collect]
    intro i hi
    rw [launchChunk_length, chunkIndices_length]
    unfold chunkIndices at hi
    rw [List.mem_range'] at hi
    obtain ⟨j, hj, rfl⟩ := hi
    omega

theorem outcomesRecorded_chunks {σ φ : Type} (K : Collab σ φ) (bp : BatchProcessor)
    (vsFiles : List String) (fmt dir : String) (q : Int) (pm : Bool)
    (ks : List Nat) (s : BatchProcessor × σ) :
    outcomesRecorded (ks.foldl (processChunk K bp vsFiles fmt dir q pm) s).1
      = outcomesRecorded s.1
        + ((ks.map (fun k => chunkIndices k bp.iBatchSize.toNat vsFiles.length)).flatten).length := by
  induction ks generalizing s with
  | nil => simp
  | cons k rest ih =>
    rw [List.foldl_cons, ih, outcomesRecorded_processChunk]
    simp only [List.map_cons, List.flatten_cons, List.length_append]
    push_cast
    omega

/-- The scheduler records exactly one outcome per file of the list. -/
theorem outcomesRecorded_internalBatchProcess {σ φ : Type} (K : Collab σ φ)
    (bp : BatchProcessor) (vsFiles : List String) (fmt dir : String) (q : Int)
    (pm verbose : Bool) (w : σ) (hb : 1 ≤ bp.iBatchSize) :
    outcomesRecorded (fn_internalBatchProcess K bp vsFiles fmt dir q pm verbose w).2.1
      = outcomesRecorded bp + vsFiles.length := by
  unfold fn_internalBatchProcess
  cases hv : vsFiles with
  | nil => simp
  | cons f rest =>
    simp only [List.isEmpty_cons, Bool.false_eq_true, if_false]
    rw [outcomesRecorded_chunks, range_chunks_all _ _ (by omega)]
    simp

theorem outcomesRecorded_clear (bp : BatchProcessor) :
    outcomesRecorded bp.fn_clearStatistics = 0 := by
  simp [outcomesRecorded, BatchProcessor.fn_clearStatistics]


/-! ## Statistics after a batch call -/

/-- C1, as stated, fails: with one input file and an output directory that neither passes
the exists-and-writable check nor can be created, `fn_processBatch` returns before any file is
scheduled, and processed + failed is 0, not 1 (batch size 10, parallel mode). -/
theorem processBatch_counts_unusable_directory :
    ["a.heic"] ≠ [] ∧ 1 ≤ BatchProcessor.new.iBatchSize ∧
    ¬ ((fn_processBatch (outcomeCollab false (fun _ => true)) BatchProcessor.new
          ["a.heic"] "jpg" "out" 85 false false 0).2.1.fn_getProcessedCount
        + (fn_processBatch (outcomeCollab false (fun _ => true)) BatchProcessor.new
          ["a.heic"] "jpg" "out" 85 false false 0).2.1.fn_getFailedCount
        = ((["a.heic"].length : Nat) : Int)) := by
  decide

/-- C1 (amended): for every list of input files, every batch size >= 1, either
parallel setting and every behaviour of the collaborators, when the output directory passes
the exists-and-writable check or can be created, processed + failed equals the number of input
files after `fn_processBatch` returns; when it does not, the call returns false and both
counts are 0. -/
theorem processBatch_counts_all_files {σ φ : Type} (K : Collab σ φ) (bp : BatchProcessor)
    (vsInputFiles : List String) (sOutputFormat sOutputDirectory : String) (iQuality : Int)
    (bPreserveMetadata bVerbose : Bool) (w : σ)
    (hb : 1 ≤ bp.iBatchSize) :
    ((ensureOutputDirectory K sOutputDirectory w).1 = true →
      (fn_processBatch K bp vsInputFiles sOutputFormat sOutputDirectory iQuality
          bPreserveMetadata bVerbose w).2.1.fn_getProcessedCount
        + (fn_processBatch K bp vsInputFiles sOutputFormat sOutputDirectory iQuality
          bPreserveMetadata bVerbose w).2.1.fn_getFailedCount
        = (vsInputFiles.length : Int)) ∧
    ((ensureOutputDirectory K sOutputDirectory w).1 = false →
      (fn_processBatch K bp vsInputFiles sOutputFormat sOutputDirectory iQuality
          bPreserveMetadata bVerbose w).1 = false ∧
      (fn_processBatch K bp vsInputFiles sOutputFormat sOutputDirectory iQuality
          bPreserveMetadata bVerbose w).2.1.fn_getProcessedCount = 0 ∧
      (fn_processBatch K bp vsInputFiles sOutputFormat sOutputDirectory iQuality
          bPreserveMetadata bVerbose w).2.1.fn_getFailedCount = 0) := by
  constructor
  · intro hd
    have hb1 : 1 ≤ bp.fn_clearStatistics.iBatchSize := hb
    have h := outcomesRecorded_internalBatchProcess K bp.fn_clearStatistics vsInputFiles
      sOutputFormat sOutputDirectory iQuality bPreserveMetadata bVerbose
      (ensureOutputDirectory K sOutputDirectory w).2 hb1
    rw [outcomesRecorded_clear] at h
    unfold fn_processBatch
    simp only [hd, Bool.not_true, Bool.false_eq_true, if_false]
    unfold outcomesRecorded at h
    unfold BatchProcessor.fn_getProcessedCount BatchProcessor.fn_getFailedCount
    omega
  · intro hd
    unfold fn_processBatch
    simp [hd, BatchProcessor.fn_getProcessedCount, BatchProcessor.fn_getFailedCount,
      BatchProcessor.fn_clearStatistics]

/-- The amended C1 at three files, batch size 2, sequential mode, the third conversion
failing. -/
theorem processBatch_counts_all_files_witness :
    ["a.heic", "b.heic", "err.heic"] ≠ [] ∧
    1 ≤ ((BatchProcessor.new.fn_setBatchSize 2).fn_setParallelProcessing false).iBatchSize ∧
    (ensureOutputDirectory (outcomeCollab true (fun k => k != 2)) "out" 0).1 = true ∧
    (fn_processBatch (outcomeCollab true (fun k => k != 2))
        ((BatchProcessor.new.fn_setBatchSize 2).fn_setParallelProcessing false)
        ["a.heic", "b.heic", "err.heic"] "jpg" "out" 85 false false 0).2.1.fn_getProcessedCount
      + (fn_processBatch (outcomeCollab true (fun k => k != 2))
        ((BatchProcessor.new.fn_setBatchSize 2).fn_setParallelProcessing false)
        ["a.heic", "b.heic", "err.heic"] "jpg" "out" 85 false false 0).2.1.fn_getFailedCount
      = ((["a.heic", "b.heic", "err.heic"].length : Nat) : Int) :=
  ⟨by decide, by decide, by decide,
    (processBatch_counts_all_files (outcomeCollab true (fun k => k != 2))
      ((BatchProcessor.new.fn_setBatchSize 2).fn_setParallelProcessing false)
      ["a.heic", "b.heic", "err.heic"] "jpg" "out" 85 false false 0
      (by decide)).1 (by decide)⟩

/-- C5, as stated, fails: with an empty input list and an output directory that neither
passes the check nor can be created, `fn_processBatch` returns false. -/
theorem processBatch_empty_unusable_directory :
    ¬ ((fn_processBatch (outcomeCollab false (fun _ => true)) BatchProcessor.new
          [] "jpg" "out" 85 false false 0).1 = true) := by
  decide

/-- C5 (amended): for every batch call with an empty input list whose output directory
passes the exists-and-writable check or can be created, `fn_processBatch` returns true,
leaves processed = failed = 0 and the failed-file list empty, and invokes no conversion: the
world it leaves is the one the directory validation left, and in the counting world the
number of conversions started stays 0. -/
theorem processBatch_empty_list {σ φ : Type} (K : Collab σ φ) (bp : BatchProcessor)
    (sOutputFormat sOutputDirectory : String) (iQuality : Int)
    (bPreserveMetadata bVerbose : Bool) (w : σ)
    (hd : (ensureOutputDirectory K sOutputDirectory w).1 = true) :
    (fn_processBatch K bp [] sOutputFormat sOutputDirectory iQuality
        bPreserveMetadata bVerbose w).1 = true ∧
    (fn_processBatch K bp [] sOutputFormat sOutputDirectory iQuality
        bPreserveMetadata bVerbose w).2.1.fn_getProcessedCount = 0 ∧
    (fn_processBatch K bp [] sOutputFormat sOutputDirectory iQuality
        bPreserveMetadata bVerbose w).2.1.fn_getFailedCount = 0 ∧
    (fn_processBatch K bp [] sOutputFormat sOutputDirectory iQuality
        bPreserveMetadata bVerbose w).2.1.fn_getFailedFiles = [] ∧
    (fn_processBatch K bp [] sOutputFormat sOutputDirectory iQuality
        bPreserveMetadata bVerbose w).2.2 = (ensureOutputDirectory K sOutputDirectory w).2 ∧
    (∀ outcome : Nat → Bool,
      (fn_processBatch (outcomeCollab true outcome) bp [] sOutputFormat sOutputDirectory
        iQuality bPreserveMetadata bVerbose 0).2.2 = 0) := by
  refine ⟨?_, ?_, ?_, ?_, ?_, ?_⟩ <;>
    simp [fn_processBatch, fn_internalBatchProcess, hd, BatchProcessor.fn_getProcessedCount,
      BatchProcessor.fn_getFailedCount, BatchProcessor.fn_getFailedFiles,
      BatchProcessor.fn_clearStatistics]
  intro outcome
  simp [ensureOutputDirectory, fn_directoryExists, outcomeCollab]

/-- The amended C5 on a disk whose output directory exists, starting from a processor that
still holds statistics of an earlier run. -/
theorem processBatch_empty_list_witness :
    (ensureOutputDirectory (diskCollab noStatError (mockConvert "err")) "out" ⟨["out"], ["out"], []⟩).1
      = true ∧
    (fn_processBatch (diskCollab noStatError (mockConvert "err")) ⟨4, 1, ["old.heic"], 10, true⟩
        [] "jpg" "out" 85 false false ⟨["out"], ["out"], []⟩).1 = true ∧
    (fn_processBatch (diskCollab noStatError (mockConvert "err")) ⟨4, 1, ["old.heic"], 10, true⟩
        [] "jpg" "out" 85 false false ⟨["out"], ["out"], []⟩).2.1.fn_getProcessedCount = 0 :=
  ⟨by decide,
    (processBatch_empty_list (diskCollab noStatError (mockConvert "err")) ⟨4, 1, ["old.heic"], 10, true⟩
      "jpg" "out" 85 false false ⟨["out"], ["out"], []⟩ (by decide)).1,
    (processBatch_empty_list (diskCollab noStatError (mockConvert "err")) ⟨4, 1, ["old.heic"], 10, true⟩
      "jpg" "out" 85 false false ⟨["out"], ["out"], []⟩ (by decide)).2.1⟩


/-! ## Runs with a given outcome per list position -/

theorem outcome_processSingleFile (d : Bool) (outcome : Nat → Bool) (f fmt dir : String)
    (q : Int) (pm : Bool) (w : Nat) :
    fn_processSingleFile (outcomeCollab d outcome) f fmt dir q pm w = (outcome w, w + 1) := by
  cases h : outcome w <;>
    simp [fn_processSingleFile, processSingleFileTry, outcomeCollab, h]

theorem outcome_sequential (d : Bool) (outcome : Nat → Bool) (vsFiles : List String)
    (fmt dir : String) (q : Int) (pm : Bool) (len a : Nat) (bp : BatchProcessor) :
    processChunkSequential (outcomeCollab d outcome) vsFiles fmt dir q pm
        (List.range' a len) (bp, a)
      = ((List.range' a len).foldl (recordAt vsFiles outcome) bp, a + len) := by
  unfold processChunkSequential
  simp only [outcome_processSingleFile]
  induction len generalizing a bp with
  | zero => simp
  | succ len ih =>
    rw [List.range'_succ, List.foldl_cons, List.foldl_cons, ih]
    simp only [recordAt, Prod.mk.injEq, true_and]
    omega

theorem outcome_launch (d : Bool) (outcome : Nat → Bool) (vsFiles : List String)
    (fmt dir : String) (q : Int) (pm : Bool) (len a : Nat) (pre : List Bool) :
    (List.range' a len).foldl (fun (acc : List Bool × Nat) stIdx =>
        let r := (outcomeCollab d outcome).async
          (fn_processSingleFile (outcomeCollab d outcome) (vsFiles.getD stIdx "") fmt dir q pm)
          acc.2
        (acc.1 ++ [r.1], r.2)) (pre, a)
      = (pre ++ (List.range' a len).map outcome, a + len) := by
  have e : ∀ (f : String) (w : Nat), (outcomeCollab d outcome).async
      (fn_processSingleFile (outcomeCollab d outcome) f fmt dir q pm) w
      = (outcome w, w + 1) := by
    intro f w
    show fn_processSingleFile (outcomeCollab d outcome) f fmt dir q pm w = _
    exact outcome_processSingleFile d outcome _ fmt dir q pm w
  simp only [e]
  induction len generalizing a pre with
  | zero => simp
  | succ len ih =>
    rw [List.range'_succ, List.foldl_cons, ih]
    simp only [List.map_cons, List.append_assoc, List.singleton_append, Prod.mk.injEq, true_and]
    omega

theorem foldl_keep_world {σ : Type} (g : BatchProcessor → Nat → BatchProcessor)
    (l : List Nat) (bp : BatchProcessor) (w : σ) :
    l.foldl (fun (s : BatchProcessor × σ) i => (g s.1 i, s.2)) (bp, w) = (l.foldl g bp, w) := by
  induction l generalizing bp with
  | nil => rfl
  | cons i rest ih => rw [List.foldl_cons, List.foldl_cons, ih]

theorem outcome_collect (d : Bool) (outcome : Nat → Bool) (vsFiles : List String)
    (len st : Nat) (bp : BatchProcessor) (w : Nat) :
    collectChunk (outcomeCollab d outcome) vsFiles st ((List.range' st len).map outcome)
        (List.range' st len) (bp, w)
      = ((List.range' st len).foldl (recordAt vsFiles outcome) bp, w) := by
  unfold collectChunk
  rw [← foldl_keep_world]
  apply List.foldl_ext
  intro s i hi
  rw [List.mem_range'] at hi
  obtain ⟨j, hj, rfl⟩ := hi
  have hlt : st + 1 * j - st < ((List.range' st len).map outcome).length := by
    rw [List.length_map, List.length_range']
    omega
  rw [List.getElem?_eq_getElem hlt]
  simp only [List.getElem_map, List.getElem_range', recordAt, outcomeCollab]
  congr 3
  omega

/-- With a given outcome per position, a chunk that starts when `stStart` conversions have
been started records the outcomes of its own positions, in parallel and sequential mode. -/
theorem outcome_processChunk (d : Bool) (outcome : Nat → Bool) (bp : BatchProcessor)
    (vsFiles : List String) (fmt dir : String) (q : Int) (pm : Bool) (bp1 : BatchProcessor)
    (k : Nat) :
    processChunk (outcomeCollab d outcome) bp vsFiles fmt dir q pm
        (bp1, stStart k bp.iBatchSize.toNat) k
      = ((chunkIndices k bp.iBatchSize.toNat vsFiles.length).foldl
            (recordAt vsFiles outcome) bp1,
          stStart k bp.iBatchSize.toNat
            + (stEnd k bp.iBatchSize.toNat vsFiles.length - stStart k bp.iBatchSize.toNat)) := by
  unfold processChunk
  cases bp.bParallelProcessing with
  | false =>
    simp only [Bool.false_eq_true, if_false]
    unfold chunkIndices
    rw [outcome_sequential]
  | true =>
    simp only [if_true]
    unfold launchChunk chunkIndices
    rw [outcome_launch]
    simp only [List.nil_append]
    rw [outcome_collect]

theorem range_chunks_succ (n b m : Nat) :
    List.range (min (stStart (m + 1) b) n)
      = List.range (min (stStart m b) n) ++ chunkIndices m b n := by
  rw [← range_chunks n b (m + 1), ← range_chunks n b m, List.range_succ, List.map_append,
    List.flatten_append]
  simp

theorem outcome_chunks (d : Bool) (outcome : Nat → Bool) (bp : BatchProcessor)
    (vsFiles : List String) (fmt dir : String) (q : Int) (pm : Bool) (bp1 : BatchProcessor)
    (hb : 1 ≤ bp.iBatchSize) (m : Nat)
    (hm : m ≤ stBatches vsFiles.length bp.iBatchSize.toNat) :
    (List.range m).foldl (processChunk (outcomeCollab d outcome) bp vsFiles fmt dir q pm)
        (bp1, 0)
      = ((List.range (min (stStart m bp.iBatchSize.toNat) vsFiles.length)).foldl
            (recordAt vsFiles outcome) bp1,
          min (stStart m bp.iBatchSize.toNat) vsFiles.length) := by
  induction m with
  | zero => simp [stStart]
  | succ m ih =>
    have hlt := stStart_lt vsFiles.length bp.iBatchSize.toNat m (by omega) (by omega)
    rw [List.range_succ, List.foldl_append, ih (by omega)]
    have e : min (stStart m bp.iBatchSize.toNat) vsFiles.length
        = stStart m bp.iBatchSize.toNat := by omega
    rw [e, List.foldl_cons, List.foldl_nil, outcome_processChunk, range_chunks_succ, e,
      List.foldl_append]
    simp only [Prod.mk.injEq, true_and]
    rw [stStart_succ]
    unfold stEnd
    omega

/-- The statistics and the number of conversions started after the scheduler ran on a list
with a given outcome per position: the outcomes of positions 0 .. n-1 recorded in order,
whatever the batch size and the parallel flag. -/
theorem outcome_internalBatchProcess (d : Bool) (outcome : Nat → Bool) (bp : BatchProcessor)
    (vsFiles : List String) (fmt dir : String) (q : Int) (pm verbose : Bool)
    (hb : 1 ≤ bp.iBatchSize) :
    (fn_internalBatchProcess (outcomeCollab d outcome) bp vsFiles fmt dir q pm verbose 0).2
      = ((List.range vsFiles.length).foldl (recordAt vsFiles outcome) bp, vsFiles.length) := by
  unfold fn_internalBatchProcess
  cases hv : vsFiles with
  | nil => simp
  | cons f rest =>
    simp only [List.isEmpty_cons, Bool.false_eq_true, if_false]
    rw [outcome_chunks d outcome bp (f :: rest) fmt dir q pm bp hb _ (le_refl _)]
    have := stBatches_mul_ge (f :: rest).length bp.iBatchSize.toNat (by omega)
    have e : min (stStart (stBatches (f :: rest).length bp.iBatchSize.toNat)
        bp.iBatchSize.toNat) (f :: rest).length = (f :: rest).length := by
      unfold stStart
      omega
    rw [e]


theorem recordAt_fold (vsFiles : List String) (outcome : Nat → Bool) (l : List Nat)
    (bp : BatchProcessor) :
    (l.foldl (recordAt vsFiles outcome) bp).vsFailedFiles
        = bp.vsFailedFiles ++ (l.filter (fun i => !outcome i)).map (fun i => vsFiles.getD i "") ∧
    (l.foldl (recordAt vsFiles outcome) bp).iFailedCount
        = bp.iFailedCount + ((l.filter (fun i => !outcome i)).length : Int) ∧
    (l.foldl (recordAt vsFiles outcome) bp).iProcessedCount
        = bp.iProcessedCount + ((l.filter (fun i => outcome i)).length : Int) ∧
    (l.foldl (recordAt vsFiles outcome) bp).iBatchSize = bp.iBatchSize ∧
    (l.foldl (recordAt vsFiles outcome) bp).bParallelProcessing = bp.bParallelProcessing := by
  induction l generalizing bp with
  | nil => simp
  | cons i rest ih =>
    rw [List.foldl_cons]
    obtain ⟨h1, h2, h3, h4, h5⟩ := ih (recordAt vsFiles outcome bp i)
    rw [h1, h2, h3, h4, h5]
    cases ho : outcome i <;>
      simp [recordAt, BatchProcessor.recordOutcome, ho, List.filter_cons] <;> omega

theorem enum_eq_map_range (l : List String) :
    l.enum = (List.range l.length).map (fun i => (i, l.getD i "")) := by
  apply List.ext_getElem
  · simp
  · intro i h1 h2
    have h3 : i < l.length := by simpa using h1
    simp [List.getD_eq_getElem l "" h3, List.getElem?_eq_getElem h3]

theorem filter_positions (l : List String) (p : Nat → Bool) :
    (l.enum.filter (fun e => p e.1)).map Prod.snd
      = ((List.range l.length).filter p).map (fun i => l.getD i "") := by
  rw [enum_eq_map_range, List.filter_map, List.map_map]
  rfl

theorem filter_positions_length (l : List String) (p : Nat → Bool) :
    (l.enum.filter (fun e => p e.1)).length = ((List.range l.length).filter p).length := by
  have h := congrArg List.length (filter_positions l p)
  simpa using h

theorem filter_all_iff (n : Nat) (outcome : Nat → Bool) :
    ((List.range n).filter (fun i => !outcome i)).length = 0 ↔ ∀ i, i < n → outcome i = true := by
  rw [List.length_eq_zero, List.filter_eq_nil_iff]
  constructor
  · intro h i hi
    have := h i (List.mem_range.mpr hi)
    simpa using this
  · intro h i hi
    simp [h i (List.mem_range.mp hi)]

/-- C2: for every input list and every outcome per list position, after a batch run (the
output directory being usable) the failed-file list is the input list restricted to the
positions whose conversion failed, in input order with duplicates kept, the failed count is
its length and the processed count is the number of positions whose conversion succeeded.
For a.heic, b.heic, err.heic and the converter failing only on paths containing err the
statistics are processed = 2, failed = 1, failed files = err.heic, in both modes.  When the
output directory is unusable no conversion is run and the statistics stay empty. -/
theorem failed_files_are_failed_inputs (outcome : Nat → Bool) (bp : BatchProcessor)
    (vsInputFiles : List String) (sOutputFormat sOutputDirectory : String) (iQuality : Int)
    (bPreserveMetadata bVerbose : Bool) (hb : 1 ≤ bp.iBatchSize) :
    (fn_processBatch (outcomeCollab true outcome) bp vsInputFiles sOutputFormat
        sOutputDirectory iQuality bPreserveMetadata bVerbose 0).2.1.fn_getFailedFiles
      = (vsInputFiles.enum.filter (fun e => !outcome e.1)).map Prod.snd ∧
    (fn_processBatch (outcomeCollab true outcome) bp vsInputFiles sOutputFormat
        sOutputDirectory iQuality bPreserveMetadata bVerbose 0).2.1.fn_getFailedFiles.Sublist
      vsInputFiles ∧
    (fn_processBatch (outcomeCollab true outcome) bp vsInputFiles sOutputFormat
        sOutputDirectory iQuality bPreserveMetadata bVerbose 0).2.1.fn_getFailedCount
      = ((fn_processBatch (outcomeCollab true outcome) bp vsInputFiles sOutputFormat
        sOutputDirectory iQuality bPreserveMetadata bVerbose 0).2.1.fn_getFailedFiles.length
          : Int) ∧
    (fn_processBatch (outcomeCollab true outcome) bp vsInputFiles sOutputFormat
        sOutputDirectory iQuality bPreserveMetadata bVerbose 0).2.1.fn_getProcessedCount
      = ((vsInputFiles.enum.filter (fun e => outcome e.1)).length : Int) ∧
    (fn_processBatch (outcomeCollab false outcome) bp vsInputFiles sOutputFormat
        sOutputDirectory iQuality bPreserveMetadata bVerbose 0)
      = (false, bp.fn_clearStatistics, 0) ∧
    (∀ bParallel : Bool,
      (fn_processBatch (diskCollab noStatError (mockConvert "err"))
          (BatchProcessor.new.fn_setParallelProcessing bParallel)
          ["a.heic", "b.heic", "err.heic"] "jpg" "out" 85 false false
          ⟨["out"], ["out"], []⟩).2.1
        = ⟨2, 1, ["err.heic"], 10, bParallel⟩) := by
  have hrun : (fn_processBatch (outcomeCollab true outcome) bp vsInputFiles sOutputFormat
        sOutputDirectory iQuality bPreserveMetadata bVerbose 0).2.1
      = (List.range vsInputFiles.length).foldl (recordAt vsInputFiles outcome)
          bp.fn_clearStatistics := by
    have hd : ensureOutputDirectory (outcomeCollab true outcome) sOutputDirectory 0
        = (true, 0) := by
      simp [ensureOutputDirectory, fn_directoryExists, outcomeCollab]
    unfold fn_processBatch
    simp only [hd, Bool.not_true, Bool.false_eq_true, if_false]
    rw [outcome_internalBatchProcess true outcome bp.fn_clearStatistics vsInputFiles
      sOutputFormat sOutputDirectory iQuality bPreserveMetadata bVerbose hb]
  obtain ⟨h1, h2, h3, _, _⟩ := recordAt_fold vsInputFiles outcome
    (List.range vsInputFiles.length) bp.fn_clearStatistics
  have hf : (fn_processBatch (outcomeCollab true outcome) bp vsInputFiles sOutputFormat
        sOutputDirectory iQuality bPreserveMetadata bVerbose 0).2.1.fn_getFailedFiles
      = (vsInputFiles.enum.filter (fun e => !outcome e.1)).map Prod.snd := by
    unfold BatchProcessor.fn_getFailedFiles
    rw [hrun, h1, filter_positions vsInputFiles (fun i => !outcome i)]
    simp [BatchProcessor.fn_clearStatistics]
  refine ⟨hf, ?_, ?_, ?_, ?_, ?_⟩
  · rw [hf]
    have hs : ((vsInputFiles.enum.filter (fun e => !outcome e.1)).map Prod.snd).Sublist
        (vsInputFiles.enum.map Prod.snd) := List.Sublist.map _ (List.filter_sublist _)
    rwa [List.enum_map_snd] at hs
  · rw [hf]
    unfold BatchProcessor.fn_getFailedCount
    rw [hrun, h2, List.length_map, filter_positions_length vsInputFiles (fun i => !outcome i)]
    simp [BatchProcessor.fn_clearStatistics]
  · unfold BatchProcessor.fn_getProcessedCount
    rw [hrun, h3, filter_positions_length vsInputFiles outcome]
    simp [BatchProcessor.fn_clearStatistics]
  · simp [fn_processBatch, ensureOutputDirectory, fn_directoryExists, outcomeCollab]
  · decide

/-- The statement of C2 at four files, batch size 3, with positions 1 and 3 failing. -/
theorem failed_files_are_failed_inputs_witness :
    1 ≤ (BatchProcessor.new.fn_setBatchSize 3).iBatchSize ∧
    (fn_processBatch (outcomeCollab true (fun k => k % 2 == 0))
        (BatchProcessor.new.fn_setBatchSize 3) ["a", "b", "c", "b"] "png" "out" 85 false
        false 0).2.1.fn_getFailedFiles
      = ((["a", "b", "c", "b"] : List String).enum.filter
          (fun e => !(fun k => k % 2 == 0) e.1)).map Prod.snd :=
  ⟨by decide,
    (failed_files_are_failed_inputs (fun k => k % 2 == 0)
      (BatchProcessor.new.fn_setBatchSize 3) ["a", "b", "c", "b"] "png" "out" 85 false false
      (by decide)).1⟩


theorem internalBatchProcess_result {σ φ : Type} (K : Collab σ φ) (bp : BatchProcessor)
    (vsFiles : List String) (fmt dir : String) (q : Int) (pm verbose : Bool) (w : σ)
    (hne : vsFiles ≠ []) :
    (fn_internalBatchProcess K bp vsFiles fmt dir q pm verbose w).1
      = decide ((fn_internalBatchProcess K bp vsFiles fmt dir q pm verbose w).2.1.iFailedCount
          = 0) := by
  unfold fn_internalBatchProcess
  cases vsFiles with
  | nil => exact absurd rfl hne
  | cons f rest => simp

/-- C3: for every non-empty file list and every behaviour of the collaborators,
`fn_internalBatchProcess` returns true if and only if the failed count is 0 when all chunks
have completed; started from cleared statistics, with a given outcome per list position, that
is the case if and only if the conversion of every position succeeded. -/
theorem internalBatchProcess_true_iff_no_failure {σ φ : Type} (K : Collab σ φ)
    (bp : BatchProcessor) (vsFiles : List String) (sOutputFormat sOutputDirectory : String)
    (iQuality : Int) (bPreserveMetadata bVerbose : Bool) (w : σ) (outcome : Nat → Bool)
    (hne : vsFiles ≠ []) (hb : 1 ≤ bp.iBatchSize) :
    ((fn_internalBatchProcess K bp vsFiles sOutputFormat sOutputDirectory iQuality
        bPreserveMetadata bVerbose w).1 = true ↔
      (fn_internalBatchProcess K bp vsFiles sOutputFormat sOutputDirectory iQuality
        bPreserveMetadata bVerbose w).2.1.fn_getFailedCount = 0) ∧
    ((fn_internalBatchProcess (outcomeCollab true outcome) bp.fn_clearStatistics vsFiles
        sOutputFormat sOutputDirectory iQuality bPreserveMetadata bVerbose 0).1 = true ↔
      ∀ i, i < vsFiles.length → outcome i = true) := by
  constructor
  · rw [internalBatchProcess_result K bp vsFiles _ _ _ _ _ w hne]
    simp [BatchProcessor.fn_getFailedCount]
  · have hb1 : 1 ≤ bp.fn_clearStatistics.iBatchSize := hb
    rw [internalBatchProcess_result _ _ vsFiles _ _ _ _ _ _ hne,
      outcome_internalBatchProcess true outcome bp.fn_clearStatistics vsFiles sOutputFormat
        sOutputDirectory iQuality bPreserveMetadata bVerbose hb1]
    obtain ⟨_, h2, _, _, _⟩ := recordAt_fold vsFiles outcome (List.range vsFiles.length)
      bp.fn_clearStatistics
    simp only [h2, decide_eq_true_eq]
    rw [← filter_all_iff]
    simp only [BatchProcessor.fn_clearStatistics]
    omega

/-- The statement of C3 at three files of which the last fails, batch size 2. -/
theorem internalBatchProcess_true_iff_no_failure_witness :
    ["a.heic", "b.heic", "err.heic"] ≠ [] ∧
    1 ≤ (BatchProcessor.new.fn_setBatchSize 2).iBatchSize ∧
    ((fn_internalBatchProcess (diskCollab noStatError (mockConvert "err"))
        (BatchProcessor.new.fn_setBatchSize 2) ["a.heic", "b.heic", "err.heic"] "jpg" "out"
        85 false false ⟨["out"], ["out"], []⟩).1 = true ↔
      (fn_internalBatchProcess (diskCollab noStatError (mockConvert "err"))
        (BatchProcessor.new.fn_setBatchSize 2) ["a.heic", "b.heic", "err.heic"] "jpg" "out"
        85 false false ⟨["out"], ["out"], []⟩).2.1.fn_getFailedCount = 0) ∧
    (fn_internalBatchProcess (diskCollab noStatError (mockConvert "err"))
        (BatchProcessor.new.fn_setBatchSize 2) ["a.heic", "b.heic", "err.heic"] "jpg" "out"
        85 false false ⟨["out"], ["out"], []⟩).1 = false :=
  ⟨by decide, by decide,
    (internalBatchProcess_true_iff_no_failure (diskCollab noStatError (mockConvert "err"))
      (BatchProcessor.new.fn_setBatchSize 2) ["a.heic", "b.heic", "err.heic"] "jpg" "out"
      85 false false ⟨["out"], ["out"], []⟩ (fun _ => true) (by decide) (by decide)).1,
    by decide⟩

/-- C4, the code at the scenario of the test `ProcessDirectoryWithErrors`: the input
directory exists, the output directory exists and is writable, the converter fails on paths
containing error and succeeds on the others.  Both entry points return false, while the two
good files are converted and the failure is counted. -/
theorem batch_with_file_error_returns_false :
    (fn_processDirectory (diskCollab noStatError (mockConvert "error")) BatchProcessor.new
        "test_input_dir" "jpg" "test_output_dir" false 85 false false
        ⟨["test_input_dir", "test_output_dir", "test_input_dir/image1.heic",
          "test_input_dir/image2.heif", "test_input_dir/not_an_image.txt",
          "test_input_dir/error.heic"],
         ["test_input_dir", "test_output_dir"], []⟩).1 = false ∧
    (fn_processDirectory (diskCollab noStatError (mockConvert "error")) BatchProcessor.new
        "test_input_dir" "jpg" "test_output_dir" false 85 false false
        ⟨["test_input_dir", "test_output_dir", "test_input_dir/image1.heic",
          "test_input_dir/image2.heif", "test_input_dir/not_an_image.txt",
          "test_input_dir/error.heic"],
         ["test_input_dir", "test_output_dir"], []⟩).2.1
      = ⟨2, 1, ["test_input_dir/error.heic"], 10, true⟩ ∧
    (ensureOutputDirectory (diskCollab noStatError (mockConvert "error")) "test_output_dir"
        ⟨["test_input_dir", "test_output_dir", "test_input_dir/image1.heic",
          "test_input_dir/error.heic"], ["test_input_dir", "test_output_dir"], []⟩).1 = true ∧
    (fn_processBatch (diskCollab noStatError (mockConvert "error")) BatchProcessor.new
        ["test_input_dir/image1.heic", "test_input_dir/error.heic"] "jpg" "test_output_dir"
        85 false false
        ⟨["test_input_dir", "test_output_dir", "test_input_dir/image1.heic",
          "test_input_dir/error.heic"], ["test_input_dir", "test_output_dir"], []⟩).1
      = false := by
  decide


/-! ## Output-name resolution -/

theorem digitValue_digitChar (k : Nat) (hk : k < 10) : digitValue (Nat.digitChar k) = k := by
  interval_cases k <;> rfl

theorem decimalValue_append_singleton (cs : List Char) (c : Char) :
    decimalValue (cs ++ [c]) = decimalValue cs * 10 + digitValue c := by
  simp [decimalValue, List.foldl_append]

theorem toDigitsCore_decimal (fuel : Nat) : ∀ (n : Nat) (ds : List Char), n < fuel →
    ∃ pre, Nat.toDigitsCore 10 fuel n ds = pre ++ ds ∧ decimalValue pre = n := by
  induction fuel with
  | zero => intro n ds h; omega
  | succ fuel ih =>
    intro n ds h
    rw [Nat.toDigitsCore]
    by_cases h0 : n / 10 = 0
    · refine ⟨[Nat.digitChar (n % 10)], ?_, ?_⟩
      · simp [h0]
      · have := digitValue_digitChar (n % 10) (Nat.mod_lt _ (by decide))
        simp only [decimalValue, List.foldl_cons, List.foldl_nil, this]
        omega
    · obtain ⟨pre, hp, hv⟩ := ih (n / 10) (Nat.digitChar (n % 10) :: ds) (by omega)
      refine ⟨pre ++ [Nat.digitChar (n % 10)], ?_, ?_⟩
      · simp [h0, hp]
      · rw [decimalValue_append_singleton, hv,
          digitValue_digitChar (n % 10) (Nat.mod_lt _ (by decide))]
        omega

/-- `std::to_string` gives different texts for different counters. -/
theorem toString_nat_injective (a b : Nat) (h : toString a = toString b) : a = b := by
  have ha : (toString a).data = Nat.toDigits 10 a := rfl
  have hb : (toString b).data = Nat.toDigits 10 b := rfl
  have e : Nat.toDigits 10 a = Nat.toDigits 10 b := by rw [← ha, ← hb, h]
  obtain ⟨p1, h1, v1⟩ := toDigitsCore_decimal (a + 1) a [] (by omega)
  obtain ⟨p2, h2, v2⟩ := toDigitsCore_decimal (b + 1) b [] (by omega)
  unfold Nat.toDigits at e
  rw [h1, h2] at e
  simp only [List.append_nil] at e
  rw [← v1, ← v2, e]

theorem string_append_left_cancel (s t u : String) (h : s ++ t = s ++ u) : t = u := by
  have := congrArg String.data h
  rw [String.data_append, String.data_append] at this
  exact String.ext (List.append_cancel_left this)

theorem string_append_right_cancel (s t u : String) (h : t ++ s = u ++ s) : t = u := by
  have := congrArg String.data h
  rw [String.data_append, String.data_append] at this
  exact String.ext (List.append_cancel_right this)

theorem numberedFilename_injective (stem fmt : String) (a b : Nat)
    (h : numberedFilename stem fmt a = numberedFilename stem fmt b) : a = b := by
  unfold numberedFilename at h
  have h1 := string_append_right_cancel _ _ _ h
  have h2 := string_append_right_cancel _ _ _ h1
  exact toString_nat_injective a b (string_append_left_cancel _ _ _ h2)

theorem numberedFilename_head (stem fmt : String) (a b : Nat) :
    (numberedFilename stem fmt a).data.head? = (numberedFilename stem fmt b).data.head? := by
  unfold numberedFilename
  simp only [String.data_append]
  cases hs : stem.data with
  | nil => rfl
  | cons c cs => rfl

theorem pathJoin_injective (dir n1 n2 : String) (hh : n1.data.head? = n2.data.head?)
    (h : pathJoin dir n1 = pathJoin dir n2) : n1 = n2 := by
  unfold pathJoin at h
  rw [hh] at h
  by_cases c1 : n2.data.head? = some '/'
  · rw [if_pos c1, if_pos c1] at h
    exact h
  · by_cases c2 : dir.data ≠ [] ∧ dir.data.getLast? ≠ some '/'
    · rw [if_neg c1, if_neg c1, if_pos c2, if_pos c2] at h
      exact string_append_left_cancel _ _ _ h
    · rw [if_neg c1, if_neg c1, if_neg c2, if_neg c2] at h
      exact string_append_left_cancel _ _ _ h

/-- The numbered candidates of one resolution are pairwise different paths. -/
theorem candidatePath_injective (sIn fmt dir : String) (a b : Nat) (ha : 1 ≤ a) (hb : 1 ≤ b)
    (h : candidatePath sIn fmt dir a = candidatePath sIn fmt dir b) : a = b := by
  unfold candidatePath at h
  rw [if_neg (by omega), if_neg (by omega)] at h
  exact numberedFilename_injective _ _ a b
    (pathJoin_injective dir _ _ (numberedFilename_head _ _ a b) h)


theorem fsExists_noStatError (fs : FS) (p : String) :
    fsExists noStatError fs p = .ok (fs.contains p) := rfl

theorem fsExists_ok_true (statError : StatError) (fs : FS) (p : String)
    (h : fsExists statError fs p = .ok true) : p ∈ fs := by
  unfold fsExists at h
  cases hs : statError p with
  | some e =>
    rw [hs] at h
    exact Except.noConfusion h
  | none =>
    rw [hs] at h
    simpa using Except.ok.inj h

theorem fsExists_ok_false (statError : StatError) (fs : FS) (p : String)
    (h : fsExists statError fs p = .ok false) : statError p = none ∧ p ∉ fs := by
  unfold fsExists at h
  cases hs : statError p with
  | some e =>
    rw [hs] at h
    exact Except.noConfusion h
  | none =>
    rw [hs] at h
    exact ⟨rfl, by simpa using Except.ok.inj h⟩

theorem fsExists_error (statError : StatError) (fs : FS) (p : String) (e : Thrown)
    (h : fsExists statError fs p = .error e) : statError p = some e := by
  unfold fsExists at h
  cases hs : statError p with
  | some e2 =>
    rw [hs] at h
    rw [Except.error.inj h]
  | none =>
    rw [hs] at h
    exact Except.noConfusion h

theorem candidatePath_numbered (sIn fmt dir : String) (c : Nat) (hc : 1 ≤ c) :
    pathJoin dir (numberedFilename (pathStem sIn) fmt c) = candidatePath sIn fmt dir c := by
  unfold candidatePath
  rw [if_neg (by omega)]

/-- The collision loop, entered in round `c` with `m` rounds to spare, is in round `c + m`
after `m` tests when the candidates of rounds `c .. c+m-1` are found to exist. -/
theorem generateLoop_skips (statError : StatError) (fs : FS) (sIn fmt dir : String) (m : Nat) :
    ∀ (fuel c : Nat),
      (∀ j, c ≤ j → j < c + m →
        fsExists statError fs (candidatePath sIn fmt dir j) = .ok true) →
      generateLoop statError fs (pathStem sIn) fmt dir (fuel + m)
          (candidatePath sIn fmt dir c) (c + 1)
        = generateLoop statError fs (pathStem sIn) fmt dir fuel
          (candidatePath sIn fmt dir (c + m)) (c + m + 1) := by
  induction m with
  | zero =>
    intro fuel c _
    rfl
  | succ m ih =>
    intro fuel c hall
    have e1 : fuel + (m + 1) = (fuel + m) + 1 := by omega
    rw [e1, generateLoop, hall c (le_refl c) (by omega)]
    simp only []
    rw [candidatePath_numbered sIn fmt dir (c + 1) (by omega),
      ih fuel (c + 1) (fun j h1 h2 => hall j (by omega) (by omega))]
    have e2 : c + 1 + m = c + (m + 1) := by omega
    rw [e2]

/-- Among the candidates of rounds `1 .. fs.length + 1` one does not exist. -/
theorem exists_unused_candidate (fs : FS) (sIn fmt dir : String) :
    ∃ k, 1 ≤ k ∧ k ≤ fs.length + 1 ∧ candidatePath sIn fmt dir k ∉ fs := by
  by_contra hcon
  push_neg at hcon
  have hnd : ((List.range' 1 (fs.length + 1)).map (candidatePath sIn fmt dir)).Nodup := by
    apply List.Nodup.map_on
    · intro a ha b hb hab
      rw [List.mem_range'] at ha hb
      obtain ⟨i, _, rfl⟩ := ha
      obtain ⟨j, _, rfl⟩ := hb
      exact candidatePath_injective sIn fmt dir _ _ (by omega) (by omega) hab
    · exact List.nodup_range' 1 (fs.length + 1)
  have hsub : (List.range' 1 (fs.length + 1)).map (candidatePath sIn fmt dir) ⊆ fs := by
    intro p hp
    rw [List.mem_map] at hp
    obtain ⟨k, hk, rfl⟩ := hp
    rw [List.mem_range'] at hk
    obtain ⟨i, hi, rfl⟩ := hk
    exact hcon (1 + 1 * i) (by omega) (by omega)
  have := (List.subperm_of_subset hnd hsub).length_le
  simp at this

/-- What `fn_generateOutputFilename` does, for every filesystem state: it tests the
candidates of rounds 0, 1, 2, ... in this order and stops at the first round `k` whose
candidate is not found to exist; it returns that candidate when the test answered, and throws
the object of the test when the test failed.  At most `fs.length + 2` tests are made. -/
theorem generateOutputFilename_spec (statError : StatError) (fs : FS) (sIn fmt dir : String) :
    ∃ k, k ≤ fs.length + 1 ∧
      (∀ j, j < k → fsExists statError fs (candidatePath sIn fmt dir j) = .ok true) ∧
      ((fsExists statError fs (candidatePath sIn fmt dir k) = .ok false ∧
          fn_generateOutputFilename statError fs sIn fmt dir
            = some (.ok (candidatePath sIn fmt dir k))) ∨
        (∃ e, fsExists statError fs (candidatePath sIn fmt dir k) = .error e ∧
          fn_generateOutputFilename statError fs sIn fmt dir = some (.error e))) := by
  classical
  have hP : ∃ k, fsExists statError fs (candidatePath sIn fmt dir k) ≠ .ok true := by
    obtain ⟨k, _, _, h3⟩ := exists_unused_candidate fs sIn fmt dir
    exact ⟨k, fun h => h3 (fsExists_ok_true statError fs _ h)⟩
  have hle : Nat.find hP ≤ fs.length + 1 := by
    obtain ⟨k, _, h2, h3⟩ := exists_unused_candidate fs sIn fmt dir
    exact le_trans (Nat.find_min' hP (fun h => h3 (fsExists_ok_true statError fs _ h))) h2
  have hmin : ∀ j, j < Nat.find hP →
      fsExists statError fs (candidatePath sIn fmt dir j) = .ok true := by
    intro j hj
    have := Nat.find_min hP hj
    exact not_not.mp this
  have hk := Nat.find_spec hP
  have h0 : candidatePath sIn fmt dir 0 = pathJoin dir (pathStem sIn ++ "." ++ fmt) := by
    simp [candidatePath]
  have hrun : fn_generateOutputFilename statError fs sIn fmt dir
      = generateLoop statError fs (pathStem sIn) fmt dir (fs.length + 1 - Nat.find hP + 1)
          (candidatePath sIn fmt dir (Nat.find hP)) (Nat.find hP + 1) := by
    unfold fn_generateOutputFilename
    simp only []
    rw [← h0]
    have e : fs.length + 2 = (fs.length + 1 - Nat.find hP + 1) + Nat.find hP := by omega
    rw [e]
    have := generateLoop_skips statError fs sIn fmt dir (Nat.find hP)
      (fs.length + 1 - Nat.find hP + 1) 0 (fun j _ h2 => hmin j (by omega))
    simpa using this
  refine ⟨Nat.find hP, hle, hmin, ?_⟩
  rw [hrun, generateLoop]
  cases hs : fsExists statError fs (candidatePath sIn fmt dir (Nat.find hP)) with
  | error e => exact Or.inr ⟨e, rfl, rfl⟩
  | ok b =>
    cases b with
    | true => exact absurd hs hk
    | false => exact Or.inl ⟨rfl, rfl⟩


/-! ## The single-file task -/

/-- C10: for every input file and every behaviour of output-name resolution and of the
converter, `fn_processSingleFile` returns a value, and that value is true if and only if the
resolution returned a path and the converter, run on it, returned 0: a non-zero code gives
false, and an object thrown by the resolution or by the converter, derived from
`std::exception` or not, is caught and gives false. -/
theorem processSingleFile_true_iff_converter_zero {σ φ : Type} (K : Collab σ φ)
    (sInputFile sOutputFormat sOutputDirectory : String) (iQuality : Int)
    (bPreserveMetadata : Bool) (w : σ) :
    ((fn_processSingleFile K sInputFile sOutputFormat sOutputDirectory iQuality
        bPreserveMetadata w).1 = true ↔
      ∃ out w1, K.resolve sInputFile sOutputFormat sOutputDirectory w = (.ok out, w1) ∧
        (K.convert sInputFile out w1).1 = .ok 0) ∧
    (∀ out w1 code w2, K.resolve sInputFile sOutputFormat sOutputDirectory w = (.ok out, w1) →
      K.convert sInputFile out w1 = (.ok code, w2) →
      fn_processSingleFile K sInputFile sOutputFormat sOutputDirectory iQuality
        bPreserveMetadata w = (decide (code = 0), w2)) ∧
    (∀ out w1 e w2, K.resolve sInputFile sOutputFormat sOutputDirectory w = (.ok out, w1) →
      K.convert sInputFile out w1 = (.error e, w2) →
      fn_processSingleFile K sInputFile sOutputFormat sOutputDirectory iQuality
        bPreserveMetadata w = (false, w2)) ∧
    (∀ e w1, K.resolve sInputFile sOutputFormat sOutputDirectory w = (.error e, w1) →
      fn_processSingleFile K sInputFile sOutputFormat sOutputDirectory iQuality
        bPreserveMetadata w = (false, w1)) ∧
    (∀ e w1, processSingleFileTry K sInputFile sOutputFormat sOutputDirectory w
        = (.error e, w1) →
      fn_processSingleFile K sInputFile sOutputFormat sOutputDirectory iQuality
        bPreserveMetadata w = (false, w1)) ∧
    (fn_processSingleFile (diskCollab noStatError (fun _ o fs => (.ok 0, o :: fs))) "a.heic" "jpg" "out"
        85 false ⟨["out"], ["out"], []⟩).1 = true ∧
    (fn_processSingleFile (diskCollab noStatError (fun _ _ fs => (.ok 6, fs))) "a.heic" "jpg" "out"
        85 false ⟨["out"], ["out"], []⟩).1 = false ∧
    (fn_processSingleFile (diskCollab noStatError (fun _ _ fs => (.error (.stdException "corrupt"), fs)))
        "a.heic" "jpg" "out" 85 false ⟨["out"], ["out"], []⟩).1 = false ∧
    (fn_processSingleFile (diskCollab noStatError (fun _ _ fs => (.error .other, fs)))
        "a.heic" "jpg" "out" 85 false ⟨["out"], ["out"], []⟩).1 = false := by
  refine ⟨?_, ?_, ?_, ?_, ?_, by decide, by decide, by decide, by decide⟩
  · unfold fn_processSingleFile processSingleFileTry
    rcases hr : K.resolve sInputFile sOutputFormat sOutputDirectory w with ⟨r, w1⟩
    cases r with
    | error e => cases e <;> simp
    | ok out =>
      rcases hc : K.convert sInputFile out w1 with ⟨c, w2⟩
      cases c with
      | error e => cases e <;> simp [hc]
      | ok code =>
        simp only [hc, decide_eq_true_eq, Prod.mk.injEq, Except.ok.injEq]
        constructor
        · intro h0
          exact ⟨out, w1, ⟨rfl, rfl⟩, by rw [hc, h0]⟩
        · rintro ⟨o, v, ⟨rfl, rfl⟩, h⟩
          rw [hc] at h
          exact Except.ok.inj h
  · intro out w1 code w2 hr hc
    simp [fn_processSingleFile, processSingleFileTry, hr, hc]
  · intro out w1 e w2 hr hc
    cases e <;> simp [fn_processSingleFile, processSingleFileTry, hr, hc]
  · intro e w1 hr
    cases e <;> simp [fn_processSingleFile, processSingleFileTry, hr]
  · intro e w1 ht
    cases e <;> simp [fn_processSingleFile, ht]


/-! ## Sequential runs -/

/-- What a single-file task does on a disk, for every filesystem state: either the resolver
returns a candidate whose status query answered that it does not exist, and the converter is
called once with it; or a status query of the resolver throws and the task returns false
without a converter call, leaving the disk as it was. -/
theorem disk_processSingleFile_cases (statError : StatError)
    (conv : String → String → FS → Except Thrown Int × FS)
    (f fmt dir : String) (q : Int) (pm : Bool) (w : Disk) :
    (∃ p k, p = candidatePath f fmt dir k ∧ statError p = none ∧ p ∉ w.paths ∧
      (diskCollab statError conv).resolve f fmt dir w = (.ok p, w) ∧
      (fn_processSingleFile (diskCollab statError conv) f fmt dir q pm w).2
        = { w with paths := (conv f p w.paths).2, converted := w.converted ++ [(f, p)] }) ∨
    (∃ e, (diskCollab statError conv).resolve f fmt dir w = (.error e, w) ∧
      fn_processSingleFile (diskCollab statError conv) f fmt dir q pm w = (false, w)) := by
  obtain ⟨k, _, _, h⟩ := generateOutputFilename_spec statError w.paths f fmt dir
  rcases h with ⟨h1, h2⟩ | ⟨e, _, h2⟩
  · left
    obtain ⟨a, b⟩ := fsExists_ok_false _ _ _ h1
    refine ⟨_, k, rfl, a, b, by simp only [diskCollab, h2], ?_⟩
    unfold fn_processSingleFile processSingleFileTry
    simp only [diskCollab, h2]
    rcases hc : (conv f (candidatePath f fmt dir k) w.paths).1 with e | code
    · cases e <;> rfl
    · rfl
  · right
    refine ⟨e, by simp only [diskCollab, h2], ?_⟩
    unfold fn_processSingleFile processSingleFileTry
    simp only [diskCollab, h2]
    cases e <;> rfl

theorem disk_processSingleFile (conv : String → String → FS → Except Thrown Int × FS)
    (f fmt dir : String) (q : Int) (pm : Bool) (w : Disk) :
    ∃ p, p ∉ w.paths ∧
      (fn_processSingleFile (diskCollab noStatError conv) f fmt dir q pm w).2
        = { w with paths := (conv f p w.paths).2, converted := w.converted ++ [(f, p)] } := by
  obtain ⟨k, _, _, h⟩ := generateOutputFilename_spec noStatError w.paths f fmt dir
  rcases h with ⟨h1, h2⟩ | ⟨e, h1, _⟩
  · obtain ⟨_, b⟩ := fsExists_ok_false _ _ _ h1
    refine ⟨_, b, ?_⟩
    unfold fn_processSingleFile processSingleFileTry
    simp only [diskCollab, h2]
    rcases hc : (conv f (candidatePath f fmt dir k) w.paths).1 with e | code
    · cases e <;> rfl
    · rfl
  · rw [fsExists_noStatError] at h1
    exact Except.noConfusion h1

theorem disk_ensureOutputDirectory_converted (statError : StatError)
    (conv : String → String → FS → Except Thrown Int × FS) (dir : String) (w : Disk) :
    (ensureOutputDirectory (diskCollab statError conv) dir w).2.converted = w.converted := by
  unfold ensureOutputDirectory fn_directoryExists
  simp only [diskCollab]
  split_ifs <;> rfl

theorem configOf_recordOutcome (bp : BatchProcessor) (b : Bool) (f : String) :
    configOf (bp.recordOutcome b f) = configOf bp := by
  cases b <;> rfl

theorem configOf_sequential {σ φ : Type} (K : Collab σ φ) (vsFiles : List String)
    (fmt dir : String) (q : Int) (pm : Bool) (idxs : List Nat) (s : BatchProcessor × σ) :
    configOf (processChunkSequential K vsFiles fmt dir q pm idxs s).1 = configOf s.1 := by
  unfold processChunkSequential
  induction idxs generalizing s with
  | nil => rfl
  | cons i rest ih => rw [List.foldl_cons, ih, configOf_recordOutcome]

theorem configOf_collect {σ φ : Type} (K : Collab σ φ) (vsFiles : List String)
    (st : Nat) (vf : List φ) (idxs : List Nat) (s : BatchProcessor × σ) :
    configOf (collectChunk K vsFiles st vf idxs s).1 = configOf s.1 := by
  unfold collectChunk
  induction idxs generalizing s with
  | nil => rfl
  | cons i rest ih =>
    rw [List.foldl_cons, ih]
    cases vf[i - st]? with
    | none => rfl
    | some fut => exact configOf_recordOutcome _ _ _

theorem configOf_processChunk {σ φ : Type} (K : Collab σ φ) (bp : BatchProcessor)
    (vsFiles : List String) (fmt dir : String) (q : Int) (pm : Bool)
    (s : BatchProcessor × σ) (k : Nat) :
    configOf (processChunk K bp vsFiles fmt dir q pm s k).1 = configOf s.1 := by
  unfold processChunk
  cases bp.bParallelProcessing with
  | false => simp [configOf_sequential]
  | true => simp [configOf_collect]

theorem configOf_chunks {σ φ : Type} (K : Collab σ φ) (bp : BatchProcessor)
    (vsFiles : List String) (fmt dir : String) (q : Int) (pm : Bool)
    (ks : List Nat) (s : BatchProcessor × σ) :
    configOf (ks.foldl (processChunk K bp vsFiles fmt dir q pm) s).1 = configOf s.1 := by
  induction ks generalizing s with
  | nil => rfl
  | cons k rest ih => rw [List.foldl_cons, ih, configOf_processChunk]

/-- The scheduler never writes the batch size or the parallel flag. -/
theorem configOf_internalBatchProcess {σ φ : Type} (K : Collab σ φ) (bp : BatchProcessor)
    (vsFiles : List String) (fmt dir : String) (q : Int) (pm verbose : Bool) (w : σ) :
    configOf (fn_internalBatchProcess K bp vsFiles fmt dir q pm verbose w).2.1
      = configOf bp := by
  unfold fn_internalBatchProcess
  cases vsFiles with
  | nil => rfl
  | cons f rest =>
    simp only [List.isEmpty_cons, Bool.false_eq_true, if_false]
    exact configOf_chunks K bp (f :: rest) fmt dir q pm _ (bp, w)

theorem configOf_clear (bp : BatchProcessor) : configOf bp.fn_clearStatistics = configOf bp :=
  rfl

theorem configOf_processBatch {σ φ : Type} (K : Collab σ φ) (bp : BatchProcessor)
    (vsFiles : List String) (fmt dir : String) (q : Int) (pm verbose : Bool) (w : σ) :
    configOf (fn_processBatch K bp vsFiles fmt dir q pm verbose w).2.1 = configOf bp := by
  unfold fn_processBatch
  simp only []
  split_ifs
  · rfl
  · rw [configOf_internalBatchProcess]
    rfl

theorem configOf_processDirectory {σ φ : Type} (K : Collab σ φ) (bp : BatchProcessor)
    (sIn fmt dir : String) (r : Bool) (q : Int) (pm verbose : Bool) (w : σ) :
    configOf (fn_processDirectory K bp sIn fmt dir r q pm verbose w).2.1 = configOf bp := by
  unfold fn_processDirectory
  simp only []
  split_ifs
  · rfl
  · rfl
  · rfl
  · rw [configOf_internalBatchProcess]
    rfl

theorem configOf_runCall {σ φ : Type} (K : Collab σ φ) (bp : BatchProcessor) (c : BatchCall)
    (w : σ) : configOf (runCall K bp c w).2.1 = configOf bp := by
  cases c with
  | batch a b c d e f => exact configOf_processBatch K bp a b c d e f w
  | directory a b c d e f g => exact configOf_processDirectory K bp a b c d e f g w

theorem configOf_runCalls {σ φ : Type} (K : Collab σ φ) (bp : BatchProcessor)
    (cs : List BatchCall) (w : σ) : configOf (runCalls K bp cs w).1 = configOf bp := by
  unfold runCalls
  induction cs generalizing bp w with
  | nil => rfl
  | cons c rest ih =>
    rw [List.foldl_cons]
    have h := ih (runCall K bp c w).2.1 (runCall K bp c w).2.2
    rw [configOf_runCall] at h
    exact h

/-- A batch invocation reads the object only through its cleared form. -/
theorem runCall_clear {σ φ : Type} (K : Collab σ φ) (bp : BatchProcessor) (c : BatchCall)
    (w : σ) : runCall K bp c w = runCall K bp.fn_clearStatistics c w := by
  cases c <;> rfl

theorem clear_eq_of_configOf (a b : BatchProcessor) (h : configOf a = configOf b) :
    a.fn_clearStatistics = b.fn_clearStatistics := by
  unfold configOf at h
  simp only [Prod.mk.injEq] at h
  simp [BatchProcessor.fn_clearStatistics, h.1, h.2]


/-- C16: for every state of a `BatchProcessor`, after `fn_clearStatistics` the processed
count is 0, the failed count is 0 and the failed-file list is empty; calling it twice gives
the same state as calling it once; batch size and parallel flag are unchanged. -/
theorem clearStatistics_resets (bp : BatchProcessor) :
    bp.fn_clearStatistics.fn_getProcessedCount = 0 ∧
    bp.fn_clearStatistics.fn_getFailedCount = 0 ∧
    bp.fn_clearStatistics.fn_getFailedFiles = [] ∧
    bp.fn_clearStatistics.fn_clearStatistics = bp.fn_clearStatistics ∧
    bp.fn_clearStatistics.fn_getBatchSize = bp.fn_getBatchSize ∧
    bp.fn_clearStatistics.fn_isParallelProcessing = bp.fn_isParallelProcessing :=
  ⟨rfl, rfl, rfl, rfl, rfl, rfl⟩

/-- C17: statistics are reset at the start of every batch invocation.  After any sequence
of `fn_processBatch` / `fn_processDirectory` calls on one object, a further call returns the
same value and leaves the same counts, failed-file list and world as the same call made on a
fresh `BatchProcessor` given the same batch size and parallel flag; this includes calls that
abort with a fatal setup error, as the one on a missing input directory after a run with a
failure. -/
theorem statistics_are_of_last_call {σ φ : Type} (K : Collab σ φ) (bp : BatchProcessor)
    (cs : List BatchCall) (c : BatchCall) (w : σ) (hb : 1 ≤ bp.iBatchSize) :
    runCall K (runCalls K bp cs w).1 c (runCalls K bp cs w).2
      = runCall K ((BatchProcessor.new.fn_setBatchSize bp.iBatchSize).fn_setParallelProcessing
          bp.bParallelProcessing) c (runCalls K bp cs w).2 ∧
    (runCalls (diskCollab noStatError (mockConvert "error")) BatchProcessor.new
        [.batch ["in/error.heic", "in/a.heic"] "jpg" "out" 85 false false]
        ⟨["out", "in"], ["out", "in"], []⟩).1 = ⟨1, 1, ["in/error.heic"], 10, true⟩ ∧
    (runCalls (diskCollab noStatError (mockConvert "error")) BatchProcessor.new
        [.batch ["in/error.heic", "in/a.heic"] "jpg" "out" 85 false false,
         .directory "missing" "jpg" "out" false 85 false false]
        ⟨["out", "in"], ["out", "in"], []⟩).1 = ⟨0, 0, [], 10, true⟩ := by
  refine ⟨?_, by decide, by decide⟩
  rw [runCall_clear K (runCalls K bp cs w).1,
    runCall_clear K ((BatchProcessor.new.fn_setBatchSize bp.iBatchSize).fn_setParallelProcessing
      bp.bParallelProcessing)]
  congr 1
  apply clear_eq_of_configOf
  rw [configOf_runCalls]
  have hpos : bp.iBatchSize > 0 := by omega
  simp [configOf, BatchProcessor.fn_setBatchSize, BatchProcessor.fn_setParallelProcessing,
    BatchProcessor.new, hpos]

/-- The statement of C17 for an object with batch size 2 in sequential mode, after a batch
run with one failure. -/
theorem statistics_are_of_last_call_witness :
    1 ≤ ((BatchProcessor.new.fn_setBatchSize 2).fn_setParallelProcessing false).iBatchSize ∧
    runCall (diskCollab noStatError (mockConvert "error"))
        (runCalls (diskCollab noStatError (mockConvert "error"))
          ((BatchProcessor.new.fn_setBatchSize 2).fn_setParallelProcessing false)
          [.batch ["in/error.heic", "in/a.heic"] "jpg" "out" 85 false false]
          ⟨["out", "in"], ["out", "in"], []⟩).1
        (.batch ["in/b.heic"] "png" "out" 85 false false)
        (runCalls (diskCollab noStatError (mockConvert "error"))
          ((BatchProcessor.new.fn_setBatchSize 2).fn_setParallelProcessing false)
          [.batch ["in/error.heic", "in/a.heic"] "jpg" "out" 85 false false]
          ⟨["out", "in"], ["out", "in"], []⟩).2
      = runCall (diskCollab noStatError (mockConvert "error"))
        ((BatchProcessor.new.fn_setBatchSize
          ((BatchProcessor.new.fn_setBatchSize 2).fn_setParallelProcessing false).iBatchSize
          ).fn_setParallelProcessing
          ((BatchProcessor.new.fn_setBatchSize 2).fn_setParallelProcessing
            false).bParallelProcessing)
        (.batch ["in/b.heic"] "png" "out" 85 false false)
        (runCalls (diskCollab noStatError (mockConvert "error"))
          ((BatchProcessor.new.fn_setBatchSize 2).fn_setParallelProcessing false)
          [.batch ["in/error.heic", "in/a.heic"] "jpg" "out" 85 false false]
          ⟨["out", "in"], ["out", "in"], []⟩).2 :=
  ⟨by decide,
    (statistics_are_of_last_call (diskCollab noStatError (mockConvert "error"))
      ((BatchProcessor.new.fn_setBatchSize 2).fn_setParallelProcessing false)
      [.batch ["in/error.heic", "in/a.heic"] "jpg" "out" 85 false false]
      (.batch ["in/b.heic"] "png" "out" 85 false false)
      ⟨["out", "in"], ["out", "in"], []⟩ (by decide)).1⟩

theorem setBatchSize_positive (bp : BatchProcessor) (n : Int) (h : 1 ≤ bp.iBatchSize) :
    1 ≤ (bp.fn_setBatchSize n).iBatchSize := by
  unfold BatchProcessor.fn_setBatchSize
  split_ifs with hn
  · show 1 ≤ n
    omega
  · exact h

theorem applyOperation_positive {σ φ : Type} (K : Collab σ φ) (s : BatchProcessor × σ)
    (op : Operation) (h : 1 ≤ s.1.iBatchSize) : 1 ≤ (applyOperation K s op).1.iBatchSize := by
  cases op with
  | setBatchSize n => exact setBatchSize_positive s.1 n h
  | setParallelProcessing b => exact h
  | clearStatistics => exact h
  | invoke c =>
    have hc := configOf_runCall K s.1 c s.2
    unfold configOf at hc
    simp only [Prod.mk.injEq] at hc
    show 1 ≤ (runCall K s.1 c s.2).2.1.iBatchSize
    rw [hc.1]
    exact h

/-- C18: a freshly constructed `BatchProcessor` has batch size 10 and parallel processing
enabled; after every sequence of `fn_setBatchSize` calls with arbitrary integers
`fn_getBatchSize` is at least 1, and so it is after every sequence of calls of the public
interface; the divisor of the chunk-count division, the batch size converted to `size_t`, is
therefore never 0. -/
theorem batch_size_always_positive {σ φ : Type} (K : Collab σ φ) (w : σ) :
    BatchProcessor.new.fn_getBatchSize = 10 ∧
    BatchProcessor.new.fn_isParallelProcessing = true ∧
    (∀ ns : List Int,
      1 ≤ (ns.foldl BatchProcessor.fn_setBatchSize BatchProcessor.new).fn_getBatchSize ∧
      (ns.foldl BatchProcessor.fn_setBatchSize BatchProcessor.new).iBatchSize.toNat ≠ 0) ∧
    (∀ ops : List Operation,
      1 ≤ (ops.foldl (applyOperation K) (BatchProcessor.new, w)).1.fn_getBatchSize ∧
      (ops.foldl (applyOperation K) (BatchProcessor.new, w)).1.iBatchSize.toNat ≠ 0) ∧
    ([0, -3, 7, 0].foldl BatchProcessor.fn_setBatchSize BatchProcessor.new).fn_getBatchSize
      = 7 := by
  refine ⟨rfl, rfl, ?_, ?_, by decide⟩
  · intro ns
    have key : ∀ (l : List Int) (bp : BatchProcessor), 1 ≤ bp.iBatchSize →
        1 ≤ (l.foldl BatchProcessor.fn_setBatchSize bp).iBatchSize := by
      intro l
      induction l with
      | nil => intro bp h; exact h
      | cons n rest ih =>
        intro bp h
        rw [List.foldl_cons]
        exact ih _ (setBatchSize_positive bp n h)
    have h := key ns BatchProcessor.new (by decide)
    refine ⟨h, ?_⟩
    omega
  · intro ops
    have key : ∀ (l : List Operation) (s : BatchProcessor × σ), 1 ≤ s.1.iBatchSize →
        1 ≤ (l.foldl (applyOperation K) s).1.iBatchSize := by
      intro l
      induction l with
      | nil => intro s h; exact h
      | cons op rest ih =>
        intro s h
        rw [List.foldl_cons]
        exact ih _ (applyOperation_positive K s op h)
    have h0 : (1 : Int) ≤ BatchProcessor.new.iBatchSize := by decide
    have h := key ops (BatchProcessor.new, w) h0
    refine ⟨h, ?_⟩
    omega


/-! ## The record of converter calls -/

theorem disk_attempted_single (conv : String → String → FS → Except Thrown Int × FS)
    (f fmt dir : String) (q : Int) (pm : Bool) (w : Disk) :
    (fn_processSingleFile (diskCollab noStatError conv) f fmt dir q pm w).2.converted.map Prod.fst
      = w.converted.map Prod.fst ++ [f] := by
  obtain ⟨p, _, hw⟩ := disk_processSingleFile conv f fmt dir q pm w
  rw [hw]
  simp

theorem disk_attempted_sequential (conv : String → String → FS → Except Thrown Int × FS)
    (vsFiles : List String) (fmt dir : String) (q : Int) (pm : Bool) (idxs : List Nat)
    (s : BatchProcessor × Disk) :
    (processChunkSequential (diskCollab noStatError conv) vsFiles fmt dir q pm idxs s).2.converted.map
        Prod.fst
      = s.2.converted.map Prod.fst ++ idxs.map (fun i => vsFiles.getD i "") := by
  unfold processChunkSequential
  induction idxs generalizing s with
  | nil => simp
  | cons i rest ih =>
    rw [List.foldl_cons, ih]
    simp only [disk_attempted_single, List.map_cons, List.append_assoc, List.singleton_append]

theorem disk_attempted_launch (conv : String → String → FS → Except Thrown Int × FS)
    (vsFiles : List String) (fmt dir : String) (q : Int) (pm : Bool) (idxs : List Nat)
    (acc : List Bool × Disk) :
    (idxs.foldl (fun (acc : List Bool × Disk) stIdx =>
        let r := (diskCollab noStatError conv).async
          (fn_processSingleFile (diskCollab noStatError conv) (vsFiles.getD stIdx "") fmt dir q pm) acc.2
        (acc.1 ++ [r.1], r.2)) acc).2.converted.map Prod.fst
      = acc.2.converted.map Prod.fst ++ idxs.map (fun i => vsFiles.getD i "") := by
  induction idxs generalizing acc with
  | nil => simp
  | cons i rest ih =>
    rw [List.foldl_cons, ih]
    have e : ((diskCollab noStatError conv).async
        (fn_processSingleFile (diskCollab noStatError conv) (vsFiles.getD i "") fmt dir q pm) acc.2)
        = fn_processSingleFile (diskCollab noStatError conv) (vsFiles.getD i "") fmt dir q pm acc.2 := rfl
    simp only [e, disk_attempted_single, List.map_cons, List.append_assoc,
      List.singleton_append]

theorem disk_collect_world (conv : String → String → FS → Except Thrown Int × FS)
    (vsFiles : List String) (st : Nat) (vf : List Bool) (idxs : List Nat)
    (s : BatchProcessor × Disk) :
    (collectChunk (diskCollab noStatError conv) vsFiles st vf idxs s).2 = s.2 := by
  unfold collectChunk
  induction idxs generalizing s with
  | nil => rfl
  | cons i rest ih =>
    rw [List.foldl_cons, ih]
    cases vf[i - st]? with
    | none => rfl
    | some fut => rfl

theorem disk_attempted_processChunk (conv : String → String → FS → Except Thrown Int × FS)
    (bp : BatchProcessor) (vsFiles : List String) (fmt dir : String) (q : Int) (pm : Bool)
    (s : BatchProcessor × Disk) (k : Nat) :
    (processChunk (diskCollab noStatError conv) bp vsFiles fmt dir q pm s k).2.converted.map Prod.fst
      = s.2.converted.map Prod.fst
        ++ (chunkIndices k bp.iBatchSize.toNat vsFiles.length).map
            (fun i => vsFiles.getD i "") := by
  unfold processChunk
  cases bp.bParallelProcessing with
  | false =>
    simp only [Bool.false_eq_true, if_false]
    exact disk_attempted_sequential conv vsFiles fmt dir q pm _ s
  | true =>
    simp only [if_true]
    rw [disk_collect_world]
    unfold launchChunk
    exact disk_attempted_launch conv vsFiles fmt dir q pm _ ([], s.2)

theorem disk_attempted_chunks (conv : String → String → FS → Except Thrown Int × FS)
    (bp : BatchProcessor) (vsFiles : List String) (fmt dir : String) (q : Int) (pm : Bool)
    (ks : List Nat) (s : BatchProcessor × Disk) :
    (ks.foldl (processChunk (diskCollab noStatError conv) bp vsFiles fmt dir q pm) s).2.converted.map
        Prod.fst
      = s.2.converted.map Prod.fst
        ++ ((ks.map (fun k => chunkIndices k bp.iBatchSize.toNat vsFiles.length)).flatten).map
            (fun i => vsFiles.getD i "") := by
  induction ks generalizing s with
  | nil => simp
  | cons k rest ih =>
    rw [List.foldl_cons, ih, disk_attempted_processChunk]
    simp only [List.map_cons, List.flatten_cons, List.map_append, List.append_assoc]

/-- On a disk the inputs handed to the converter by the scheduler are the files of the list,
each once, in list order, in parallel and in sequential mode and for every converter. -/
theorem disk_attempted_internalBatchProcess
    (conv : String → String → FS → Except Thrown Int × FS) (bp : BatchProcessor)
    (vsFiles : List String) (fmt dir : String) (q : Int) (pm verbose : Bool) (w : Disk)
    (hb : 1 ≤ bp.iBatchSize) :
    (fn_internalBatchProcess (diskCollab noStatError conv) bp vsFiles fmt dir q pm verbose
        w).2.2.converted.map Prod.fst
      = w.converted.map Prod.fst ++ vsFiles := by
  unfold fn_internalBatchProcess
  cases hv : vsFiles with
  | nil => simp
  | cons f rest =>
    simp only [List.isEmpty_cons, Bool.false_eq_true, if_false]
    rw [disk_attempted_chunks, range_chunks_all _ _ (by omega), map_getD_range]

/-! ## Setup errors and directory mode -/

theorem ensureOutputDirectory_fails {σ φ : Type} (K : Collab σ φ) (dir : String) (w : σ)
    (hcheck : (fn_directoryExists K dir w).1 = false)
    (hcreate : (K.fn_createDirectory dir (fn_directoryExists K dir w).2).1 = false) :
    ensureOutputDirectory K dir w
      = (false, (K.fn_createDirectory dir (fn_directoryExists K dir w).2).2) := by
  unfold ensureOutputDirectory
  simp [hcheck, hcreate]

/-- C12: if the output directory fails the exists-and-writable check and cannot be created,
`fn_processBatch` and `fn_processDirectory` return false, processed = failed = 0 and the
failed-file list is empty afterwards, and no conversion is invoked: the world is left as the
failed `fn_createDirectory` left it (or untouched, when `fn_processDirectory` found the input
directory missing), and in the counting world the number of conversions started stays 0. -/
theorem unusable_output_directory_aborts {σ φ : Type} (K : Collab σ φ) (bp : BatchProcessor)
    (vsInputFiles : List String) (sInputDirectory sOutputFormat sOutputDirectory : String)
    (bRecursive : Bool) (iQuality : Int) (bPreserveMetadata bVerbose : Bool) (w : σ)
    (hcheck : (fn_directoryExists K sOutputDirectory w).1 = false)
    (hcreate : (K.fn_createDirectory sOutputDirectory
      (fn_directoryExists K sOutputDirectory w).2).1 = false) :
    fn_processBatch K bp vsInputFiles sOutputFormat sOutputDirectory iQuality
        bPreserveMetadata bVerbose w
      = (false, bp.fn_clearStatistics,
          (K.fn_createDirectory sOutputDirectory
            (fn_directoryExists K sOutputDirectory w).2).2) ∧
    fn_processDirectory K bp sInputDirectory sOutputFormat sOutputDirectory bRecursive
        iQuality bPreserveMetadata bVerbose w
      = (false, bp.fn_clearStatistics,
          if K.pathExists sInputDirectory w then
            (K.fn_createDirectory sOutputDirectory
              (fn_directoryExists K sOutputDirectory w).2).2
          else w) ∧
    bp.fn_clearStatistics.fn_getProcessedCount = 0 ∧
    bp.fn_clearStatistics.fn_getFailedCount = 0 ∧
    bp.fn_clearStatistics.fn_getFailedFiles = [] ∧
    (∀ outcome : Nat → Bool,
      (fn_processBatch (outcomeCollab false outcome) bp vsInputFiles sOutputFormat
        sOutputDirectory iQuality bPreserveMetadata bVerbose 0).2.2 = 0 ∧
      (fn_processDirectory (outcomeCollab false outcome) bp sInputDirectory sOutputFormat
        sOutputDirectory bRecursive iQuality bPreserveMetadata bVerbose 0).2.2 = 0) := by
  have he := ensureOutputDirectory_fails K sOutputDirectory w hcheck hcreate
  refine ⟨?_, ?_, rfl, rfl, rfl, ?_⟩
  · unfold fn_processBatch
    simp [he]
  · unfold fn_processDirectory
    cases hp : K.pathExists sInputDirectory w <;> simp [he]
  · intro outcome
    constructor
    · simp [fn_processBatch, ensureOutputDirectory, fn_directoryExists, outcomeCollab]
    · simp [fn_processDirectory, outcomeCollab]

/-- The statement of C12 in a world whose output directory is unusable. -/
theorem unusable_output_directory_aborts_witness :
    (fn_directoryExists (outcomeCollab false (fun _ => true)) "out" 0).1 = false ∧
    ((outcomeCollab false (fun _ => true)).fn_createDirectory "out"
      (fn_directoryExists (outcomeCollab false (fun _ => true)) "out" 0).2).1 = false ∧
    fn_processBatch (outcomeCollab false (fun _ => true)) ⟨3, 2, ["x", "y"], 4, false⟩
        ["a.heic", "b.heic"] "jpg" "out" 85 false false 0
      = (false, (⟨3, 2, ["x", "y"], 4, false⟩ : BatchProcessor).fn_clearStatistics,
          ((outcomeCollab false (fun _ => true)).fn_createDirectory "out"
            (fn_directoryExists (outcomeCollab false (fun _ => true)) "out" 0).2).2) :=
  ⟨by decide, by decide,
    (unusable_output_directory_aborts (outcomeCollab false (fun _ => true))
      ⟨3, 2, ["x", "y"], 4, false⟩ ["a.heic", "b.heic"] "in" "jpg" "out" false 85 false false 0
      (by decide) (by decide)).1⟩

/-- C13: if the input directory does not exist, `fn_processDirectory` returns false, with
the statistics cleared and the world untouched, whatever the other arguments and the
collaborators are, so neither the scan nor any conversion is invoked; the error it logs is the
one for a missing input directory. -/
theorem missing_input_directory_aborts {σ φ : Type} (K : Collab σ φ) (bp : BatchProcessor)
    (sInputDirectory sOutputFormat sOutputDirectory : String) (bRecursive : Bool)
    (iQuality : Int) (bPreserveMetadata bVerbose : Bool) (w : σ)
    (hmissing : K.pathExists sInputDirectory w = false) :
    fn_processDirectory K bp sInputDirectory sOutputFormat sOutputDirectory bRecursive
        iQuality bPreserveMetadata bVerbose w
      = (false, bp.fn_clearStatistics, w) ∧
    processDirectoryErrors K sInputDirectory sOutputDirectory w
      = ["Input directory does not exist: " ++ sInputDirectory] := by
  constructor
  · unfold fn_processDirectory
    simp [hmissing]
  · unfold processDirectoryErrors
    simp [hmissing]

/-- The statement of C13 on a disk without the directory non_existent_directory. -/
theorem missing_input_directory_aborts_witness :
    (diskCollab noStatError (mockConvert "error")).pathExists "non_existent_directory"
        ⟨["test_output_dir"], ["test_output_dir"], []⟩ = false ∧
    fn_processDirectory (diskCollab noStatError (mockConvert "error")) BatchProcessor.new
        "non_existent_directory" "jpg" "test_output_dir" true 85 false false
        ⟨["test_output_dir"], ["test_output_dir"], []⟩
      = (false, BatchProcessor.new.fn_clearStatistics,
          ⟨["test_output_dir"], ["test_output_dir"], []⟩) :=
  ⟨by decide,
    (missing_input_directory_aborts (diskCollab noStatError (mockConvert "error")) BatchProcessor.new
      "non_existent_directory" "jpg" "test_output_dir" true 85 false false
      ⟨["test_output_dir"], ["test_output_dir"], []⟩ (by decide)).1⟩

/-- C14: if the input directory exists, the output directory is usable and no scanned file
passes the HEIC/HEIF filter (as for an empty directory), `fn_processDirectory` returns true
with processed = failed = 0 and an empty failed-file list, and invokes no conversion: the
world is left as the scan left it. -/
theorem nothing_to_convert_succeeds {σ φ : Type} (K : Collab σ φ) (bp : BatchProcessor)
    (sInputDirectory sOutputFormat sOutputDirectory : String) (bRecursive : Bool)
    (iQuality : Int) (bPreserveMetadata bVerbose : Bool) (w : σ)
    (hin : K.pathExists sInputDirectory w = true)
    (hout : (ensureOutputDirectory K sOutputDirectory w).1 = true)
    (hnone : ∀ f ∈ (K.fn_collectDirectoryFiles sInputDirectory bRecursive
      (ensureOutputDirectory K sOutputDirectory w).2).1, K.fn_isHeicFile f = false) :
    fn_processDirectory K bp sInputDirectory sOutputFormat sOutputDirectory bRecursive
        iQuality bPreserveMetadata bVerbose w
      = (true, bp.fn_clearStatistics,
          (K.fn_collectDirectoryFiles sInputDirectory bRecursive
            (ensureOutputDirectory K sOutputDirectory w).2).2) ∧
    (fn_processDirectory K bp sInputDirectory sOutputFormat sOutputDirectory bRecursive
        iQuality bPreserveMetadata bVerbose w).2.1.fn_getProcessedCount = 0 ∧
    (fn_processDirectory K bp sInputDirectory sOutputFormat sOutputDirectory bRecursive
        iQuality bPreserveMetadata bVerbose w).2.1.fn_getFailedCount = 0 ∧
    (fn_processDirectory K bp sInputDirectory sOutputFormat sOutputDirectory bRecursive
        iQuality bPreserveMetadata bVerbose w).2.1.fn_getFailedFiles = [] := by
  have hf : (K.fn_collectDirectoryFiles sInputDirectory bRecursive
      (ensureOutputDirectory K sOutputDirectory w).2).1.filter K.fn_isHeicFile = [] := by
    rw [List.filter_eq_nil_iff]
    intro f hfm
    rw [hnone f hfm]
    exact Bool.false_ne_true
  have hr : fn_processDirectory K bp sInputDirectory sOutputFormat sOutputDirectory bRecursive
      iQuality bPreserveMetadata bVerbose w
      = (true, bp.fn_clearStatistics,
          (K.fn_collectDirectoryFiles sInputDirectory bRecursive
            (ensureOutputDirectory K sOutputDirectory w).2).2) := by
    unfold fn_processDirectory
    simp [hin, hout, hf]
  rw [hr]
  exact ⟨rfl, rfl, rfl, rfl⟩

/-- The statement of C14 for an empty directory and for a directory holding only a text file
and a JPEG. -/
theorem nothing_to_convert_succeeds_witness :
    (diskCollab noStatError (mockConvert "error")).pathExists "test_empty_dir"
        ⟨["test_empty_dir", "out"], ["test_empty_dir", "out"], []⟩ = true ∧
    (ensureOutputDirectory (diskCollab noStatError (mockConvert "error")) "out"
        ⟨["test_empty_dir", "out"], ["test_empty_dir", "out"], []⟩).1 = true ∧
    (fn_processDirectory (diskCollab noStatError (mockConvert "error")) ⟨5, 1, ["old"], 10, true⟩
        "test_empty_dir" "jpg" "out" false 85 false false
        ⟨["test_empty_dir", "out"], ["test_empty_dir", "out"], []⟩).2.1.fn_getProcessedCount
      = 0 ∧
    (fn_processDirectory (diskCollab noStatError (mockConvert "error")) BatchProcessor.new
        "d" "jpg" "out" true 85 false false
        ⟨["d", "out", "d/notes.txt", "d/image3.jpg"], ["d", "out"], []⟩).1 = true :=
  ⟨by decide, by decide,
    (nothing_to_convert_succeeds (diskCollab noStatError (mockConvert "error")) ⟨5, 1, ["old"], 10, true⟩
      "test_empty_dir" "jpg" "out" false 85 false false
      ⟨["test_empty_dir", "out"], ["test_empty_dir", "out"], []⟩ (by decide) (by decide)
      (by decide)).2.1,
    by decide⟩


theorem processDirectory_eq_scheduler {σ φ : Type} (K : Collab σ φ) (bp : BatchProcessor)
    (sIn fmt dir : String) (r : Bool) (q : Int) (pm verbose : Bool) (w : σ)
    (hin : K.pathExists sIn w = true) (hout : (ensureOutputDirectory K dir w).1 = true) :
    fn_processDirectory K bp sIn fmt dir r q pm verbose w
      = fn_internalBatchProcess K bp.fn_clearStatistics
          ((K.fn_collectDirectoryFiles sIn r (ensureOutputDirectory K dir w).2).1.filter
            K.fn_isHeicFile)
          fmt dir q pm verbose
          (K.fn_collectDirectoryFiles sIn r (ensureOutputDirectory K dir w).2).2 := by
  unfold fn_processDirectory
  simp only [hin, hout, Bool.not_true, Bool.false_eq_true, if_false]
  cases hf : (K.fn_collectDirectoryFiles sIn r (ensureOutputDirectory K dir w).2).1.filter
      K.fn_isHeicFile with
  | nil => simp [fn_internalBatchProcess]
  | cons f rest => simp

theorem disk_processDirectory_converted
    (conv : String → String → FS → Except Thrown Int × FS) (bp : BatchProcessor)
    (sIn fmt dir : String) (r : Bool) (q : Int) (pm verbose : Bool) (paths dirs : List String)
    (hb : 1 ≤ bp.iBatchSize) :
    ∀ e ∈ (fn_processDirectory (diskCollab noStatError conv) bp sIn fmt dir r q pm verbose
        ⟨paths, dirs, []⟩).2.2.converted,
      fn_isHeicFile e.1 = true ∧
      e.1 ∈ ((diskCollab noStatError conv).fn_collectDirectoryFiles sIn r
        (ensureOutputDirectory (diskCollab noStatError conv) dir ⟨paths, dirs, []⟩).2).1 := by
  intro e he
  have hc := disk_ensureOutputDirectory_converted noStatError conv dir ⟨paths, dirs, []⟩
  cases hin : (diskCollab noStatError conv).pathExists sIn ⟨paths, dirs, []⟩ with
  | false =>
    have : fn_processDirectory (diskCollab noStatError conv) bp sIn fmt dir r q pm verbose
        ⟨paths, dirs, []⟩ = (false, bp.fn_clearStatistics, ⟨paths, dirs, []⟩) := by
      unfold fn_processDirectory
      simp [hin]
    rw [this] at he
    simp at he
  | true =>
    cases hout : (ensureOutputDirectory (diskCollab noStatError conv) dir ⟨paths, dirs, []⟩).1 with
    | false =>
      have : fn_processDirectory (diskCollab noStatError conv) bp sIn fmt dir r q pm verbose
          ⟨paths, dirs, []⟩ = (false, bp.fn_clearStatistics,
            (ensureOutputDirectory (diskCollab noStatError conv) dir ⟨paths, dirs, []⟩).2) := by
        unfold fn_processDirectory
        simp [hin, hout]
      rw [this] at he
      simp only [hc] at he
      simp at he
    | true =>
      rw [processDirectory_eq_scheduler (diskCollab noStatError conv) bp sIn fmt dir r q pm verbose _
        hin hout] at he
      have hm : e.1 ∈ (fn_internalBatchProcess (diskCollab noStatError conv) bp.fn_clearStatistics
          (((diskCollab noStatError conv).fn_collectDirectoryFiles sIn r
            (ensureOutputDirectory (diskCollab noStatError conv) dir ⟨paths, dirs, []⟩).2).1.filter
            (diskCollab noStatError conv).fn_isHeicFile) fmt dir q pm verbose
          ((diskCollab noStatError conv).fn_collectDirectoryFiles sIn r
            (ensureOutputDirectory (diskCollab noStatError conv) dir ⟨paths, dirs, []⟩).2).2
          ).2.2.converted.map Prod.fst := List.mem_map_of_mem _ he
      rw [disk_attempted_internalBatchProcess conv bp.fn_clearStatistics _ fmt dir q pm verbose
        _ hb] at hm
      have hscan : ((diskCollab noStatError conv).fn_collectDirectoryFiles sIn r
          (ensureOutputDirectory (diskCollab noStatError conv) dir ⟨paths, dirs, []⟩).2).2
          = (ensureOutputDirectory (diskCollab noStatError conv) dir ⟨paths, dirs, []⟩).2 := rfl
      rw [hscan, hc] at hm
      simp only [List.map_nil, List.nil_append, List.mem_filter] at hm
      exact ⟨hm.2, hm.1⟩

/-- C15: in directory mode, once the setup checks have passed, the list handed to the
scheduler is the scan result filtered by `fn_isHeicFile`, in scan order: every scheduled file
satisfies the predicate, every scanned file satisfying it is scheduled as often as it occurs
in the scan, a file failing it is never scheduled.  With the predicate of the spec (exact-case
extension match) a text file and a JPEG fail it, every input handed to the converter passes it
and was scanned, and from image1.heic, image2.heif, notes.txt, image3.jpg exactly the first
two are converted. -/
theorem directory_mode_schedules_filtered_scan {σ φ : Type} (K : Collab σ φ)
    (bp : BatchProcessor) (sInputDirectory sOutputFormat sOutputDirectory : String)
    (bRecursive : Bool) (iQuality : Int) (bPreserveMetadata bVerbose : Bool) (w : σ)
    (conv : String → String → FS → Except Thrown Int × FS) (paths dirs : List String)
    (hin : K.pathExists sInputDirectory w = true)
    (hout : (ensureOutputDirectory K sOutputDirectory w).1 = true)
    (hb : 1 ≤ bp.iBatchSize) :
    fn_processDirectory K bp sInputDirectory sOutputFormat sOutputDirectory bRecursive
        iQuality bPreserveMetadata bVerbose w
      = fn_internalBatchProcess K bp.fn_clearStatistics
          ((K.fn_collectDirectoryFiles sInputDirectory bRecursive
            (ensureOutputDirectory K sOutputDirectory w).2).1.filter K.fn_isHeicFile)
          sOutputFormat sOutputDirectory iQuality bPreserveMetadata bVerbose
          (K.fn_collectDirectoryFiles sInputDirectory bRecursive
            (ensureOutputDirectory K sOutputDirectory w).2).2 ∧
    (∀ (scan : List String),
      (∀ f ∈ scan.filter K.fn_isHeicFile, K.fn_isHeicFile f = true ∧ f ∈ scan) ∧
      (∀ f, K.fn_isHeicFile f = true →
        (scan.filter K.fn_isHeicFile).count f = scan.count f) ∧
      (∀ f, K.fn_isHeicFile f = false → f ∉ scan.filter K.fn_isHeicFile) ∧
      (scan.filter K.fn_isHeicFile).Sublist scan) ∧
    (∀ e ∈ (fn_processDirectory (diskCollab noStatError conv) bp sInputDirectory sOutputFormat
        sOutputDirectory bRecursive iQuality bPreserveMetadata bVerbose
        ⟨paths, dirs, []⟩).2.2.converted,
      fn_isHeicFile e.1 = true ∧
      e.1 ∈ ((diskCollab noStatError conv).fn_collectDirectoryFiles sInputDirectory bRecursive
        (ensureOutputDirectory (diskCollab noStatError conv) sOutputDirectory ⟨paths, dirs, []⟩).2).1) ∧
    fn_isHeicFile "d/notes.txt" = false ∧ fn_isHeicFile "d/image3.jpg" = false ∧
    (fn_processDirectory (diskCollab noStatError (mockConvert "error")) BatchProcessor.new
        "d" "jpg" "out" false 85 false false
        ⟨["d", "out", "d/image1.heic", "d/image2.heif", "d/notes.txt", "d/image3.jpg"],
          ["d", "out"], []⟩).2.2.converted.map Prod.fst
      = ["d/image1.heic", "d/image2.heif"] := by
  refine ⟨processDirectory_eq_scheduler K bp _ _ _ _ _ _ _ w hin hout, ?_,
    disk_processDirectory_converted conv bp _ _ _ _ _ _ _ paths dirs hb,
    by decide, by decide, by decide⟩
  intro scan
  refine ⟨?_, ?_, ?_, List.filter_sublist _⟩
  · intro f hf
    rw [List.mem_filter] at hf
    exact ⟨hf.2, hf.1⟩
  · intro f hf
    exact List.count_filter hf
  · intro f hf hmem
    rw [List.mem_filter, hf] at hmem
    exact Bool.false_ne_true hmem.2

/-- The statement of C15 on a disk with two HEIC/HEIF files, a text file and a JPEG. -/
theorem directory_mode_schedules_filtered_scan_witness :
    (diskCollab noStatError (mockConvert "error")).pathExists "d"
        ⟨["d", "out", "d/image1.heic", "d/image2.heif", "d/notes.txt", "d/image3.jpg"],
          ["d", "out"], []⟩ = true ∧
    (ensureOutputDirectory (diskCollab noStatError (mockConvert "error")) "out"
        ⟨["d", "out", "d/image1.heic", "d/image2.heif", "d/notes.txt", "d/image3.jpg"],
          ["d", "out"], []⟩).1 = true ∧
    1 ≤ BatchProcessor.new.iBatchSize ∧
    fn_processDirectory (diskCollab noStatError (mockConvert "error")) BatchProcessor.new
        "d" "jpg" "out" false 85 false false
        ⟨["d", "out", "d/image1.heic", "d/image2.heif", "d/notes.txt", "d/image3.jpg"],
          ["d", "out"], []⟩
      = fn_internalBatchProcess (diskCollab noStatError (mockConvert "error"))
          BatchProcessor.new.fn_clearStatistics
          (((diskCollab noStatError (mockConvert "error")).fn_collectDirectoryFiles "d" false
            (ensureOutputDirectory (diskCollab noStatError (mockConvert "error")) "out"
              ⟨["d", "out", "d/image1.heic", "d/image2.heif", "d/notes.txt", "d/image3.jpg"],
                ["d", "out"], []⟩).2).1.filter (diskCollab noStatError (mockConvert "error")).fn_isHeicFile)
          "jpg" "out" 85 false false
          ((diskCollab noStatError (mockConvert "error")).fn_collectDirectoryFiles "d" false
            (ensureOutputDirectory (diskCollab noStatError (mockConvert "error")) "out"
              ⟨["d", "out", "d/image1.heic", "d/image2.heif", "d/notes.txt", "d/image3.jpg"],
                ["d", "out"], []⟩).2).2 :=
  ⟨by decide, by decide, by decide,
    (directory_mode_schedules_filtered_scan (diskCollab noStatError (mockConvert "error"))
      BatchProcessor.new "d" "jpg" "out" false 85 false false
      ⟨["d", "out", "d/image1.heic", "d/image2.heif", "d/notes.txt", "d/image3.jpg"],
        ["d", "out"], []⟩ (mockConvert "error") [] [] (by decide) (by decide) (by decide)).1⟩


/-! ## Parallel and sequential mode on statistics -/

theorem outcomes_sequential {σ φ : Type} (K : Collab σ φ) (outcome : Nat → Bool)
    (ordinal : σ → Nat) (hs : SequentialOutcomes K outcome ordinal) (vsFiles : List String)
    (fmt dir : String) (q : Int) (pm : Bool) (len : Nat) :
    ∀ (a : Nat) (bp : BatchProcessor) (w : σ), ordinal w = a →
      (processChunkSequential K vsFiles fmt dir q pm (List.range' a len) (bp, w)).1
          = (List.range' a len).foldl (recordAt vsFiles outcome) bp ∧
      ordinal (processChunkSequential K vsFiles fmt dir q pm (List.range' a len) (bp, w)).2
          = a + len := by
  unfold processChunkSequential
  induction len with
  | zero => intro a bp w hw; simp [hw]
  | succ len ih =>
    intro a bp w hw
    rw [List.range'_succ, List.foldl_cons, List.foldl_cons]
    obtain ⟨h1, h2⟩ := hs (vsFiles.getD a "") fmt dir q pm w
    obtain ⟨r1, r2⟩ := ih (a + 1)
      (bp.recordOutcome (fn_processSingleFile K (vsFiles.getD a "") fmt dir q pm w).1
        (vsFiles.getD a ""))
      (fn_processSingleFile K (vsFiles.getD a "") fmt dir q pm w).2 (by rw [h2, hw])
    refine ⟨?_, ?_⟩
    · rw [r1, h1, hw]
      rfl
    · rw [r2]
      omega

theorem outcomes_launch {σ φ : Type} (K : Collab σ φ) (outcome : Nat → Bool)
    (ordinal : σ → Nat) (launchedAt : φ → Nat → Prop)
    (hp : ParallelOutcomes K outcome ordinal launchedAt) (vsFiles : List String)
    (fmt dir : String) (q : Int) (pm : Bool) (len : Nat) :
    ∀ (a : Nat) (pre : List φ) (w : σ), ordinal w = a →
      ∃ futs, ((List.range' a len).foldl (fun (acc : List φ × σ) stIdx =>
            let r := K.async (fn_processSingleFile K (vsFiles.getD stIdx "") fmt dir q pm)
              acc.2
            (acc.1 ++ [r.1], r.2)) (pre, w)).1 = pre ++ futs ∧
        List.Forall₂ launchedAt futs (List.range' a len) ∧
        ordinal ((List.range' a len).foldl (fun (acc : List φ × σ) stIdx =>
            let r := K.async (fn_processSingleFile K (vsFiles.getD stIdx "") fmt dir q pm)
              acc.2
            (acc.1 ++ [r.1], r.2)) (pre, w)).2 = a + len := by
  induction len with
  | zero =>
    intro a pre w hw
    exact ⟨[], by simp, by simp, by simp [hw]⟩
  | succ len ih =>
    intro a pre w hw
    rw [List.range'_succ, List.foldl_cons]
    obtain ⟨h1, h2⟩ := hp.1 (vsFiles.getD a "") fmt dir q pm w
    obtain ⟨futs, r1, r2, r3⟩ := ih (a + 1)
      (pre ++ [(K.async (fn_processSingleFile K (vsFiles.getD a "") fmt dir q pm) w).1])
      (K.async (fn_processSingleFile K (vsFiles.getD a "") fmt dir q pm) w).2
      (by rw [h2, hw])
    refine ⟨(K.async (fn_processSingleFile K (vsFiles.getD a "") fmt dir q pm) w).1 :: futs,
      ?_, ?_, ?_⟩
    · rw [r1]
      simp
    · rw [hw] at h1
      exact List.Forall₂.cons h1 r2
    · rw [r3]
      omega

theorem outcomes_collect {σ φ : Type} (K : Collab σ φ) (outcome : Nat → Bool)
    (ordinal : σ → Nat) (launchedAt : φ → Nat → Prop)
    (hp : ParallelOutcomes K outcome ordinal launchedAt) (vsFiles : List String) (st : Nat)
    (futs : List φ) :
    ∀ (d len : Nat) (pre : List φ) (bp : BatchProcessor) (w : σ), pre.length = d →
      List.Forall₂ launchedAt futs (List.range' (st + d) len) →
      (collectChunk K vsFiles st (pre ++ futs) (List.range' (st + d) len) (bp, w)).1
          = (List.range' (st + d) len).foldl (recordAt vsFiles outcome) bp ∧
      ordinal (collectChunk K vsFiles st (pre ++ futs) (List.range' (st + d) len) (bp, w)).2
          = ordinal w := by
  unfold collectChunk
  induction futs with
  | nil =>
    intro d len pre bp w _ hf
    have hl := hf.length_eq
    simp only [List.length_nil, List.length_range'] at hl
    subst hl
    simp
  | cons fut rest ih =>
    intro d len pre bp w hd hf
    have hl := hf.length_eq
    simp only [List.length_cons, List.length_range'] at hl
    subst hl
    rw [List.range'_succ] at hf ⊢
    rw [List.forall₂_cons] at hf
    rw [List.foldl_cons, List.foldl_cons]
    have hlook : (pre ++ fut :: rest)[st + d - st]? = some fut := by
      have e : st + d - st = pre.length := by omega
      rw [e, List.getElem?_append_right (le_refl _)]
      simp
    rw [hlook]
    obtain ⟨g1, g2⟩ := hp.2 fut (st + d) w hf.1
    have hpre : pre ++ fut :: rest = (pre ++ [fut]) ++ rest := by simp
    have hidx : st + d + 1 = st + (d + 1) := by omega
    simp only []
    rw [hpre, hidx]
    obtain ⟨r1, r2⟩ := ih (d + 1) rest.length (pre ++ [fut])
      (bp.recordOutcome (K.get fut w).1 (vsFiles.getD (st + d) "")) (K.get fut w).2
      (by simp [hd]) (by rw [← hidx]; exact hf.2)
    refine ⟨?_, ?_⟩
    · rw [r1, g1]
      rfl
    · rw [r2, g2]


theorem outcomes_processChunk {σ φ : Type} (K : Collab σ φ) (outcome : Nat → Bool)
    (ordinal : σ → Nat) (launchedAt : φ → Nat → Prop) (bp : BatchProcessor)
    (hp : bp.bParallelProcessing = true → ParallelOutcomes K outcome ordinal launchedAt)
    (hs : bp.bParallelProcessing = false → SequentialOutcomes K outcome ordinal)
    (vsFiles : List String) (fmt dir : String) (q : Int) (pm : Bool) (bp1 : BatchProcessor)
    (w : σ) (k : Nat) (hw : ordinal w = stStart k bp.iBatchSize.toNat) :
    (processChunk K bp vsFiles fmt dir q pm (bp1, w) k).1
        = (chunkIndices k bp.iBatchSize.toNat vsFiles.length).foldl
            (recordAt vsFiles outcome) bp1 ∧
    ordinal (processChunk K bp vsFiles fmt dir q pm (bp1, w) k).2
        = stStart k bp.iBatchSize.toNat
          + (stEnd k bp.iBatchSize.toNat vsFiles.length - stStart k bp.iBatchSize.toNat) := by
  unfold processChunk
  cases hmode : bp.bParallelProcessing with
  | false =>
    simp only [Bool.false_eq_true, if_false]
    unfold chunkIndices
    exact outcomes_sequential K outcome ordinal (hs hmode) vsFiles fmt dir q pm _ _ bp1 w hw
  | true =>
    simp only [if_true]
    unfold launchChunk chunkIndices
    obtain ⟨futs, r1, r2, r3⟩ := outcomes_launch K outcome ordinal launchedAt (hp hmode)
      vsFiles fmt dir q pm
      (stEnd k bp.iBatchSize.toNat vsFiles.length - stStart k bp.iBatchSize.toNat)
      (stStart k bp.iBatchSize.toNat) [] w hw
    rw [r1]
    have h := outcomes_collect K outcome ordinal launchedAt (hp hmode) vsFiles
      (stStart k bp.iBatchSize.toNat) futs 0
      (stEnd k bp.iBatchSize.toNat vsFiles.length - stStart k bp.iBatchSize.toNat) [] bp1
      ((List.range' (stStart k bp.iBatchSize.toNat)
          (stEnd k bp.iBatchSize.toNat vsFiles.length - stStart k bp.iBatchSize.toNat)).foldl
        (fun (acc : List φ × σ) stIdx =>
          let r := K.async (fn_processSingleFile K (vsFiles.getD stIdx "") fmt dir q pm) acc.2
          (acc.1 ++ [r.1], r.2)) ([], w)).2 rfl (by simpa using r2)
    simp only [Nat.add_zero] at h
    refine ⟨h.1, ?_⟩
    rw [h.2, r3]

theorem outcomes_chunks {σ φ : Type} (K : Collab σ φ) (outcome : Nat → Bool)
    (ordinal : σ → Nat) (launchedAt : φ → Nat → Prop) (bp : BatchProcessor)
    (hp : bp.bParallelProcessing = true → ParallelOutcomes K outcome ordinal launchedAt)
    (hs : bp.bParallelProcessing = false → SequentialOutcomes K outcome ordinal)
    (vsFiles : List String) (fmt dir : String) (q : Int) (pm : Bool) (bp1 : BatchProcessor)
    (w : σ) (hw : ordinal w = 0) (hb : 1 ≤ bp.iBatchSize) (m : Nat)
    (hm : m ≤ stBatches vsFiles.length bp.iBatchSize.toNat) :
    ((List.range m).foldl (processChunk K bp vsFiles fmt dir q pm) (bp1, w)).1
        = (List.range (min (stStart m bp.iBatchSize.toNat) vsFiles.length)).foldl
            (recordAt vsFiles outcome) bp1 ∧
    ordinal ((List.range m).foldl (processChunk K bp vsFiles fmt dir q pm) (bp1, w)).2
        = min (stStart m bp.iBatchSize.toNat) vsFiles.length := by
  induction m with
  | zero => simp [stStart, hw]
  | succ m ih =>
    have hlt := stStart_lt vsFiles.length bp.iBatchSize.toNat m (by omega) (by omega)
    obtain ⟨i1, i2⟩ := ih (by omega)
    have e : min (stStart m bp.iBatchSize.toNat) vsFiles.length
        = stStart m bp.iBatchSize.toNat := by omega
    rw [List.range_succ, List.foldl_append, List.foldl_cons, List.foldl_nil]
    obtain ⟨c1, c2⟩ := outcomes_processChunk K outcome ordinal launchedAt bp hp hs vsFiles fmt
      dir q pm ((List.range m).foldl (processChunk K bp vsFiles fmt dir q pm) (bp1, w)).1
      ((List.range m).foldl (processChunk K bp vsFiles fmt dir q pm) (bp1, w)).2 m
      (by rw [i2, e])
    refine ⟨?_, ?_⟩
    · rw [c1, i1, range_chunks_succ, List.foldl_append]
    · rw [c2, stStart_succ]
      unfold stEnd
      omega

/-- The statistics the scheduler leaves in any world that delivers the assigned outcomes:
the outcomes of positions 0 .. n-1 recorded in order, whatever the mode and the batch size. -/
theorem outcomes_internalBatchProcess {σ φ : Type} (K : Collab σ φ) (outcome : Nat → Bool)
    (ordinal : σ → Nat) (launchedAt : φ → Nat → Prop) (bp : BatchProcessor)
    (hp : bp.bParallelProcessing = true → ParallelOutcomes K outcome ordinal launchedAt)
    (hs : bp.bParallelProcessing = false → SequentialOutcomes K outcome ordinal)
    (vsFiles : List String) (fmt dir : String) (q : Int) (pm verbose : Bool)
    (w : σ) (hw : ordinal w = 0) (hb : 1 ≤ bp.iBatchSize) :
    (fn_internalBatchProcess K bp vsFiles fmt dir q pm verbose w).2.1
        = (List.range vsFiles.length).foldl (recordAt vsFiles outcome) bp ∧
    (fn_internalBatchProcess K bp vsFiles fmt dir q pm verbose w).1
        = (vsFiles.isEmpty ||
            decide (((List.range vsFiles.length).foldl (recordAt vsFiles outcome)
              bp).iFailedCount = 0)) := by
  unfold fn_internalBatchProcess
  cases hv : vsFiles with
  | nil => simp
  | cons f rest =>
    simp only [List.isEmpty_cons, Bool.false_eq_true, if_false, Bool.false_or]
    obtain ⟨h1, _⟩ := outcomes_chunks K outcome ordinal launchedAt bp hp hs (f :: rest) fmt dir
      q pm bp w hw hb _ (le_refl _)
    have := stBatches_mul_ge (f :: rest).length bp.iBatchSize.toNat (by omega)
    have e : min (stStart (stBatches (f :: rest).length bp.iBatchSize.toNat)
        bp.iBatchSize.toNat) (f :: rest).length = (f :: rest).length := by
      unfold stStart
      omega
    rw [e] at h1
    rw [h1]
    exact ⟨rfl, rfl⟩

theorem outcomeCollab_sequentialOutcomes (d : Bool) (outcome : Nat → Bool) :
    SequentialOutcomes (outcomeCollab d outcome) outcome id := by
  intro f fmt dir q pm w
  rw [outcome_processSingleFile]
  exact ⟨rfl, rfl⟩

theorem outcomeCollab_parallelOutcomes (d : Bool) (outcome : Nat → Bool) :
    ParallelOutcomes (outcomeCollab d outcome) outcome id (fun b k => b = outcome k) := by
  constructor
  · intro f fmt dir q pm w
    have e : (outcomeCollab d outcome).async
        (fn_processSingleFile (outcomeCollab d outcome) f fmt dir q pm) w
        = (outcome w, w + 1) := by
      show fn_processSingleFile (outcomeCollab d outcome) f fmt dir q pm w = _
      exact outcome_processSingleFile d outcome _ fmt dir q pm w
    rw [e]
    exact ⟨rfl, rfl⟩
  · intro fut k w h
    exact ⟨h, rfl⟩


theorem poolCollab_sequentialOutcomes (outcome : Nat → Bool) :
    SequentialOutcomes (poolCollab outcome) outcome (fun w => w.started) := by
  intro f fmt dir q pm w
  cases h : outcome w.started <;>
    simp [fn_processSingleFile, processSingleFileTry, poolCollab, h]

theorem poolCollab_parallelOutcomes (outcome : Nat → Bool) :
    ParallelOutcomes (poolCollab outcome) outcome (fun w => w.started)
      (fun fut k => fut = k) := by
  constructor
  · intro f fmt dir q pm w
    exact ⟨rfl, rfl⟩
  · intro fut k w h
    subst h
    refine ⟨rfl, ?_⟩
    simp only [poolCollab]
    split_ifs <;> rfl

/-- C20: for every file list, batch size >= 1 and outcome per list position, the scheduler
yields the same return value, processed count, failed count and failed-file list (same order)
in parallel mode as in sequential mode, in whatever worlds the two runs take place as long as
each position's task has the assigned outcome: when the tasks of a chunk run and in which
order they complete does not matter.  In the pool world the tasks of each chunk complete in
reverse launch order and the statistics are those of the sequential run. -/
theorem parallel_sequential_same_statistics {σ φ σ' φ' : Type} (K : Collab σ φ)
    (K' : Collab σ' φ') (outcome : Nat → Bool) (ordinal : σ → Nat)
    (launchedAt : φ → Nat → Prop) (ordinal' : σ' → Nat) (bp : BatchProcessor)
    (vsFiles : List String) (sOutputFormat sOutputDirectory : String) (iQuality : Int)
    (bPreserveMetadata bVerbose : Bool) (w : σ) (w' : σ')
    (hb : 1 ≤ bp.iBatchSize)
    (hpar : ParallelOutcomes K outcome ordinal launchedAt)
    (hseq : SequentialOutcomes K' outcome ordinal')
    (hw : ordinal w = 0) (hw' : ordinal' w' = 0) :
    (fn_internalBatchProcess K (bp.fn_setParallelProcessing true) vsFiles sOutputFormat
        sOutputDirectory iQuality bPreserveMetadata bVerbose w).1
      = (fn_internalBatchProcess K' (bp.fn_setParallelProcessing false) vsFiles sOutputFormat
        sOutputDirectory iQuality bPreserveMetadata bVerbose w').1 ∧
    (fn_internalBatchProcess K (bp.fn_setParallelProcessing true) vsFiles sOutputFormat
        sOutputDirectory iQuality bPreserveMetadata bVerbose w).2.1.fn_getProcessedCount
      = (fn_internalBatchProcess K' (bp.fn_setParallelProcessing false) vsFiles sOutputFormat
        sOutputDirectory iQuality bPreserveMetadata bVerbose w').2.1.fn_getProcessedCount ∧
    (fn_internalBatchProcess K (bp.fn_setParallelProcessing true) vsFiles sOutputFormat
        sOutputDirectory iQuality bPreserveMetadata bVerbose w).2.1.fn_getFailedCount
      = (fn_internalBatchProcess K' (bp.fn_setParallelProcessing false) vsFiles sOutputFormat
        sOutputDirectory iQuality bPreserveMetadata bVerbose w').2.1.fn_getFailedCount ∧
    (fn_internalBatchProcess K (bp.fn_setParallelProcessing true) vsFiles sOutputFormat
        sOutputDirectory iQuality bPreserveMetadata bVerbose w).2.1.fn_getFailedFiles
      = (fn_internalBatchProcess K' (bp.fn_setParallelProcessing false) vsFiles sOutputFormat
        sOutputDirectory iQuality bPreserveMetadata bVerbose w').2.1.fn_getFailedFiles ∧
    (fn_internalBatchProcess (poolCollab (fun k => k != 3))
        ((BatchProcessor.new.fn_setBatchSize 2).fn_setParallelProcessing true)
        ["a", "b", "c", "d", "e"] "jpg" "out" 85 false false ⟨0, [], []⟩)
      = (false, ⟨4, 1, ["d"], 2, true⟩, ⟨5, [], [1, 0, 3, 2, 4]⟩) ∧
    (fn_internalBatchProcess (poolCollab (fun k => k != 3))
        ((BatchProcessor.new.fn_setBatchSize 2).fn_setParallelProcessing false)
        ["a", "b", "c", "d", "e"] "jpg" "out" 85 false false ⟨0, [], []⟩)
      = (false, ⟨4, 1, ["d"], 2, false⟩, ⟨5, [], [0, 1, 2, 3, 4]⟩) := by
  have hP := outcomes_internalBatchProcess K outcome ordinal launchedAt
    (bp.fn_setParallelProcessing true) (fun _ => hpar)
    (fun h => absurd h (by simp [BatchProcessor.fn_setParallelProcessing]))
    vsFiles sOutputFormat sOutputDirectory iQuality bPreserveMetadata bVerbose w hw hb
  have hS := outcomes_internalBatchProcess K' outcome ordinal' (fun (_ : φ') (_ : Nat) => True)
    (bp.fn_setParallelProcessing false)
    (fun h => absurd h (by simp [BatchProcessor.fn_setParallelProcessing]))
    (fun _ => hseq)
    vsFiles sOutputFormat sOutputDirectory iQuality bPreserveMetadata bVerbose w' hw' hb
  obtain ⟨p1, p2, p3, _, _⟩ := recordAt_fold vsFiles outcome (List.range vsFiles.length)
    (bp.fn_setParallelProcessing true)
  obtain ⟨s1, s2, s3, _, _⟩ := recordAt_fold vsFiles outcome (List.range vsFiles.length)
    (bp.fn_setParallelProcessing false)
  refine ⟨?_, ?_, ?_, ?_, by decide, by decide⟩
  · rw [hP.2, hS.2, p2, s2]
    rfl
  · unfold BatchProcessor.fn_getProcessedCount
    rw [hP.1, hS.1, p3, s3]
    rfl
  · unfold BatchProcessor.fn_getFailedCount
    rw [hP.1, hS.1, p2, s2]
    rfl
  · unfold BatchProcessor.fn_getFailedFiles
    rw [hP.1, hS.1, p1, s1]
    rfl

/-- The statement of C20 with the parallel run in the pool world, where tasks complete in
reverse launch order inside a chunk, and the sequential run in the counting world. -/
theorem parallel_sequential_same_statistics_witness :
    1 ≤ (BatchProcessor.new.fn_setBatchSize 2).iBatchSize ∧
    ParallelOutcomes (poolCollab (fun k => k != 3)) (fun k => k != 3) (fun w => w.started)
      (fun fut k => fut = k) ∧
    SequentialOutcomes (outcomeCollab true (fun k => k != 3)) (fun k => k != 3) id ∧
    (fn_internalBatchProcess (poolCollab (fun k => k != 3))
        ((BatchProcessor.new.fn_setBatchSize 2).fn_setParallelProcessing true)
        ["a", "b", "c", "d", "e"] "jpg" "out" 85 false false
        ⟨0, [], []⟩).2.1.fn_getFailedFiles
      = (fn_internalBatchProcess (outcomeCollab true (fun k => k != 3))
        ((BatchProcessor.new.fn_setBatchSize 2).fn_setParallelProcessing false)
        ["a", "b", "c", "d", "e"] "jpg" "out" 85 false false 0).2.1.fn_getFailedFiles :=
  ⟨by decide, poolCollab_parallelOutcomes _, outcomeCollab_sequentialOutcomes _ _,
    (parallel_sequential_same_statistics (poolCollab (fun k => k != 3))
      (outcomeCollab true (fun k => k != 3)) (fun k => k != 3) (fun w => w.started)
      (fun fut k => fut = k) id (BatchProcessor.new.fn_setBatchSize 2)
      ["a", "b", "c", "d", "e"] "jpg" "out" 85 false false ⟨0, [], []⟩ 0 (by decide)
      (poolCollab_parallelOutcomes _) (outcomeCollab_sequentialOutcomes _ _) rfl rfl).2.2.2.1⟩


/-! ## The barrier between chunks -/

theorem trace_launch {σ φ : Type} (K : Collab σ φ) (vsFiles : List String)
    (fmt dir : String) (q : Int) (pm : Bool) (len : Nat) :
    ∀ (a : Nat) (pre : List (φ × Nat)) (w : σ) (ev : List Event),
      ∃ futs, ((List.range' a len).foldl (fun (acc : List (φ × Nat) × (σ × Trace)) stIdx =>
            let r := (withTrace K).async
              (fn_processSingleFile (withTrace K) (vsFiles.getD stIdx "") fmt dir q pm) acc.2
            (acc.1 ++ [r.1], r.2)) (pre, (w, ⟨ev, a⟩))).1 = pre ++ futs ∧
        futs.map Prod.snd = List.range' a len ∧
        ((List.range' a len).foldl (fun (acc : List (φ × Nat) × (σ × Trace)) stIdx =>
            let r := (withTrace K).async
              (fn_processSingleFile (withTrace K) (vsFiles.getD stIdx "") fmt dir q pm) acc.2
            (acc.1 ++ [r.1], r.2)) (pre, (w, ⟨ev, a⟩))).2.2
          = ⟨ev ++ (List.range' a len).map Event.launched, a + len⟩ := by
  induction len with
  | zero =>
    intro a pre w ev
    exact ⟨[], by simp, by simp, by simp⟩
  | succ len ih =>
    intro a pre w ev
    rw [List.range'_succ, List.foldl_cons]
    have hs : ((withTrace K).async
        (fn_processSingleFile (withTrace K) (vsFiles.getD a "") fmt dir q pm)
        (w, ⟨ev, a⟩)).2.2 = ⟨ev ++ [Event.launched a], a + 1⟩ := rfl
    have hf : ((withTrace K).async
        (fn_processSingleFile (withTrace K) (vsFiles.getD a "") fmt dir q pm)
        (w, ⟨ev, a⟩)).1.2 = a := rfl
    obtain ⟨futs, r1, r2, r3⟩ := ih (a + 1)
      (pre ++ [((withTrace K).async
        (fn_processSingleFile (withTrace K) (vsFiles.getD a "") fmt dir q pm)
        (w, ⟨ev, a⟩)).1])
      ((withTrace K).async
        (fn_processSingleFile (withTrace K) (vsFiles.getD a "") fmt dir q pm)
        (w, ⟨ev, a⟩)).2.1 (ev ++ [Event.launched a])
    have hw : ((withTrace K).async
        (fn_processSingleFile (withTrace K) (vsFiles.getD a "") fmt dir q pm) (w, ⟨ev, a⟩)).2
        = (((withTrace K).async
            (fn_processSingleFile (withTrace K) (vsFiles.getD a "") fmt dir q pm)
            (w, ⟨ev, a⟩)).2.1, ⟨ev ++ [Event.launched a], a + 1⟩) := by
      rw [← hs]
    simp only [] at r1 r3 ⊢
    rw [hw]
    refine ⟨((withTrace K).async
        (fn_processSingleFile (withTrace K) (vsFiles.getD a "") fmt dir q pm)
        (w, ⟨ev, a⟩)).1 :: futs, ?_, ?_, ?_⟩
    · rw [r1]
      simp
    · rw [List.map_cons, hf, r2]
    · rw [r3]
      simp only [List.map_cons, List.append_assoc, List.singleton_append, Trace.mk.injEq,
        true_and]
      omega

theorem trace_collect {σ φ : Type} (K : Collab σ φ) (vsFiles : List String) (st : Nat)
    (futs : List (φ × Nat)) :
    ∀ (d len : Nat) (pre : List (φ × Nat)) (bp : BatchProcessor) (w : σ) (t : Trace),
      pre.length = d → futs.map Prod.snd = List.range' (st + d) len →
      (collectChunk (withTrace K) vsFiles st (pre ++ futs) (List.range' (st + d) len)
          (bp, (w, t))).2.2
        = { t with events := t.events ++ (List.range' (st + d) len).map Event.joined } := by
  unfold collectChunk
  induction futs with
  | nil =>
    intro d len pre bp w t _ hf
    have hl := congrArg List.length hf
    simp only [List.map_nil, List.length_nil, List.length_range'] at hl
    subst hl
    simp
  | cons fut rest ih =>
    intro d len pre bp w t hd hf
    have hl := congrArg List.length hf
    simp only [List.map_cons, List.length_cons, List.length_map, List.length_range'] at hl
    subst hl
    rw [List.range'_succ, List.map_cons, List.cons.injEq] at hf
    rw [List.range'_succ, List.foldl_cons]
    have hlook : (pre ++ fut :: rest)[st + d - st]? = some fut := by
      have e : st + d - st = pre.length := by omega
      rw [e, List.getElem?_append_right (le_refl _)]
      simp
    rw [hlook]
    have hpre : pre ++ fut :: rest = (pre ++ [fut]) ++ rest := by simp
    have hidx : st + d + 1 = st + (d + 1) := by omega
    simp only []
    rw [hpre, hidx]
    have hg : ((withTrace K).get fut (w, t)).2
        = (((withTrace K).get fut (w, t)).2.1,
            { t with events := t.events ++ [Event.joined (st + d)] }) := by
      rw [← hf.1]
      rfl
    rw [hg, ih (d + 1) rest.length (pre ++ [fut]) _ _ _ (by simp [hd])
      (by rw [← hidx]; exact hf.2)]
    simp [hidx]

/-- In parallel mode a chunk adds to the trace its launches followed by its joins. -/
theorem trace_processChunk {σ φ : Type} (K : Collab σ φ) (bp : BatchProcessor)
    (hpar : bp.bParallelProcessing = true) (vsFiles : List String) (fmt dir : String)
    (q : Int) (pm : Bool) (bp1 : BatchProcessor) (w : σ) (ev : List Event) (k : Nat) :
    (processChunk (withTrace K) bp vsFiles fmt dir q pm
        (bp1, (w, ⟨ev, stStart k bp.iBatchSize.toNat⟩)) k).2.2
      = ⟨ev ++ chunkEvents bp.iBatchSize.toNat vsFiles.length k,
          stStart k bp.iBatchSize.toNat
            + (stEnd k bp.iBatchSize.toNat vsFiles.length
                - stStart k bp.iBatchSize.toNat)⟩ := by
  unfold processChunk
  simp only [hpar, if_true]
  unfold launchChunk chunkEvents chunkIndices
  obtain ⟨futs, r1, r2, r3⟩ := trace_launch K vsFiles fmt dir q pm
    (stEnd k bp.iBatchSize.toNat vsFiles.length - stStart k bp.iBatchSize.toNat)
    (stStart k bp.iBatchSize.toNat) [] w ev
  rw [r1]
  have h := trace_collect K vsFiles (stStart k bp.iBatchSize.toNat) futs 0
    (stEnd k bp.iBatchSize.toNat vsFiles.length - stStart k bp.iBatchSize.toNat) [] bp1
    ((List.range' (stStart k bp.iBatchSize.toNat)
        (stEnd k bp.iBatchSize.toNat vsFiles.length - stStart k bp.iBatchSize.toNat)).foldl
      (fun (acc : List (φ × Nat) × (σ × Trace)) stIdx =>
        let r := (withTrace K).async
          (fn_processSingleFile (withTrace K) (vsFiles.getD stIdx "") fmt dir q pm) acc.2
        (acc.1 ++ [r.1], r.2)) ([], (w, ⟨ev, stStart k bp.iBatchSize.toNat⟩))).2.1
    ((List.range' (stStart k bp.iBatchSize.toNat)
        (stEnd k bp.iBatchSize.toNat vsFiles.length - stStart k bp.iBatchSize.toNat)).foldl
      (fun (acc : List (φ × Nat) × (σ × Trace)) stIdx =>
        let r := (withTrace K).async
          (fn_processSingleFile (withTrace K) (vsFiles.getD stIdx "") fmt dir q pm) acc.2
        (acc.1 ++ [r.1], r.2)) ([], (w, ⟨ev, stStart k bp.iBatchSize.toNat⟩))).2.2
    rfl (by simpa using r2)
  simp only [Nat.add_zero] at h
  rw [h, r3]
  simp


theorem trace_chunks {σ φ : Type} (K : Collab σ φ) (bp : BatchProcessor)
    (hpar : bp.bParallelProcessing = true) (vsFiles : List String) (fmt dir : String)
    (q : Int) (pm : Bool) (bp1 : BatchProcessor) (w : σ) (hb : 1 ≤ bp.iBatchSize) (m : Nat)
    (hm : m ≤ stBatches vsFiles.length bp.iBatchSize.toNat) :
    ((List.range m).foldl (processChunk (withTrace K) bp vsFiles fmt dir q pm)
        (bp1, (w, ⟨[], 0⟩))).2.2
      = ⟨((List.range m).map (chunkEvents bp.iBatchSize.toNat vsFiles.length)).flatten,
          min (stStart m bp.iBatchSize.toNat) vsFiles.length⟩ := by
  induction m with
  | zero => simp [stStart]
  | succ m ih =>
    have hlt := stStart_lt vsFiles.length bp.iBatchSize.toNat m (by omega) (by omega)
    have e : min (stStart m bp.iBatchSize.toNat) vsFiles.length
        = stStart m bp.iBatchSize.toNat := by omega
    have i1 := ih (by omega)
    rw [e] at i1
    rw [List.range_succ, List.foldl_append, List.foldl_cons, List.foldl_nil]
    have hstate : (List.range m).foldl (processChunk (withTrace K) bp vsFiles fmt dir q pm)
        (bp1, (w, ⟨[], 0⟩))
        = (((List.range m).foldl (processChunk (withTrace K) bp vsFiles fmt dir q pm)
            (bp1, (w, ⟨[], 0⟩))).1,
          (((List.range m).foldl (processChunk (withTrace K) bp vsFiles fmt dir q pm)
            (bp1, (w, ⟨[], 0⟩))).2.1,
            ⟨((List.range m).map (chunkEvents bp.iBatchSize.toNat vsFiles.length)).flatten,
              stStart m bp.iBatchSize.toNat⟩)) := by
      rw [← i1]
    rw [hstate, trace_processChunk K bp hpar]
    simp only [List.map_append, List.map_cons, List.map_nil, List.flatten_append,
      List.flatten_cons, List.flatten_nil, List.append_nil, Trace.mk.injEq, true_and]
    rw [stStart_succ]
    unfold stEnd
    omega

/-- The trace of a parallel run: chunk after chunk, the launches of the chunk followed by the
joins of the chunk. -/
theorem trace_internalBatchProcess {σ φ : Type} (K : Collab σ φ) (bp : BatchProcessor)
    (hpar : bp.bParallelProcessing = true) (vsFiles : List String) (fmt dir : String)
    (q : Int) (pm verbose : Bool) (w : σ) (hb : 1 ≤ bp.iBatchSize) :
    (fn_internalBatchProcess (withTrace K) bp vsFiles fmt dir q pm verbose
        (w, ⟨[], 0⟩)).2.2.2.events
      = ((List.range (stBatches vsFiles.length bp.iBatchSize.toNat)).map
          (chunkEvents bp.iBatchSize.toNat vsFiles.length)).flatten := by
  unfold fn_internalBatchProcess
  cases hv : vsFiles with
  | nil =>
    have : stBatches 0 bp.iBatchSize.toNat = 0 := by
      unfold stBatches
      apply Nat.div_eq_of_lt
      omega
    simp [this]
  | cons f rest =>
    simp only [List.isEmpty_cons, Bool.false_eq_true, if_false]
    rw [trace_chunks K bp hpar (f :: rest) fmt dir q pm bp w hb _ (le_refl _)]

theorem mem_chunkEvents_launched (b n k j : Nat) :
    Event.launched j ∈ chunkEvents b n k ↔ j ∈ chunkIndices k b n := by
  unfold chunkEvents
  simp

theorem mem_chunkEvents_joined (b n k i : Nat) :
    Event.joined i ∈ chunkEvents b n k ↔ i ∈ chunkIndices k b n := by
  unfold chunkEvents
  simp

theorem chunkIndices_disjoint (b n k k' j : Nat) (hk : k < k')
    (h1 : j ∈ chunkIndices k b n) (h2 : j ∈ chunkIndices k' b n) : False := by
  rw [mem_chunkIndices] at h1 h2
  have h3 : (k + 1) * b ≤ k' * b := Nat.mul_le_mul_right b hk
  omega

theorem append_split_of_not_mem {α : Type} (X Y p rest : List α) (a : α)
    (h : X ++ Y = p ++ a :: rest) (ha : a ∉ X) : ∃ p', p = X ++ p' := by
  rw [List.append_eq_append_iff] at h
  rcases h with ⟨a', h1, _⟩ | ⟨c', h1, h2⟩
  · exact ⟨a', h1⟩
  · cases c' with
    | nil => exact ⟨[], by simpa using h1.symm⟩
    | cons c cs =>
      simp only [List.cons_append, List.cons.injEq] at h2
      exact absurd (by rw [h1, h2.1]; simp) ha

/-- When a task of a later chunk is launched, every task of every earlier chunk has been
joined. -/
theorem joined_before_later_launch (b n m : Nat) (p rest : List Event) (j k k' i : Nat)
    (h : ((List.range m).map (chunkEvents b n)).flatten = p ++ Event.launched j :: rest)
    (hk : k < k') (hi : i ∈ chunkIndices k b n) (hj : j ∈ chunkIndices k' b n) :
    Event.joined i ∈ p := by
  have hk'm : k' < m := by
    by_contra hge
    have hmem : Event.launched j ∈ ((List.range m).map (chunkEvents b n)).flatten := by
      rw [h]
      simp
    rw [List.mem_flatten] at hmem
    obtain ⟨l, hl, hjl⟩ := hmem
    rw [List.mem_map] at hl
    obtain ⟨k2, hk2, rfl⟩ := hl
    rw [List.mem_range] at hk2
    rw [mem_chunkEvents_launched] at hjl
    exact chunkIndices_disjoint b n k2 k' j (by omega) hjl hj
  have hsplit : List.range m = List.range k' ++ List.range' k' (m - k') := by
    rw [List.range_eq_range', List.range_eq_range']
    have := List.range'_append 0 k' (m - k') 1
    simp only [Nat.zero_add, Nat.one_mul] at this
    rw [this]
    congr 1
    omega
  rw [hsplit, List.map_append, List.flatten_append] at h
  have hnot : Event.launched j ∉ ((List.range k').map (chunkEvents b n)).flatten := by
    intro hmem
    rw [List.mem_flatten] at hmem
    obtain ⟨l, hl, hjl⟩ := hmem
    rw [List.mem_map] at hl
    obtain ⟨k2, hk2, rfl⟩ := hl
    rw [List.mem_range] at hk2
    rw [mem_chunkEvents_launched] at hjl
    exact chunkIndices_disjoint b n k2 k' j hk2 hjl hj
  obtain ⟨p', rfl⟩ := append_split_of_not_mem _ _ p rest _ h hnot
  apply List.mem_append_left
  rw [List.mem_flatten]
  exact ⟨chunkEvents b n k, List.mem_map.mpr ⟨k, List.mem_range.mpr hk, rfl⟩,
    (mem_chunkEvents_joined b n k i).mpr hi⟩


theorem launchCount_append (s t : List Event) :
    launchCount (s ++ t) = launchCount s + launchCount t := by
  unfold launchCount
  rw [List.countP_append]

theorem joinCount_append (s t : List Event) :
    joinCount (s ++ t) = joinCount s + joinCount t := by
  unfold joinCount
  rw [List.countP_append]

theorem counts_map_launched (l : List Nat) :
    launchCount (l.map Event.launched) = l.length ∧ joinCount (l.map Event.launched) = 0 := by
  induction l with
  | nil => exact ⟨rfl, rfl⟩
  | cons a rest ih =>
    obtain ⟨h1, h2⟩ := ih
    unfold launchCount at h1 ⊢
    unfold joinCount at h2 ⊢
    simp only [List.map_cons, List.length_cons]
    rw [List.countP_cons, List.countP_cons, h1, h2]
    simp

theorem counts_map_joined (l : List Nat) :
    launchCount (l.map Event.joined) = 0 ∧ joinCount (l.map Event.joined) = l.length := by
  induction l with
  | nil => exact ⟨rfl, rfl⟩
  | cons a rest ih =>
    obtain ⟨h1, h2⟩ := ih
    unfold launchCount at h1 ⊢
    unfold joinCount at h2 ⊢
    simp only [List.map_cons, List.length_cons]
    rw [List.countP_cons, List.countP_cons, h1, h2]
    simp

theorem counts_chunkEvents (b n k : Nat) :
    launchCount (chunkEvents b n k) = (chunkIndices k b n).length ∧
    joinCount (chunkEvents b n k) = (chunkIndices k b n).length := by
  unfold chunkEvents
  rw [launchCount_append, joinCount_append]
  obtain ⟨h1, h2⟩ := counts_map_launched (chunkIndices k b n)
  obtain ⟨h3, h4⟩ := counts_map_joined (chunkIndices k b n)
  rw [h1, h2, h3, h4]
  exact ⟨by omega, by omega⟩

theorem chunkIndices_length_le (b n k : Nat) : (chunkIndices k b n).length ≤ b := by
  rw [chunkIndices_length]
  unfold stEnd
  omega

/-- After whole chunks every launched task has been joined. -/
theorem counts_chunks_balanced (b n m : Nat) :
    launchCount ((List.range m).map (chunkEvents b n)).flatten
      = joinCount ((List.range m).map (chunkEvents b n)).flatten := by
  induction m with
  | zero => rfl
  | succ m ih =>
    rw [List.range_succ, List.map_append, List.flatten_append, launchCount_append,
      joinCount_append, ih]
    simp only [List.map_cons, List.map_nil, List.flatten_cons, List.flatten_nil,
      List.append_nil]
    rw [(counts_chunkEvents b n m).1, (counts_chunkEvents b n m).2]

/-- At every point of the trace the launched tasks not yet joined are at most `b`. -/
theorem outstanding_le_batch_size (b n m : Nat) :
    ∀ (p rest : List Event), ((List.range m).map (chunkEvents b n)).flatten = p ++ rest →
      launchCount p ≤ joinCount p + b := by
  induction m with
  | zero =>
    intro p rest h
    simp only [List.range_zero, List.map_nil, List.flatten_nil] at h
    have hp : p = [] := (List.append_eq_nil.mp h.symm).1
    subst hp
    exact Nat.zero_le _
  | succ m ih =>
    intro p rest h
    rw [List.range_succ, List.map_append, List.flatten_append] at h
    simp only [List.map_cons, List.map_nil, List.flatten_cons, List.flatten_nil,
      List.append_nil] at h
    rw [List.append_eq_append_iff] at h
    rcases h with ⟨p', h1, h2⟩ | ⟨c', h1, _⟩
    · subst h1
      rw [launchCount_append, joinCount_append, counts_chunks_balanced b n m]
      have hc := (counts_chunkEvents b n m).1
      rw [h2, launchCount_append] at hc
      have hl := chunkIndices_length_le b n m
      omega
    · exact ih p c' h1

/-! ## The traced collaborators behave as the plain ones -/

theorem withTrace_processSingleFile {σ φ : Type} (K : Collab σ φ) (f fmt dir : String)
    (q : Int) (pm : Bool) (w : σ) (t : Trace) :
    fn_processSingleFile (withTrace K) f fmt dir q pm (w, t)
      = ((fn_processSingleFile K f fmt dir q pm w).1,
          ((fn_processSingleFile K f fmt dir q pm w).2, t)) := by
  unfold fn_processSingleFile processSingleFileTry
  simp only [withTrace]
  rcases hr : K.resolve f fmt dir w with ⟨r, w1⟩
  cases r with
  | error e => cases e <;> rfl
  | ok out =>
    simp only []
    rcases hc : K.convert f out w1 with ⟨c, w2⟩
    cases c with
    | error e => cases e <;> rfl
    | ok code => rfl

theorem withTrace_async {σ φ : Type} (K : Collab σ φ) (f fmt dir : String)
    (q : Int) (pm : Bool) (w : σ) (t : Trace) :
    ((withTrace K).async (fn_processSingleFile (withTrace K) f fmt dir q pm) (w, t)).1.1
        = (K.async (fn_processSingleFile K f fmt dir q pm) w).1 ∧
    ((withTrace K).async (fn_processSingleFile (withTrace K) f fmt dir q pm) (w, t)).2.1
        = (K.async (fn_processSingleFile K f fmt dir q pm) w).2 := by
  have e : (fun s => ((fn_processSingleFile (withTrace K) f fmt dir q pm (s, t)).1,
      (fn_processSingleFile (withTrace K) f fmt dir q pm (s, t)).2.1))
      = fn_processSingleFile K f fmt dir q pm := by
    funext s
    rw [withTrace_processSingleFile]
  have hdef : ∀ task : σ × Trace → Bool × (σ × Trace),
      (withTrace K).async task (w, t)
        = (((K.async (fun s => ((task (s, t)).1, (task (s, t)).2.1)) w).1, t.launches),
            ((K.async (fun s => ((task (s, t)).1, (task (s, t)).2.1)) w).2,
              { events := t.events ++ [Event.launched t.launches],
                launches := t.launches + 1 })) := fun _ => rfl
  rw [hdef, e]
  exact ⟨rfl, rfl⟩

theorem withTrace_sequential {σ φ : Type} (K : Collab σ φ) (vsFiles : List String)
    (fmt dir : String) (q : Int) (pm : Bool) (idxs : List Nat) :
    ∀ (bp : BatchProcessor) (w : σ) (t : Trace),
      processChunkSequential (withTrace K) vsFiles fmt dir q pm idxs (bp, (w, t))
        = ((processChunkSequential K vsFiles fmt dir q pm idxs (bp, w)).1,
            ((processChunkSequential K vsFiles fmt dir q pm idxs (bp, w)).2, t)) := by
  unfold processChunkSequential
  induction idxs with
  | nil => intro bp w t; rfl
  | cons i rest ih =>
    intro bp w t
    rw [List.foldl_cons, List.foldl_cons]
    simp only [withTrace_processSingleFile]
    rw [ih]

theorem withTrace_launch {σ φ : Type} (K : Collab σ φ) (vsFiles : List String)
    (fmt dir : String) (q : Int) (pm : Bool) (idxs : List Nat) :
    ∀ (pre' : List (φ × Nat)) (pre : List φ) (w : σ) (t : Trace), pre'.map Prod.fst = pre →
      (idxs.foldl (fun (acc : List (φ × Nat) × (σ × Trace)) stIdx =>
          let r := (withTrace K).async
            (fn_processSingleFile (withTrace K) (vsFiles.getD stIdx "") fmt dir q pm) acc.2
          (acc.1 ++ [r.1], r.2)) (pre', (w, t))).1.map Prod.fst
        = (idxs.foldl (fun (acc : List φ × σ) stIdx =>
          let r := K.async (fn_processSingleFile K (vsFiles.getD stIdx "") fmt dir q pm) acc.2
          (acc.1 ++ [r.1], r.2)) (pre, w)).1 ∧
      (idxs.foldl (fun (acc : List (φ × Nat) × (σ × Trace)) stIdx =>
          let r := (withTrace K).async
            (fn_processSingleFile (withTrace K) (vsFiles.getD stIdx "") fmt dir q pm) acc.2
          (acc.1 ++ [r.1], r.2)) (pre', (w, t))).2.1
        = (idxs.foldl (fun (acc : List φ × σ) stIdx =>
          let r := K.async (fn_processSingleFile K (vsFiles.getD stIdx "") fmt dir q pm) acc.2
          (acc.1 ++ [r.1], r.2)) (pre, w)).2 := by
  induction idxs with
  | nil => intro pre' pre w t h; exact ⟨h, rfl⟩
  | cons i rest ih =>
    intro pre' pre w t h
    rw [List.foldl_cons, List.foldl_cons]
    obtain ⟨a1, a2⟩ := withTrace_async K (vsFiles.getD i "") fmt dir q pm w t
    have hw : ((withTrace K).async
        (fn_processSingleFile (withTrace K) (vsFiles.getD i "") fmt dir q pm) (w, t)).2
        = ((K.async (fn_processSingleFile K (vsFiles.getD i "") fmt dir q pm) w).2,
            ((withTrace K).async
              (fn_processSingleFile (withTrace K) (vsFiles.getD i "") fmt dir q pm)
              (w, t)).2.2) := by
      rw [← a2]
    simp only []
    rw [hw]
    exact ih _ _ _ _ (by rw [List.map_append, h, List.map_cons, a1, List.map_nil])

theorem withTrace_collect {σ φ : Type} (K : Collab σ φ) (vsFiles : List String) (st : Nat)
    (vf' : List (φ × Nat)) (vf : List φ) (hvf : vf'.map Prod.fst = vf) (idxs : List Nat) :
    ∀ (bp : BatchProcessor) (w : σ) (t : Trace),
      (collectChunk (withTrace K) vsFiles st vf' idxs (bp, (w, t))).1
        = (collectChunk K vsFiles st vf idxs (bp, w)).1 ∧
      (collectChunk (withTrace K) vsFiles st vf' idxs (bp, (w, t))).2.1
        = (collectChunk K vsFiles st vf idxs (bp, w)).2 := by
  unfold collectChunk
  induction idxs with
  | nil => intro bp w t; exact ⟨rfl, rfl⟩
  | cons i rest ih =>
    intro bp w t
    rw [List.foldl_cons, List.foldl_cons]
    have hl : vf[i - st]? = (vf'[i - st]?).map Prod.fst := by
      rw [← hvf, List.getElem?_map]
    rw [hl]
    cases hlook : vf'[i - st]? with
    | none => exact ih bp w t
    | some fut => exact ih _ _ _

/-- The run with the trace kept beside the world returns the value, leaves the object and
leaves the world that the run without the trace does. -/
theorem withTrace_internalBatchProcess {σ φ : Type} (K : Collab σ φ) (bp : BatchProcessor)
    (vsFiles : List String) (fmt dir : String) (q : Int) (pm verbose : Bool) (w : σ)
    (t : Trace) :
    (fn_internalBatchProcess (withTrace K) bp vsFiles fmt dir q pm verbose (w, t)).1
        = (fn_internalBatchProcess K bp vsFiles fmt dir q pm verbose w).1 ∧
    (fn_internalBatchProcess (withTrace K) bp vsFiles fmt dir q pm verbose (w, t)).2.1
        = (fn_internalBatchProcess K bp vsFiles fmt dir q pm verbose w).2.1 ∧
    (fn_internalBatchProcess (withTrace K) bp vsFiles fmt dir q pm verbose (w, t)).2.2.1
        = (fn_internalBatchProcess K bp vsFiles fmt dir q pm verbose w).2.2 := by
  have hchunk : ∀ (s' : BatchProcessor × (σ × Trace)) (k : Nat),
      (processChunk (withTrace K) bp vsFiles fmt dir q pm s' k).1
          = (processChunk K bp vsFiles fmt dir q pm (s'.1, s'.2.1) k).1 ∧
      (processChunk (withTrace K) bp vsFiles fmt dir q pm s' k).2.1
          = (processChunk K bp vsFiles fmt dir q pm (s'.1, s'.2.1) k).2 := by
    intro s' k
    obtain ⟨b1, w1, t1⟩ := s'
    unfold processChunk
    cases bp.bParallelProcessing with
    | false =>
      simp only [Bool.false_eq_true, if_false]
      rw [withTrace_sequential]
      exact ⟨rfl, rfl⟩
    | true =>
      simp only [if_true]
      unfold launchChunk
      obtain ⟨l1, l2⟩ := withTrace_launch K vsFiles fmt dir q pm
        (chunkIndices k bp.iBatchSize.toNat vsFiles.length) [] [] w1 t1 rfl
      have hst : ((chunkIndices k bp.iBatchSize.toNat vsFiles.length).foldl
          (fun (acc : List (φ × Nat) × (σ × Trace)) stIdx =>
            let r := (withTrace K).async
              (fn_processSingleFile (withTrace K) (vsFiles.getD stIdx "") fmt dir q pm) acc.2
            (acc.1 ++ [r.1], r.2)) ([], (w1, t1))).2
          = (((chunkIndices k bp.iBatchSize.toNat vsFiles.length).foldl
              (fun (acc : List φ × σ) stIdx =>
                let r := K.async (fn_processSingleFile K (vsFiles.getD stIdx "") fmt dir q pm)
                  acc.2
                (acc.1 ++ [r.1], r.2)) ([], w1)).2,
              ((chunkIndices k bp.iBatchSize.toNat vsFiles.length).foldl
                (fun (acc : List (φ × Nat) × (σ × Trace)) stIdx =>
                  let r := (withTrace K).async
                    (fn_processSingleFile (withTrace K) (vsFiles.getD stIdx "") fmt dir q pm)
                    acc.2
                  (acc.1 ++ [r.1], r.2)) ([], (w1, t1))).2.2) := by
        rw [← l2]
      rw [hst]
      exact withTrace_collect K vsFiles _ _ _ l1 _ _ _ _
  have hfold : ∀ (ks : List Nat) (s' : BatchProcessor × (σ × Trace)),
      (ks.foldl (processChunk (withTrace K) bp vsFiles fmt dir q pm) s').1
          = (ks.foldl (processChunk K bp vsFiles fmt dir q pm) (s'.1, s'.2.1)).1 ∧
      (ks.foldl (processChunk (withTrace K) bp vsFiles fmt dir q pm) s').2.1
          = (ks.foldl (processChunk K bp vsFiles fmt dir q pm) (s'.1, s'.2.1)).2 := by
    intro ks
    induction ks with
    | nil => intro s'; exact ⟨rfl, rfl⟩
    | cons k rest ih =>
      intro s'
      rw [List.foldl_cons, List.foldl_cons]
      obtain ⟨c1, c2⟩ := hchunk s' k
      have := ih (processChunk (withTrace K) bp vsFiles fmt dir q pm s' k)
      rw [c1, c2] at this
      exact this
  unfold fn_internalBatchProcess
  cases vsFiles with
  | nil => exact ⟨rfl, rfl, rfl⟩
  | cons f rest =>
    simp only [List.isEmpty_cons, Bool.false_eq_true, if_false]
    obtain ⟨h1, h2⟩ := hfold (List.range (stBatches (f :: rest).length bp.iBatchSize.toNat))
      (bp, (w, t))
    refine ⟨?_, h1, h2⟩
    rw [h1]

/-- C19: in parallel mode the scheduler launches the tasks of a chunk and then joins every
one of them before it launches a task of the next chunk, whatever the collaborators do: the
trace of its `std::async` and `get()` calls is, chunk after chunk, the launches of the chunk
followed by the joins of the chunk.  So when a task of a later chunk is launched every task of
every earlier chunk has been joined, hence has completed, and at every point of the run the
number of tasks launched and not yet joined, which bounds the tasks in flight, is at most the
batch size.  Keeping the trace changes nothing: the traced run returns the value and leaves
the object and the world of the plain run. -/
theorem chunk_barrier {σ φ : Type} (K : Collab σ φ) (bp : BatchProcessor)
    (vsFiles : List String) (sOutputFormat sOutputDirectory : String) (iQuality : Int)
    (bPreserveMetadata bVerbose : Bool) (w : σ)
    (hpar : bp.fn_isParallelProcessing = true) (hb : 1 ≤ bp.iBatchSize) :
    (fn_internalBatchProcess (withTrace K) bp vsFiles sOutputFormat sOutputDirectory
        iQuality bPreserveMetadata bVerbose (w, ⟨[], 0⟩)).2.2.2.events
      = ((List.range (stBatches vsFiles.length bp.iBatchSize.toNat)).map
          (chunkEvents bp.iBatchSize.toNat vsFiles.length)).flatten ∧
    (∀ (p rest : List Event) (j k k' i : Nat),
      (fn_internalBatchProcess (withTrace K) bp vsFiles sOutputFormat sOutputDirectory
        iQuality bPreserveMetadata bVerbose (w, ⟨[], 0⟩)).2.2.2.events
          = p ++ Event.launched j :: rest →
      k < k' → i ∈ chunkIndices k bp.iBatchSize.toNat vsFiles.length →
      j ∈ chunkIndices k' bp.iBatchSize.toNat vsFiles.length →
      Event.joined i ∈ p) ∧
    (∀ (p rest : List Event),
      (fn_internalBatchProcess (withTrace K) bp vsFiles sOutputFormat sOutputDirectory
        iQuality bPreserveMetadata bVerbose (w, ⟨[], 0⟩)).2.2.2.events = p ++ rest →
      launchCount p ≤ joinCount p + bp.iBatchSize.toNat) ∧
    ((fn_internalBatchProcess (withTrace K) bp vsFiles sOutputFormat sOutputDirectory
          iQuality bPreserveMetadata bVerbose (w, ⟨[], 0⟩)).1
        = (fn_internalBatchProcess K bp vsFiles sOutputFormat sOutputDirectory
          iQuality bPreserveMetadata bVerbose w).1 ∧
      (fn_internalBatchProcess (withTrace K) bp vsFiles sOutputFormat sOutputDirectory
          iQuality bPreserveMetadata bVerbose (w, ⟨[], 0⟩)).2.1
        = (fn_internalBatchProcess K bp vsFiles sOutputFormat sOutputDirectory
          iQuality bPreserveMetadata bVerbose w).2.1 ∧
      (fn_internalBatchProcess (withTrace K) bp vsFiles sOutputFormat sOutputDirectory
          iQuality bPreserveMetadata bVerbose (w, ⟨[], 0⟩)).2.2.1
        = (fn_internalBatchProcess K bp vsFiles sOutputFormat sOutputDirectory
          iQuality bPreserveMetadata bVerbose w).2.2) ∧
    (fn_internalBatchProcess (withTrace (outcomeCollab true (fun _ => true)))
        (BatchProcessor.new.fn_setBatchSize 2) ["a", "b", "c", "d", "e"] "jpg" "out" 85 false
        false (0, ⟨[], 0⟩)).2.2.2.events
      = [.launched 0, .launched 1, .joined 0, .joined 1, .launched 2, .launched 3, .joined 2,
         .joined 3, .launched 4, .joined 4] := by
  have ht := trace_internalBatchProcess K bp hpar vsFiles sOutputFormat sOutputDirectory
    iQuality bPreserveMetadata bVerbose w hb
  refine ⟨ht, ?_, ?_, withTrace_internalBatchProcess K bp vsFiles sOutputFormat
    sOutputDirectory iQuality bPreserveMetadata bVerbose w ⟨[], 0⟩, by decide⟩
  · intro p rest j k k' i h hk hi hj
    rw [ht] at h
    exact joined_before_later_launch _ _ _ p rest j k k' i h hk hi hj
  · intro p rest h
    rw [ht] at h
    exact outstanding_le_batch_size _ _ _ p rest h

/-- The statement of C19 for five files and batch size 2 over a disk. -/
theorem chunk_barrier_witness :
    (BatchProcessor.new.fn_setBatchSize 2).fn_isParallelProcessing = true ∧
    1 ≤ (BatchProcessor.new.fn_setBatchSize 2).iBatchSize ∧
    (fn_internalBatchProcess (withTrace (diskCollab noStatError (mockConvert "error")))
        (BatchProcessor.new.fn_setBatchSize 2) ["a", "b", "c", "d", "e"] "jpg" "out" 85 false
        false (⟨["out"], ["out"], []⟩, ⟨[], 0⟩)).2.2.2.events
      = ((List.range (stBatches ["a", "b", "c", "d", "e"].length
            (BatchProcessor.new.fn_setBatchSize 2).iBatchSize.toNat)).map
          (chunkEvents (BatchProcessor.new.fn_setBatchSize 2).iBatchSize.toNat
            ["a", "b", "c", "d", "e"].length)).flatten :=
  ⟨by decide, by decide,
    (chunk_barrier (diskCollab noStatError (mockConvert "error")) (BatchProcessor.new.fn_setBatchSize 2)
      ["a", "b", "c", "d", "e"] "jpg" "out" 85 false false ⟨["out"], ["out"], []⟩
      (by decide) (by decide)).1⟩


theorem ids_map_launched (l : List Nat) :
    launchedIds (l.map Event.launched) = l ∧ joinedIds (l.map Event.launched) = [] := by
  induction l with
  | nil => exact ⟨rfl, rfl⟩
  | cons a rest ih =>
    obtain ⟨h1, h2⟩ := ih
    unfold launchedIds at h1 ⊢
    unfold joinedIds at h2 ⊢
    simp only [List.map_cons]
    rw [List.filterMap_cons, List.filterMap_cons, h1, h2]
    exact ⟨rfl, rfl⟩

theorem ids_map_joined (l : List Nat) :
    launchedIds (l.map Event.joined) = [] ∧ joinedIds (l.map Event.joined) = l := by
  induction l with
  | nil => exact ⟨rfl, rfl⟩
  | cons a rest ih =>
    obtain ⟨h1, h2⟩ := ih
    unfold launchedIds at h1 ⊢
    unfold joinedIds at h2 ⊢
    simp only [List.map_cons]
    rw [List.filterMap_cons, List.filterMap_cons, h1, h2]
    exact ⟨rfl, rfl⟩

theorem ids_chunks (b n : Nat) (ks : List Nat) :
    launchedIds ((ks.map (chunkEvents b n)).flatten)
        = (ks.map (fun k => chunkIndices k b n)).flatten ∧
    joinedIds ((ks.map (chunkEvents b n)).flatten)
        = (ks.map (fun k => chunkIndices k b n)).flatten := by
  induction ks with
  | nil => exact ⟨rfl, rfl⟩
  | cons k rest ih =>
    obtain ⟨h1, h2⟩ := ih
    obtain ⟨a1, a2⟩ := ids_map_launched (chunkIndices k b n)
    obtain ⟨b1, b2⟩ := ids_map_joined (chunkIndices k b n)
    unfold launchedIds at h1 a1 b1 ⊢
    unfold joinedIds at h2 a2 b2 ⊢
    simp only [List.map_cons, List.flatten_cons, chunkEvents, List.filterMap_append]
    rw [h1, h2, a1, a2, b1, b2]
    simp

/-- In parallel mode, for every behaviour of the collaborators, the scheduler launches one
task per list position and joins each of them once, both in position order. -/
theorem trace_ids {σ φ : Type} (K : Collab σ φ) (bp : BatchProcessor)
    (hpar : bp.bParallelProcessing = true) (vsFiles : List String) (fmt dir : String)
    (q : Int) (pm verbose : Bool) (w : σ) (hb : 1 ≤ bp.iBatchSize) :
    launchedIds (fn_internalBatchProcess (withTrace K) bp vsFiles fmt dir q pm verbose
        (w, ⟨[], 0⟩)).2.2.2.events = List.range vsFiles.length ∧
    joinedIds (fn_internalBatchProcess (withTrace K) bp vsFiles fmt dir q pm verbose
        (w, ⟨[], 0⟩)).2.2.2.events = List.range vsFiles.length := by
  rw [trace_internalBatchProcess K bp hpar vsFiles fmt dir q pm verbose w hb]
  obtain ⟨h1, h2⟩ := ids_chunks bp.iBatchSize.toNat vsFiles.length
    (List.range (stBatches vsFiles.length bp.iBatchSize.toNat))
  rw [h1, h2, range_chunks_all _ _ (by omega)]
  exact ⟨rfl, rfl⟩

/-! ## Every list position is attempted -/

/-- C11: for every input list and every converter behaviour (any pattern of failures, thrown
objects included), a run of the scheduler hands every list position to the single-file task
exactly once, in list order, in parallel and in sequential mode: the record of converter
calls, one per call of `fn_processSingleFile`, lists exactly the input files.  A failure does
not stop later files or chunks: with the first file failing, the files after it and the
chunks after its chunk are still attempted.  In parallel mode, whatever the collaborators do,
one task is launched and one is joined per list position, in position order. -/
theorem every_file_attempted_once {σ φ : Type} (K : Collab σ φ) (w : σ)
    (conv : String → String → FS → Except Thrown Int × FS)
    (bp : BatchProcessor) (vsFiles : List String) (sOutputFormat sOutputDirectory : String)
    (iQuality : Int) (bPreserveMetadata bVerbose : Bool) (paths dirs : List String)
    (hb : 1 ≤ bp.iBatchSize) :
    (fn_internalBatchProcess (diskCollab noStatError conv) bp vsFiles sOutputFormat sOutputDirectory
        iQuality bPreserveMetadata bVerbose ⟨paths, dirs, []⟩).2.2.converted.map Prod.fst
      = vsFiles ∧
    (fn_internalBatchProcess (diskCollab noStatError conv) bp vsFiles sOutputFormat sOutputDirectory
        iQuality bPreserveMetadata bVerbose ⟨paths, dirs, []⟩).2.2.converted.length
      = vsFiles.length ∧
    (bp.fn_isParallelProcessing = true →
      launchedIds (fn_internalBatchProcess (withTrace K) bp vsFiles sOutputFormat
          sOutputDirectory iQuality bPreserveMetadata bVerbose (w, ⟨[], 0⟩)).2.2.2.events
        = List.range vsFiles.length ∧
      joinedIds (fn_internalBatchProcess (withTrace K) bp vsFiles sOutputFormat
          sOutputDirectory iQuality bPreserveMetadata bVerbose (w, ⟨[], 0⟩)).2.2.2.events
        = List.range vsFiles.length) ∧
    (∀ bParallel : Bool,
      (fn_processBatch (diskCollab noStatError (mockConvert "error"))
          ((BatchProcessor.new.fn_setBatchSize 2).fn_setParallelProcessing bParallel)
          ["in/error.heic", "in/a.heic", "in/b.heic"] "jpg" "out" 85 false false
          ⟨["out"], ["out"], []⟩).2.2.converted
        = [("in/error.heic", "out/error.jpg"), ("in/a.heic", "out/a.jpg"),
           ("in/b.heic", "out/b.jpg")]) ∧
    (∀ bParallel : Bool,
      (fn_processBatch (diskCollab noStatError (fun _ _ fs => (.error (.stdException "corrupt"), fs)))
          ((BatchProcessor.new.fn_setBatchSize 1).fn_setParallelProcessing bParallel)
          ["in/a.heic", "in/b.heic"] "jpg" "out" 85 false false
          ⟨["out"], ["out"], []⟩).2.2.converted.map Prod.fst
        = ["in/a.heic", "in/b.heic"]) := by
  have h := disk_attempted_internalBatchProcess conv bp vsFiles sOutputFormat
    sOutputDirectory iQuality bPreserveMetadata bVerbose ⟨paths, dirs, []⟩ hb
  simp only [List.map_nil, List.nil_append] at h
  refine ⟨h, ?_, ?_, by decide, by decide⟩
  · have := congrArg List.length h
    simpa using this
  · intro hpar
    exact trace_ids K bp hpar vsFiles sOutputFormat sOutputDirectory iQuality
      bPreserveMetadata bVerbose w hb

/-- The statement of C11 for five files, batch size 2, parallel mode, every conversion
failing. -/
theorem every_file_attempted_once_witness :
    1 ≤ (BatchProcessor.new.fn_setBatchSize 2).iBatchSize ∧
    (fn_internalBatchProcess (diskCollab noStatError (fun _ _ fs => (.ok 6, fs)))
        (BatchProcessor.new.fn_setBatchSize 2) ["a", "b", "c", "d", "e"] "jpg" "out"
        85 false false ⟨["out"], ["out"], []⟩).2.2.converted.map Prod.fst
      = ["a", "b", "c", "d", "e"] :=
  ⟨by decide,
    (every_file_attempted_once (outcomeCollab true (fun _ => false)) 0
      (fun _ _ fs => (.ok 6, fs))
      (BatchProcessor.new.fn_setBatchSize 2) ["a", "b", "c", "d", "e"] "jpg" "out"
      85 false false ["out"] ["out"] (by decide)).1⟩


/-! ## Configuration helpers -/
theorem toLower_cases (c : Char) :
    (c.toLower = c ∧ ¬ (65 ≤ c.toNat ∧ c.toNat ≤ 90)) ∨
    (65 ≤ c.toNat ∧ c.toNat ≤ 90 ∧ c.toLower.toNat = c.toNat + 32) := by
  unfold Char.toLower
  by_cases h : c.toNat ≥ 65 ∧ c.toNat ≤ 90
  · right
    refine ⟨h.1, h.2, ?_⟩
    simp only [h, and_self, if_true]
    obtain ⟨h1, h2⟩ := h
    generalize c.toNat = n at h1 h2
    interval_cases n <;> rfl
  · left
    exact ⟨if_neg h, h⟩

theorem toLower_eq_dot_iff (c : Char) : c.toLower = '.' ↔ c = '.' := by
  have h46 : ('.' : Char).toNat = 46 := rfl
  rcases toLower_cases c with ⟨h1, _⟩ | ⟨h1, h2, h3⟩
  · rw [h1]
  · constructor
    · intro h
      rw [h] at h3
      omega
    · intro h
      rw [h] at h1
      omega

theorem toLower_not_upper (c : Char) : ¬ (65 ≤ c.toLower.toNat ∧ c.toLower.toNat ≤ 90) := by
  rcases toLower_cases c with ⟨h1, h2⟩ | ⟨h1, h2, h3⟩
  · rw [h1]
    exact h2
  · omega

theorem normalizeExtension_eq (e : String) (he : e.data ≠ []) :
    addLeadingDot (transformToLower e) = fn_normalizeExtension e := by
  obtain ⟨cs⟩ := e
  cases cs with
  | nil => exact absurd rfl he
  | cons c rest =>
    unfold fn_normalizeExtension addLeadingDot transformToLower
    by_cases hc : c = '.'
    · subst hc
      simp
    · have hl : c.toLower ≠ '.' := fun h => hc ((toLower_eq_dot_iff c).mp h)
      simp [hc, hl]
      rfl

theorem transformToLower_ne_upper (s : String) (t : List Char)
    (ht : ∃ c ∈ t, 65 ≤ c.toNat ∧ c.toNat ≤ 90) : (transformToLower s).data ≠ t := by
  intro h
  obtain ⟨c, hc, hu⟩ := ht
  rw [← h] at hc
  simp only [transformToLower, List.mem_map] at hc
  obtain ⟨a, _, ha⟩ := hc
  rw [← ha] at hu
  exact toLower_not_upper a hu

theorem isSupportedInputFormat_eq (e : String) :
    fn_isSupportedInputFormat e
      = (fn_normalizeExtension e == ".heic" || fn_normalizeExtension e == ".heif") := by
  have hH : ('H' : Char).toNat = 72 := rfl
  have n1 : fn_normalizeExtension e ≠ ".HEIC" := by
    intro h
    have := transformToLower_ne_upper (addLeadingDot e) ".HEIC".data
      ⟨'H', by decide, by omega⟩
    exact this (congrArg String.data h)
  have n2 : fn_normalizeExtension e ≠ ".HEIF" := by
    intro h
    have := transformToLower_ne_upper (addLeadingDot e) ".HEIF".data
      ⟨'H', by decide, by omega⟩
    exact this (congrArg String.data h)
  by_cases he : e.data = []
  · have e0 : e = "" := by
      obtain ⟨cs⟩ := e
      simp only at he
      subst he
      rfl
    subst e0
    decide
  · unfold fn_isSupportedInputFormat
    rw [if_neg he]
    simp only [normalizeExtension_eq e he, vsSUPPORTED_INPUT_FORMATS, List.any_cons,
      List.any_nil, Bool.or_false]
    have b1 : (fn_normalizeExtension e == ".HEIC") = false := by simpa using n1
    have b2 : (fn_normalizeExtension e == ".HEIF") = false := by simpa using n2
    rw [b1, b2]
    simp only [Bool.or_false]

theorem lowerCasedDotted_eq (e : String) (he : e.data ≠ []) :
    lowerCasedDotted e = fn_normalizeExtension e := by
  rw [← normalizeExtension_eq e he]
  unfold lowerCasedDotted addLeadingDot
  have hne : (transformToLower e).data ≠ [] := by
    simpa [transformToLower] using he
  by_cases h : (transformToLower e).data.head? = some '.'
  · rw [if_pos h, if_neg (fun hh => hh.2 h)]
  · rw [if_neg h, if_pos ⟨hne, h⟩]

/-- C24: `fn_isSupportedInputFormat` ignores case and does not need the leading period: for
every string it returns true exactly when `fn_normalizeExtension` of the string is ".heic" or
".heif", which is exactly when the string, lower-cased and with a period put in front when it
does not start with one, is ".heic" or ".heif".  The spellings .heic, .HEIC, .heif, .HEIF (and
heic, HeIc without period) are accepted; .jpg, .png, .txt and the empty string are rejected. -/
theorem isSupportedInputFormat_iff (e : String) :
    (fn_isSupportedInputFormat e = true ↔
      (fn_normalizeExtension e = ".heic" ∨ fn_normalizeExtension e = ".heif")) ∧
    (fn_isSupportedInputFormat e = true ↔
      (lowerCasedDotted e = ".heic" ∨ lowerCasedDotted e = ".heif")) ∧
    fn_isSupportedInputFormat ".heic" = true ∧ fn_isSupportedInputFormat ".HEIC" = true ∧
    fn_isSupportedInputFormat ".heif" = true ∧ fn_isSupportedInputFormat ".HEIF" = true ∧
    fn_isSupportedInputFormat "heic" = true ∧ fn_isSupportedInputFormat "HeIc" = true ∧
    fn_isSupportedInputFormat ".jpg" = false ∧ fn_isSupportedInputFormat ".png" = false ∧
    fn_isSupportedInputFormat ".txt" = false ∧ fn_isSupportedInputFormat "" = false ∧
    fn_normalizeExtension "HEIC" = ".heic" ∧ fn_normalizeExtension ".Heif" = ".heif" ∧
    fn_normalizeExtension "" = "" := by
  have h1 : fn_isSupportedInputFormat e = true ↔
      (fn_normalizeExtension e = ".heic" ∨ fn_normalizeExtension e = ".heif") := by
    rw [isSupportedInputFormat_eq]
    simp
  refine ⟨h1, ?_, by decide, by decide, by decide, by decide, by decide, by decide,
    by decide, by decide, by decide, by decide, by decide, by decide, by decide⟩
  by_cases he : e.data = []
  · have e0 : e = "" := by
      obtain ⟨cs⟩ := e
      simp only at he
      subst he
      rfl
    subst e0
    decide
  · rw [lowerCasedDotted_eq e he]
    exact h1

theorem stem_append_extension (f : List Char) : stemChars f ++ extensionChars f = f := by
  unfold stemChars extensionChars
  by_cases h1 : f = ['.'] ∨ f = ['.', '.']
  · rw [if_pos h1, if_pos h1, List.append_nil]
  · rw [if_neg h1, if_neg h1]
    by_cases h2 : f.all (fun c => c ≠ '.') = true
    · rw [if_pos h2, if_pos h2, List.append_nil]
    · rw [if_neg h2, if_neg h2]
      dsimp only
      by_cases h3 : ((f.reverse.dropWhile (fun c => c ≠ '.')).drop 1).reverse = []
      · rw [if_pos h3, if_pos h3, List.append_nil]
      · rw [if_neg h3, if_neg h3]
        have hsplit := List.takeWhile_append_dropWhile (fun c => decide (c ≠ '.')) f.reverse
        cases hd : f.reverse.dropWhile (fun c => decide (c ≠ '.')) with
        | nil =>
          rw [hd] at h3
          exact absurd rfl h3
        | cons a rest =>
          have ha : a = '.' := by
            have := List.head_dropWhile_not (fun c => decide (c ≠ '.')) f.reverse
              (by rw [hd]; simp)
            simp only [hd, List.head_cons] at this
            simpa using this
          subst ha
          rw [hd] at hsplit
          have hf : f = (f.reverse.takeWhile (fun c => decide (c ≠ '.')) ++ '.' :: rest).reverse := by
            rw [hsplit, List.reverse_reverse]
          show rest.reverse ++ '.' :: (f.reverse.takeWhile (fun c => decide (c ≠ '.'))).reverse = f
          conv_rhs => rw [hf]
          simp

theorem filenameChars_of_no_separator (p : List Char) (h : p.all (fun c => c ≠ '/') = true) :
    filenameChars p = p := by
  unfold filenameChars
  have : p.reverse.takeWhile (fun c => decide (c ≠ '/')) = p.reverse := by
    rw [List.takeWhile_eq_self_iff]
    intro c hc
    rw [List.all_eq_true] at h
    exact h c (List.mem_reverse.mp hc)
  rw [this, List.reverse_reverse]

theorem parentPathChars_of_no_separator (p : List Char)
    (h : p.all (fun c => c ≠ '/') = true) : parentPathChars p = [] := by
  unfold parentPathChars
  have : p.reverse.dropWhile (fun c => decide (c ≠ '/')) = [] := by
    rw [List.dropWhile_eq_nil_iff]
    intro c hc
    rw [List.all_eq_true] at h
    exact h c (List.mem_reverse.mp hc)
  dsimp only
  rw [this]
  rfl

/-- C25, the code: for a bare file name the directory is not kept.  Every path that has no
separator, is not a directory and has an extension is mapped to the name with the new extension
behind a leading separator, a file of the root directory, where replacing the extension alone
gives the name with the new extension: "photo.heic" gives "/photo.jpg" and not "photo.jpg".
With a directory part in front the result is the path with its extension replaced:
"dir/photo.heic" gives "dir/photo.jpg". -/
theorem defaultOutputPath_bare_filename :
    fn_getDefaultOutputPath (fun _ => false) "photo.heic" = "/photo.jpg" ∧
    withExtensionReplaced "photo.heic" ".jpg" = "photo.jpg" ∧
    fn_getDefaultOutputPath (fun _ => false) "dir/photo.heic" = "dir/photo.jpg" ∧
    withExtensionReplaced "dir/photo.heic" ".jpg" = "dir/photo.jpg" ∧
    fn_getDefaultOutputPath (fun _ => false) "/photo.heic" = "//photo.jpg" ∧
    (∀ (isDirectory : String → Bool) (p : String), isDirectory p = false →
      hasExtension p = true → p.data.all (fun c => c ≠ '/') = true →
      fn_getDefaultOutputPath isDirectory p = "/" ++ pathStem p ++ ".jpg" ∧
      withExtensionReplaced p ".jpg" = pathStem p ++ ".jpg" ∧
      fn_getDefaultOutputPath isDirectory p ≠ withExtensionReplaced p ".jpg") := by
  refine ⟨by decide, by decide, by decide, by decide, by decide, ?_⟩
  intro isDirectory p hd he hs
  have h1 : fn_getDefaultOutputPath isDirectory p = "/" ++ pathStem p ++ ".jpg" := by
    unfold fn_getDefaultOutputPath
    simp only [hd, he, if_true, Bool.false_eq_true, if_false, parentPath,
      parentPathChars_of_no_separator p.data hs, fn_getDefaultOutputFormat]
    rfl
  have h2 : withExtensionReplaced p ".jpg" = pathStem p ++ ".jpg" := by
    unfold withExtensionReplaced pathStem
    rw [filenameChars_of_no_separator p.data hs]
    have hx := stem_append_extension p.data
    have hl : p.data.length - (extensionChars p.data).length = (stemChars p.data).length := by
      have := congrArg List.length hx
      rw [List.length_append] at this
      omega
    have ht := @List.take_left _ (stemChars p.data) (extensionChars p.data)
    rw [hx] at ht
    rw [hl, ht]
  refine ⟨h1, h2, ?_⟩
  rw [h1, h2]
  intro h
  have h3 := congrArg (fun s => s.data.length) h
  simp only [String.data_append, List.length_append] at h3
  have h5 : ("/" : String).data.length = 1 := rfl
  rw [h5] at h3
  omega

/-! ## The single-file converter -/

theorem encodeImage_false (pImageData : List Nat) (iWidth iHeight iChannels : Int)
    (sOutputPath sOutputFormat : String) (iQuality : Int) :
    ImageProcessor.fn_encodeImage pImageData iWidth iHeight iChannels sOutputPath
      sOutputFormat iQuality = false := by
  unfold ImageProcessor.fn_encodeImage
  dsimp only
  split_ifs <;> rfl

theorem convertImage_false {σ : Type} (W : ConverterWorld σ)
    (sInputPath sOutputPath sOutputFormat : String) (iQuality : Int) (w : σ) :
    (ImageProcessor.fn_convertImage W sInputPath sOutputPath sOutputFormat iQuality w).1
      = false := by
  unfold ImageProcessor.fn_convertImage
  dsimp only
  generalize (if sOutputFormat.data = [] then
    ImageProcessor.fn_determineOutputFormat sOutputPath else sOutputFormat) = sFormat
  by_cases h1 : (!W.pathExists sInputPath w) = true
  · rw [if_pos h1]
  · rw [if_neg h1]
    by_cases h2 : (!ImageProcessor.fn_validateOutputFormat sFormat) = true
    · rw [if_pos h2]
    · rw [if_neg h2]
      by_cases h3 : iQuality < 1 ∨ iQuality > 100
      · rw [if_pos h3]
      · rw [if_neg h3]
        cases hd : ImageProcessor.fn_decodeHEIC W sInputPath w with
        | mk o w1 =>
          cases o with
          | none => rfl
          | some img =>
            simp only [encodeImage_false]
            rfl

/-- C27: `ImageProcessor::fn_encodeImage` returns false for every pixel buffer, dimensions,
output path, format string and quality; so `ImageProcessor::fn_convertImage` returns false for
every input in every world, and `Converter::fn_convertFile` never returns `ERROR_SUCCESS` (0):
whatever the files on disk are, its result is `ERROR_FILE_NOT_FOUND` (3),
`ERROR_WRITE_PERMISSION` (5), `ERROR_DECODING_FAILED` (6), or the exception of
`create_directories`. -/
theorem convertFile_never_succeeds {σ : Type} (W : ConverterWorld σ) :
    (∀ (pImageData : List Nat) (iWidth iHeight iChannels : Int)
        (sOutputPath sOutputFormat : String) (iQuality : Int),
      ImageProcessor.fn_encodeImage pImageData iWidth iHeight iChannels sOutputPath
        sOutputFormat iQuality = false) ∧
    (∀ (sInputPath sOutputPath sOutputFormat : String) (iQuality : Int) (w : σ),
      (ImageProcessor.fn_convertImage W sInputPath sOutputPath sOutputFormat iQuality w).1
        = false) ∧
    (∀ (sInputPath sOutputPath : String) (w : σ),
      (Converter.fn_convertFile W sInputPath sOutputPath w).1 ≠ .ok ERROR_SUCCESS ∧
      ((Converter.fn_convertFile W sInputPath sOutputPath w).1 = .ok 3 ∨
        (Converter.fn_convertFile W sInputPath sOutputPath w).1 = .ok 5 ∨
        (Converter.fn_convertFile W sInputPath sOutputPath w).1 = .ok 6 ∨
        ∃ e, (Converter.fn_convertFile W sInputPath sOutputPath w).1 = .error e)) := by
  refine ⟨encodeImage_false, convertImage_false W, ?_⟩
  intro sInputPath sOutputPath w
  have key : (Converter.fn_convertFile W sInputPath sOutputPath w).1 = .ok 3 ∨
      (Converter.fn_convertFile W sInputPath sOutputPath w).1 = .ok 5 ∨
      (Converter.fn_convertFile W sInputPath sOutputPath w).1 = .ok 6 ∨
      ∃ e, (Converter.fn_convertFile W sInputPath sOutputPath w).1 = .error e := by
    unfold Converter.fn_convertFile Converter.fn_convertFileVia
    dsimp only
    by_cases h1 : (!W.pathExists sInputPath w) = true
    · rw [if_pos h1]
      left
      rfl
    · rw [if_neg h1]
      generalize (if (parentPath sOutputPath).data ≠ [] ∧
          (!W.pathExists (parentPath sOutputPath) w) = true then
          W.createDirectories (parentPath sOutputPath) w else (Except.ok true, w)) = created
      obtain ⟨r, w1⟩ := created
      cases r with
      | error e => exact Or.inr (Or.inr (Or.inr ⟨e, rfl⟩))
      | ok b =>
        cases b with
        | false => exact Or.inr (Or.inl rfl)
        | true =>
          simp only [convertImage_false, Bool.not_false, if_true]
          exact Or.inr (Or.inr (Or.inl rfl))
  refine ⟨?_, key⟩
  intro h0
  rw [h0] at key
  rcases key with h | h | h | ⟨e, h⟩
  · exact absurd (Except.ok.inj h) (by decide)
  · exact absurd (Except.ok.inj h) (by decide)
  · exact absurd (Except.ok.inj h) (by decide)
  · exact Except.noConfusion h

/-! ## BMP layout -/

theorem wrapInt32_emod (x : Int) : wrapInt32 x % 4294967296 = x % 4294967296 := by
  unfold wrapInt32
  omega

theorem wrapInt32_emod_four (x : Int) : wrapInt32 x % 4 = x % 4 := by
  unfold wrapInt32
  omega

theorem iRowPadding_eq (img : sImageData) :
    FormatEncoder.iRowPadding img = (4 - (img.iWidth * img.iChannels) % 4) % 4 := by
  unfold FormatEncoder.iRowPadding cRem
  have h := wrapInt32_emod_four (img.iWidth * img.iChannels)
  generalize wrapInt32 (img.iWidth * img.iChannels) = X at h ⊢
  generalize img.iWidth * img.iChannels = x at h ⊢
  split_ifs <;> omega

theorem bmpPixel_length (img : sImageData) (pRow : Int) (x : Nat)
    (hc : img.iChannels = 3 ∨ img.iChannels = 4) :
    (FormatEncoder.bmpPixel img pRow x).length = img.iChannels.toNat := by
  unfold FormatEncoder.bmpPixel
  rcases hc with h | h <;> simp [h]

theorem flatMap_length_const {α β : Type} (l : List α) (f : α → List β) (k : Nat)
    (h : ∀ a ∈ l, (f a).length = k) : (l.flatMap f).length = l.length * k := by
  induction l with
  | nil => simp
  | cons a rest ih =>
    rw [List.flatMap_cons, List.length_append, h a (List.mem_cons_self _ _),
      ih (fun b hb => h b (List.mem_cons_of_mem _ hb)), List.length_cons]
    ring

theorem bmpRowData_length (img : sImageData) (y : Nat)
    (hc : img.iChannels = 3 ∨ img.iChannels = 4) :
    (FormatEncoder.bmpRowData img y).length = img.iWidth.toNat * img.iChannels.toNat := by
  unfold FormatEncoder.bmpRowData
  dsimp only
  rw [flatMap_length_const _ _ img.iChannels.toNat (fun a _ => bmpPixel_length img _ a hc),
    List.length_range]

theorem bmpRow_length (img : sImageData) (y : Nat)
    (hc : img.iChannels = 3 ∨ img.iChannels = 4) :
    (FormatEncoder.bmpRow img y).length
      = img.iWidth.toNat * img.iChannels.toNat + (FormatEncoder.iRowPadding img).toNat := by
  unfold FormatEncoder.bmpRow
  rw [List.length_append, bmpRowData_length img y hc, List.length_replicate]

theorem flatten_length_const {β : Type} (L : List (List β)) (k : Nat)
    (h : ∀ r ∈ L, r.length = k) : L.flatten.length = L.length * k := by
  induction L with
  | nil => simp
  | cons a rest ih =>
    rw [List.flatten_cons, List.length_append, h a (List.mem_cons_self _ _),
      ih (fun b hb => h b (List.mem_cons_of_mem _ hb)), List.length_cons]
    ring

theorem bmpRows_flatten_length (img : sImageData)
    (hc : img.iChannels = 3 ∨ img.iChannels = 4) :
    (FormatEncoder.bmpRows img).flatten.length
      = img.iHeight.toNat *
        (img.iWidth.toNat * img.iChannels.toNat + (FormatEncoder.iRowPadding img).toNat) := by
  rw [flatten_length_const (FormatEncoder.bmpRows img)
    (img.iWidth.toNat * img.iChannels.toNat + (FormatEncoder.iRowPadding img).toNat)]
  · unfold FormatEncoder.bmpRows
    rw [List.length_map, List.length_reverse, List.length_range]
  · intro r hr
    unfold FormatEncoder.bmpRows at hr
    rw [List.mem_map] at hr
    obtain ⟨y, _, rfl⟩ := hr
    exact bmpRow_length img y hc

theorem encodeBMP_eq (img : sImageData) (hc : img.iChannels = 3 ∨ img.iChannels = 4) :
    FormatEncoder.fn_encodeBMP true img
      = some (FormatEncoder.fileHeaderBytes (FormatEncoder.bmpFileHeader img)
          ++ FormatEncoder.infoHeaderBytes (FormatEncoder.bmpInfoHeader img)
          ++ (FormatEncoder.bmpRows img).flatten) := by
  unfold FormatEncoder.fn_encodeBMP
  have : ¬ (img.iChannels ≠ 3 ∧ img.iChannels ≠ 4) := by omega
  rw [if_neg this]
  rfl

theorem encodeBMP_length (img : sImageData) (hc : img.iChannels = 3 ∨ img.iChannels = 4) :
    (FormatEncoder.fileHeaderBytes (FormatEncoder.bmpFileHeader img)
        ++ FormatEncoder.infoHeaderBytes (FormatEncoder.bmpInfoHeader img)
        ++ (FormatEncoder.bmpRows img).flatten).length
      = 54 + img.iHeight.toNat *
        (img.iWidth.toNat * img.iChannels.toNat + (FormatEncoder.iRowPadding img).toNat) := by
  rw [List.length_append, List.length_append, bmpRows_flatten_length img hc]
  rfl

theorem iRowSize_emod (img : sImageData) :
    FormatEncoder.iRowSize img % 4294967296
      = (img.iWidth * img.iChannels + (4 - (img.iWidth * img.iChannels) % 4) % 4)
          % 4294967296 := by
  unfold FormatEncoder.iRowSize
  rw [wrapInt32_emod, iRowPadding_eq]
  have h := wrapInt32_emod (img.iWidth * img.iChannels)
  generalize wrapInt32 (img.iWidth * img.iChannels) = X at h ⊢
  generalize img.iWidth * img.iChannels = x at h ⊢
  omega

theorem biSizeImage_eq (img : sImageData) :
    ((FormatEncoder.bmpInfoHeader img).biSizeImage : Int)
      = (img.iHeight * (img.iWidth * img.iChannels + (4 - (img.iWidth * img.iChannels) % 4) % 4))
          % 4294967296 := by
  show ((toUInt32 (wrapInt32 (FormatEncoder.iRowSize img * img.iHeight)) : Nat) : Int) = _
  unfold toUInt32
  rw [Int.toNat_of_nonneg (Int.emod_nonneg _ (by norm_num)), wrapInt32_emod]
  have h : Int.ModEq 4294967296 (FormatEncoder.iRowSize img)
      (img.iWidth * img.iChannels + (4 - (img.iWidth * img.iChannels) % 4) % 4) :=
    iRowSize_emod img
  have h2 := h.mul_right img.iHeight
  rw [mul_comm img.iHeight]
  exact h2

theorem bfSize_eq (img : sImageData) :
    ((FormatEncoder.bmpFileHeader img).bfSize : Int)
      = (54 + img.iHeight *
          (img.iWidth * img.iChannels + (4 - (img.iWidth * img.iChannels) % 4) % 4))
          % 4294967296 := by
  show (((toUInt32 (14 + 40) + (FormatEncoder.bmpInfoHeader img).biSizeImage) % 4294967296 : Nat)
    : Int) = _
  have h54 : toUInt32 (14 + 40) = 54 := by decide
  rw [h54]
  push_cast
  rw [biSizeImage_eq]
  omega

theorem encodeBMP_length_int (img : sImageData) (hw : 0 < img.iWidth) (hh : 0 < img.iHeight)
    (hc : img.iChannels = 3 ∨ img.iChannels = 4) :
    ((FormatEncoder.fileHeaderBytes (FormatEncoder.bmpFileHeader img)
        ++ FormatEncoder.infoHeaderBytes (FormatEncoder.bmpInfoHeader img)
        ++ (FormatEncoder.bmpRows img).flatten).length : Int)
      = 54 + img.iHeight *
          (img.iWidth * img.iChannels + (4 - (img.iWidth * img.iChannels) % 4) % 4) := by
  rw [encodeBMP_length img hc, iRowPadding_eq]
  push_cast
  rw [Int.toNat_of_nonneg (le_of_lt hh), Int.toNat_of_nonneg (le_of_lt hw),
    Int.toNat_of_nonneg (by omega : (0 : Int) ≤ img.iChannels),
    Int.toNat_of_nonneg (by omega)]

/-- C28, as stated, fails at the 32-bit limit of the size field: the image of width 1,
height 1073741823 and 4 channels has width*channels*height = 4294967292 below 2^32 and rows
without padding, `fn_encodeBMP` writes 54 + 4294967292 = 4294967346 bytes, and the header
field `bfSize` holds 50. -/
theorem encodeBMP_size_field_wraps :
    (1 : Int) * 4 * 1073741823 < 4294967296 ∧
    (∃ bytes, FormatEncoder.fn_encodeBMP true ⟨fun _ => 0, 1, 1073741823, 4⟩ = some bytes ∧
      bytes.length = 4294967346) ∧
    FormatEncoder.iRowPadding ⟨fun _ => 0, 1, 1073741823, 4⟩ = 0 ∧
    (FormatEncoder.bmpFileHeader ⟨fun _ => 0, 1, 1073741823, 4⟩).bfSize = 50 := by
  refine ⟨by norm_num, ⟨_, encodeBMP_eq _ (Or.inr rfl), ?_⟩, by decide, by decide⟩
  rw [encodeBMP_length _ (Or.inr rfl)]
  have hp : FormatEncoder.iRowPadding ⟨fun _ => 0, 1, 1073741823, 4⟩ = 0 := by decide
  rw [hp]
  rfl

/-- C28 (amended): for every image with width > 0, height > 0 and 3 or 4 channels whose size
54 + height * padded row length is below 2^32, and an output file that opens,
`fn_encodeBMP` returns true; after the 54 header bytes it writes one row per image line, each
row being width*channels pixel bytes followed by (4 - (width*channels) mod 4) mod 4 zero
bytes, so every stored row length is a multiple of 4; the number of bytes written is
54 + height * padded row length and equals the header field `bfSize`, stored in bytes 2..5 of
the file, and `bfOffBits`, stored in bytes 10..13, is 54. -/
theorem encodeBMP_layout (img : sImageData) (hw : 0 < img.iWidth) (hh : 0 < img.iHeight)
    (hc : img.iChannels = 3 ∨ img.iChannels = 4)
    (hfit : 54 + img.iHeight *
      (img.iWidth * img.iChannels + (4 - (img.iWidth * img.iChannels) % 4) % 4)
        < 4294967296) :
    ∃ bytes, FormatEncoder.fn_encodeBMP true img = some bytes ∧
      bytes.drop 54 = (FormatEncoder.bmpRows img).flatten ∧
      ((FormatEncoder.bmpRows img).length : Int) = img.iHeight ∧
      (∀ row ∈ FormatEncoder.bmpRows img, ∃ data,
        row = data ++ List.replicate ((4 - (img.iWidth * img.iChannels) % 4) % 4).toNat 0 ∧
        (data.length : Int) = img.iWidth * img.iChannels ∧
        (row.length : Int)
          = img.iWidth * img.iChannels + (4 - (img.iWidth * img.iChannels) % 4) % 4 ∧
        row.length % 4 = 0) ∧
      (bytes.length : Int) = 54 + img.iHeight *
        (img.iWidth * img.iChannels + (4 - (img.iWidth * img.iChannels) % 4) % 4) ∧
      (FormatEncoder.bmpFileHeader img).bfSize = bytes.length ∧
      (FormatEncoder.bmpFileHeader img).bfOffBits = 54 ∧
      (bytes.drop 2).take 4 = le32 bytes.length ∧
      (bytes.drop 10).take 4 = le32 54 := by
  have hlen := encodeBMP_length_int img hw hh hc
  have hsize : (FormatEncoder.bmpFileHeader img).bfSize
      = (FormatEncoder.fileHeaderBytes (FormatEncoder.bmpFileHeader img)
        ++ FormatEncoder.infoHeaderBytes (FormatEncoder.bmpInfoHeader img)
        ++ (FormatEncoder.bmpRows img).flatten).length := by
    have h1 := bfSize_eq img
    have hnn : (0 : Int) ≤ img.iHeight *
        (img.iWidth * img.iChannels + (4 - (img.iWidth * img.iChannels) % 4) % 4) := by
      apply mul_nonneg (le_of_lt hh)
      have : (0 : Int) ≤ img.iWidth * img.iChannels := by
        apply mul_nonneg (le_of_lt hw)
        omega
      omega
    rw [Int.emod_eq_of_lt (by omega) hfit, ← hlen] at h1
    exact_mod_cast h1
  have hW : ((img.iWidth.toNat : Nat) : Int) = img.iWidth :=
    Int.toNat_of_nonneg (le_of_lt hw)
  have hC : ((img.iChannels.toNat : Nat) : Int) = img.iChannels :=
    Int.toNat_of_nonneg (by omega)
  have hP : ((((4 - (img.iWidth * img.iChannels) % 4) % 4).toNat : Nat) : Int)
      = (4 - (img.iWidth * img.iChannels) % 4) % 4 :=
    Int.toNat_of_nonneg (by omega)
  refine ⟨_, encodeBMP_eq img hc, ?_, ?_, ?_, hlen, hsize, rfl, ?_, rfl⟩
  · exact List.drop_left' rfl
  · unfold FormatEncoder.bmpRows
    rw [List.length_map, List.length_reverse, List.length_range,
      Int.toNat_of_nonneg (le_of_lt hh)]
  · intro row hrow
    unfold FormatEncoder.bmpRows at hrow
    rw [List.mem_map] at hrow
    obtain ⟨y, _, rfl⟩ := hrow
    have hd := bmpRowData_length img y hc
    have hr := bmpRow_length img y hc
    rw [iRowPadding_eq] at hr
    have hrow : ((FormatEncoder.bmpRow img y).length : Int)
        = img.iWidth * img.iChannels + (4 - (img.iWidth * img.iChannels) % 4) % 4 := by
      rw [hr]
      push_cast
      rw [hW, hC, hP]
    refine ⟨FormatEncoder.bmpRowData img y, ?_, ?_, hrow, ?_⟩
    · unfold FormatEncoder.bmpRow
      rw [iRowPadding_eq]
    · rw [hd]
      push_cast
      rw [hW, hC]
    · generalize img.iWidth * img.iChannels = x at hrow
      omega
  · rw [← hsize]
    rfl

/-- The statement of C28 for a 3x2 image with 3 channels: rows of 9 pixel bytes and 3
padding bytes, 78 bytes in all. -/
theorem encodeBMP_layout_witness :
    ∃ bytes, FormatEncoder.fn_encodeBMP true ⟨fun k => k.toNat % 256, 3, 2, 3⟩ = some bytes ∧
      bytes.drop 54 = (FormatEncoder.bmpRows ⟨fun k => k.toNat % 256, 3, 2, 3⟩).flatten ∧
      ((FormatEncoder.bmpRows ⟨fun k => k.toNat % 256, 3, 2, 3⟩).length : Int) = 2 ∧
      (∀ row ∈ FormatEncoder.bmpRows ⟨fun k => k.toNat % 256, 3, 2, 3⟩, ∃ data,
        row = data ++ List.replicate ((4 - ((3 : Int) * 3) % 4) % 4).toNat 0 ∧
        (data.length : Int) = 3 * 3 ∧
        (row.length : Int) = 3 * 3 + (4 - ((3 : Int) * 3) % 4) % 4 ∧
        row.length % 4 = 0) ∧
      (bytes.length : Int) = 54 + 2 * (3 * 3 + (4 - ((3 : Int) * 3) % 4) % 4) ∧
      (FormatEncoder.bmpFileHeader ⟨fun k => k.toNat % 256, 3, 2, 3⟩).bfSize = bytes.length ∧
      (FormatEncoder.bmpFileHeader ⟨fun k => k.toNat % 256, 3, 2, 3⟩).bfOffBits = 54 ∧
      (bytes.drop 2).take 4 = le32 bytes.length ∧
      (bytes.drop 10).take 4 = le32 54 :=
  encodeBMP_layout ⟨fun k => k.toNat % 256, 3, 2, 3⟩ (by decide) (by decide) (Or.inl rfl)
    (by decide)

/-! ## EXIF segment -/

theorem skipLoop_terminates_aux (fileData : List Nat) :
    ∀ (fuel pos : Nat), fileData.length ≤ pos + fuel → skipLoop fileData fuel pos ≠ none := by
  intro fuel
  induction fuel with
  | zero =>
    intro pos h
    unfold skipLoop
    rw [if_neg (by omega)]
    exact Option.some_ne_none _
  | succ n ih =>
    intro pos h
    unfold skipLoop
    repeat' split
    all_goals first | exact Option.some_ne_none _ | exact ih _ (by omega)

theorem skipLoop_terminates (fileData : List Nat) : skipExistingMarkers fileData ≠ none :=
  skipLoop_terminates_aux fileData fileData.length 2 (by omega)

/-- C29, the code: the skip loop of the fallback path ends on every file content, but does
not stay inside the buffer.  On the three bytes FF D8 FF the first round reads
`fileData[pos + 1]` at index 3, the size of the vector; on FF D8 FF E0 00 10 the declared
segment length 16 moves `pos` from 2 to 20, beyond the size 6, so the copy of the remaining
image data starts outside the buffer.  A file whose APP0 segment lies inside it, such as
FF D8 FF E0 00 04 01 02 FF DB, is handled in bounds and ends with `pos = 8`. -/
theorem skip_loop_leaves_buffer :
    (∀ fileData : List Nat, ∃ r, skipExistingMarkers fileData = some r) ∧
    skipExistingMarkers [0xFF, 0xD8, 0xFF] = some (.outOfBounds 3) ∧
    ([0xFF, 0xD8, 0xFF] : List Nat).length = 3 ∧
    writeExifFallback [0xFF, 0xD8, 0xFF] [1] = some .undefinedBehaviour ∧
    skipExistingMarkers [0xFF, 0xD8, 0xFF, 0xE0, 0x00, 0x10] = some (.done 20) ∧
    ([0xFF, 0xD8, 0xFF, 0xE0, 0x00, 0x10] : List Nat).length = 6 ∧
    writeExifFallback [0xFF, 0xD8, 0xFF, 0xE0, 0x00, 0x10] [1] = some .undefinedBehaviour ∧
    skipExistingMarkers [0xFF, 0xD8, 0xFF, 0xE0, 0x00, 0x04, 0x01, 0x02, 0xFF, 0xDB]
      = some (.done 8) ∧
    writeExifFallback [0xFF, 0xD8, 0xFF, 0xE0, 0x00, 0x04, 0x01, 0x02, 0xFF, 0xDB] [1]
      = some (.written [0xFF, 0xD8, 0xFF, 0xE1, 0x00, 0x09, 0x45, 0x78, 0x69, 0x66, 0, 0, 1,
          0xFF, 0xDB]) := by
  refine ⟨?_, by decide, rfl, by decide, by decide, rfl, by decide, by decide, by decide⟩
  intro fileData
  cases h : skipExistingMarkers fileData with
  | none => exact absurd h (skipLoop_terminates fileData)
  | some r => exact ⟨r, rfl⟩

theorem hasHeader_iff_startsWith (exifData : List Nat) :
    hasHeader exifData = true ↔ exifHeader <+: exifData := by
  rcases exifData with _ | ⟨a, _ | ⟨b, _ | ⟨c, _ | ⟨d, _ | ⟨e, _ | ⟨f, rest⟩⟩⟩⟩⟩⟩ <;>
    simp [hasHeader, exifHeader, List.prefix_cons_inj, List.cons_prefix_cons]
  omega

theorem segment_length_bytes (n : Nat) (h : n < 65536) :
    ((n >>> 8) &&& 0xFF) * 256 + (n &&& 0xFF) = n ∧ (n >>> 8) &&& 0xFF < 256 ∧
      n &&& 0xFF < 256 := by
  have h1 : n >>> 8 = n / 256 := by
    rw [Nat.shiftRight_eq_div_pow]
  have h2 : ∀ m : Nat, m &&& 0xFF = m % 256 := fun m =>
    Nat.and_pow_two_sub_one_eq_mod m 8
  rw [h1, h2, h2]
  omega

theorem exifToWrite_length (exifData : List Nat) :
    (exifToWrite exifData).length
      = if hasHeader exifData then exifData.length else exifData.length + 6 := by
  unfold exifToWrite
  split_ifs
  · rfl
  · rw [List.length_append]
    show 6 + exifData.length = exifData.length + 6
    omega

theorem writeExifFallback_terminates (fileData exifData : List Nat) :
    ∃ r, writeExifFallback fileData exifData = some r := by
  unfold writeExifFallback
  split_ifs
  · exact ⟨_, rfl⟩
  · cases h : skipExistingMarkers fileData with
    | none => exact absurd h (skipLoop_terminates fileData)
    | some o =>
      cases o with
      | done pos =>
        dsimp only
        split_ifs <;> exact ⟨_, rfl⟩
      | outOfBounds i => exact ⟨_, rfl⟩

/-- C30, as stated, fails for a large payload: for the payload of 65530 zero bytes, which
has no header, the segment holds 65536 EXIF bytes, and the two length bytes written after
FF E1 are 00 02, which encode 2 and not 65538. -/
theorem exif_segment_length_truncated :
    (0 :: List.replicate 65529 0) ≠ ([] : List Nat) ∧
    (0 :: List.replicate 65529 0 : List Nat).length = 65530 ∧
    (exifToWrite (0 :: List.replicate 65529 0)).length = 65536 ∧
    (newFileDataStart (0 :: List.replicate 65529 0)).take 6
      = [0xFF, 0xD8, 0xFF, 0xE1, 0x00, 0x02] ∧
    (newFileDataStart (0 :: List.replicate 65529 0)).drop 6
      = exifToWrite (0 :: List.replicate 65529 0) ∧
    0x00 * 256 + 0x02 ≠ (exifToWrite (0 :: List.replicate 65529 0)).length + 2 := by
  have hh : hasHeader (0 :: List.replicate 65529 0) = false := by
    rw [← Bool.not_eq_true, hasHeader_iff_startsWith]
    intro hp
    rw [exifHeader, List.cons_prefix_cons] at hp
    exact absurd hp.1 (by decide)
  have hl : (exifToWrite (0 :: List.replicate 65529 0)).length = 65536 := by
    rw [exifToWrite_length, hh, if_neg Bool.false_ne_true, List.length_cons,
      List.length_replicate]
  have hs : segmentLength (0 :: List.replicate 65529 0) = 2 := by
    rw [segmentLength, hl]
  refine ⟨List.cons_ne_nil _ _, ?_, hl, ?_, ?_, ?_⟩
  · rw [List.length_cons, List.length_replicate]
  · rw [newFileDataStart, hs]
    exact List.take_left' rfl
  · rw [newFileDataStart]
    exact List.drop_left' rfl
  · rw [hl]
    decide

/-- C30 (amended): for every non-empty EXIF payload whose segment fits the 16-bit field (the
EXIF bytes written plus 2 are less than 65536), the new file content starts with FF D8, the
APP1 marker FF E1 and two bytes that encode, big-endian, exactly the number of EXIF bytes
written in the segment plus 2, followed by these EXIF bytes; the EXIF bytes are the payload
itself when it starts with "Exif\0\0" and the payload behind a prepended "Exif\0\0" when it
does not.  Every fallback run ends, and the same holds for the content a run writes: over
the file FF D8 FF E0 00 04 01 02 FF DB the payload Exif\0\0 07 is written behind the length
bytes 00 09. -/
theorem exif_segment_length (exifData : List Nat) (_hne : exifData ≠ [])
    (hfit : (exifToWrite exifData).length + 2 < 65536) :
    (∃ hi lo, newFileDataStart exifData
        = [0xFF, 0xD8, 0xFF, 0xE1, hi, lo] ++ exifToWrite exifData ∧
      hi < 256 ∧ lo < 256 ∧ hi * 256 + lo = (exifToWrite exifData).length + 2) ∧
    (exifHeader <+: exifData → exifToWrite exifData = exifData) ∧
    (¬ exifHeader <+: exifData → exifToWrite exifData = exifHeader ++ exifData) ∧
    (∀ fileData, ∃ r, writeExifFallback fileData exifData = some r) ∧
    (∀ fileData newFileData, writeExifFallback fileData exifData = some (.written newFileData) →
      newFileData.take 4 = [0xFF, 0xD8, 0xFF, 0xE1] ∧
      newFileData.getD 4 0 * 256 + newFileData.getD 5 0 = (exifToWrite exifData).length + 2 ∧
      (newFileData.drop 6).take (exifToWrite exifData).length = exifToWrite exifData) ∧
    writeExifFallback [0xFF, 0xD8, 0xFF, 0xE0, 0x00, 0x04, 0x01, 0x02, 0xFF, 0xDB]
        [0x45, 0x78, 0x69, 0x66, 0, 0, 7]
      = some (.written [0xFF, 0xD8, 0xFF, 0xE1, 0x00, 0x09, 0x45, 0x78, 0x69, 0x66, 0, 0, 7,
          0xFF, 0xDB]) := by
  have hs : segmentLength exifData = (exifToWrite exifData).length + 2 := by
    unfold segmentLength
    exact Nat.mod_eq_of_lt hfit
  obtain ⟨b1, b2, b3⟩ := segment_length_bytes (segmentLength exifData) (by rw [hs]; exact hfit)
  have hstart : newFileDataStart exifData
      = [0xFF, 0xD8, 0xFF, 0xE1, (segmentLength exifData >>> 8) &&& 0xFF,
          segmentLength exifData &&& 0xFF] ++ exifToWrite exifData := rfl
  refine ⟨⟨_, _, hstart, b2, b3, by rw [b1, hs]⟩, ?_, ?_,
    fun fileData => writeExifFallback_terminates fileData exifData, ?_, by decide⟩
  · intro hp
    unfold exifToWrite
    rw [if_pos ((hasHeader_iff_startsWith exifData).mpr hp)]
  · intro hp
    unfold exifToWrite
    rw [if_neg (fun h => hp ((hasHeader_iff_startsWith exifData).mp h))]
  · intro fileData newFileData hrun
    unfold writeExifFallback at hrun
    split_ifs at hrun
    · exact absurd hrun (by simp)
    · split at hrun
      · exact absurd hrun (by simp)
      · exact absurd hrun (by simp)
      · split_ifs at hrun
        · simp only [Option.some.injEq, FallbackResult.written.injEq] at hrun
          subst hrun
          rw [hstart]
          refine ⟨rfl, ?_, ?_⟩
          · show (segmentLength exifData >>> 8 &&& 0xFF) * 256
              + (segmentLength exifData &&& 0xFF) = _
            rw [b1, hs]
          · show (exifToWrite exifData ++ fileData.drop _).take _ = _
            exact List.take_left' rfl
        · exact absurd hrun (by simp)

/-- The statement of C30 for the three-byte payload 01 02 03: "Exif\0\0" is prepended and the
length bytes are 00 0B, which encode 9 + 2. -/
theorem exif_segment_length_witness :
    ([1, 2, 3] : List Nat) ≠ [] ∧ (exifToWrite [1, 2, 3]).length + 2 < 65536 ∧
    ∃ hi lo, newFileDataStart [1, 2, 3]
        = [0xFF, 0xD8, 0xFF, 0xE1, hi, lo] ++ exifToWrite [1, 2, 3] ∧
      hi < 256 ∧ lo < 256 ∧ hi * 256 + lo = (exifToWrite [1, 2, 3]).length + 2 :=
  ⟨by decide, by decide, (exif_segment_length [1, 2, 3] (by decide) (by decide)).1⟩


/-! ## Claims on the resolver, the parameters and the chunk size -/

/-- C22, the code: the quality and the preserve-metadata flag given to `fn_processBatch` and
`fn_processDirectory` reach no conversion.  `fn_processSingleFile` never reads them and calls
`fn_convertFile(sInputFile, sOutputFile)` without them, so for all collaborators two calls
that differ only in quality and flag give the same result, statistics and final world; and
`Converter::fn_convertFile` asks its image processor for quality 85 whatever the batch was
given.  The batch with quality 50 and flag true and the batch with quality 95 and flag false
leave the same record of converter calls. -/
theorem quality_and_metadata_dropped {σ φ : Type} (K : Collab σ φ) (bp : BatchProcessor)
    (vsInputFiles : List String) (sInputFile sInputDirectory sOutputFormat
      sOutputDirectory : String)
    (bRecursive bVerbose : Bool) (iQuality iQuality2 : Int)
    (bPreserveMetadata bPreserveMetadata2 : Bool) (w : σ) :
    fn_processSingleFile K sInputFile sOutputFormat sOutputDirectory iQuality
        bPreserveMetadata w
      = fn_processSingleFile K sInputFile sOutputFormat sOutputDirectory iQuality2
        bPreserveMetadata2 w ∧
    fn_processBatch K bp vsInputFiles sOutputFormat sOutputDirectory iQuality
        bPreserveMetadata bVerbose w
      = fn_processBatch K bp vsInputFiles sOutputFormat sOutputDirectory iQuality2
        bPreserveMetadata2 bVerbose w ∧
    fn_processDirectory K bp sInputDirectory sOutputFormat sOutputDirectory bRecursive iQuality
        bPreserveMetadata bVerbose w
      = fn_processDirectory K bp sInputDirectory sOutputFormat sOutputDirectory bRecursive
        iQuality2 bPreserveMetadata2 bVerbose w ∧
    (∀ {τ : Type} (W : ConverterWorld τ)
        (convertImage : String → String → String → Int → τ → Bool × τ)
        (sIn sOut : String) (t : τ),
      Converter.fn_convertFileVia W convertImage sIn sOut t
        = Converter.fn_convertFileVia W (fun i o f _ => convertImage i o f 85) sIn sOut t) ∧
    fn_processBatch (diskCollab noStatError (mockConvert "error")) BatchProcessor.new
        ["in/a.heic", "in/b.heic"] "jpg" "out" 50 true false
        ⟨["out", "in/a.heic", "in/b.heic"], ["out"], []⟩
      = fn_processBatch (diskCollab noStatError (mockConvert "error")) BatchProcessor.new
        ["in/a.heic", "in/b.heic"] "jpg" "out" 95 false false
        ⟨["out", "in/a.heic", "in/b.heic"], ["out"], []⟩ ∧
    (fn_processBatch (diskCollab noStatError (mockConvert "error")) BatchProcessor.new
        ["in/a.heic", "in/b.heic"] "jpg" "out" 50 true false
        ⟨["out", "in/a.heic", "in/b.heic"], ["out"], []⟩).2.2.converted
      = [("in/a.heic", "out/a.jpg"), ("in/b.heic", "out/b.jpg")] :=
  ⟨rfl, rfl, rfl, fun _ _ _ _ _ => rfl, by decide, by decide⟩

/-- C23, the code: a size that is not positive leaves the batch size as it was, which is the
default 10 only when it had not been changed: after `fn_setBatchSize(5)` the call
`fn_setBatchSize(0)`, which logs "Invalid batch size, using default (10)", leaves the batch
size 5, and the next batch runs in chunks of 5.  A positive size is stored and returned by
`fn_getBatchSize`. -/
theorem setBatchSize_invalid_keeps_previous (bp : BatchProcessor) (n : Int) :
    (n ≤ 0 → (bp.fn_setBatchSize n).fn_getBatchSize = bp.fn_getBatchSize) ∧
    (n > 0 → (bp.fn_setBatchSize n).fn_getBatchSize = n) ∧
    ((BatchProcessor.new.fn_setBatchSize 5).fn_setBatchSize 0).fn_getBatchSize = 5 ∧
    ((BatchProcessor.new.fn_setBatchSize 5).fn_setBatchSize (-3)).fn_getBatchSize = 5 ∧
    (BatchProcessor.new.fn_setBatchSize 0).fn_getBatchSize = 10 ∧
    stBatches 10 ((BatchProcessor.new.fn_setBatchSize 5).fn_setBatchSize 0).iBatchSize.toNat
      = 2 := by
  refine ⟨?_, ?_, by decide, by decide, by decide, by decide⟩
  · intro h
    unfold BatchProcessor.fn_setBatchSize BatchProcessor.fn_getBatchSize
    rw [if_neg (by omega)]
  · intro h
    unfold BatchProcessor.fn_setBatchSize BatchProcessor.fn_getBatchSize
    rw [if_pos h]

/-- C26: the final statistics do not depend on the chunk size.  For every file list, every
assignment of a success/failure outcome to each list position, either mode, and every two
batch sizes b1, b2 >= 1, `fn_internalBatchProcess` produces the same return value, processed
count, failed count and failed-file list, in whatever worlds the two runs take place as long
as each position's task has the assigned outcome. -/
theorem chunk_size_irrelevant {σ φ : Type} (K : Collab σ φ) (outcome : Nat → Bool)
    (ordinal : σ → Nat) (launchedAt : φ → Nat → Prop) (bp : BatchProcessor)
    (vsFiles : List String) (sOutputFormat sOutputDirectory : String) (iQuality : Int)
    (bPreserveMetadata bVerbose : Bool) (w1 w2 : σ) (b1 b2 : Int)
    (hb1 : 1 ≤ b1) (hb2 : 1 ≤ b2)
    (hp : bp.bParallelProcessing = true → ParallelOutcomes K outcome ordinal launchedAt)
    (hs : bp.bParallelProcessing = false → SequentialOutcomes K outcome ordinal)
    (hw1 : ordinal w1 = 0) (hw2 : ordinal w2 = 0) :
    (fn_internalBatchProcess K (bp.fn_setBatchSize b1) vsFiles sOutputFormat sOutputDirectory
        iQuality bPreserveMetadata bVerbose w1).1
      = (fn_internalBatchProcess K (bp.fn_setBatchSize b2) vsFiles sOutputFormat
        sOutputDirectory iQuality bPreserveMetadata bVerbose w2).1 ∧
    (fn_internalBatchProcess K (bp.fn_setBatchSize b1) vsFiles sOutputFormat sOutputDirectory
        iQuality bPreserveMetadata bVerbose w1).2.1.fn_getProcessedCount
      = (fn_internalBatchProcess K (bp.fn_setBatchSize b2) vsFiles sOutputFormat
        sOutputDirectory iQuality bPreserveMetadata bVerbose w2).2.1.fn_getProcessedCount ∧
    (fn_internalBatchProcess K (bp.fn_setBatchSize b1) vsFiles sOutputFormat sOutputDirectory
        iQuality bPreserveMetadata bVerbose w1).2.1.fn_getFailedCount
      = (fn_internalBatchProcess K (bp.fn_setBatchSize b2) vsFiles sOutputFormat
        sOutputDirectory iQuality bPreserveMetadata bVerbose w2).2.1.fn_getFailedCount ∧
    (fn_internalBatchProcess K (bp.fn_setBatchSize b1) vsFiles sOutputFormat sOutputDirectory
        iQuality bPreserveMetadata bVerbose w1).2.1.fn_getFailedFiles
      = (fn_internalBatchProcess K (bp.fn_setBatchSize b2) vsFiles sOutputFormat
        sOutputDirectory iQuality bPreserveMetadata bVerbose w2).2.1.fn_getFailedFiles := by
  have key : ∀ (b : Int) (w : σ), 1 ≤ b → ordinal w = 0 →
      (fn_internalBatchProcess K (bp.fn_setBatchSize b) vsFiles sOutputFormat sOutputDirectory
          iQuality bPreserveMetadata bVerbose w).1
        = (vsFiles.isEmpty || decide (bp.iFailedCount
            + (((List.range vsFiles.length).filter (fun i => !outcome i)).length : Int) = 0)) ∧
      (fn_internalBatchProcess K (bp.fn_setBatchSize b) vsFiles sOutputFormat sOutputDirectory
          iQuality bPreserveMetadata bVerbose w).2.1.iProcessedCount
        = bp.iProcessedCount
          + (((List.range vsFiles.length).filter (fun i => outcome i)).length : Int) ∧
      (fn_internalBatchProcess K (bp.fn_setBatchSize b) vsFiles sOutputFormat sOutputDirectory
          iQuality bPreserveMetadata bVerbose w).2.1.iFailedCount
        = bp.iFailedCount
          + (((List.range vsFiles.length).filter (fun i => !outcome i)).length : Int) ∧
      (fn_internalBatchProcess K (bp.fn_setBatchSize b) vsFiles sOutputFormat sOutputDirectory
          iQuality bPreserveMetadata bVerbose w).2.1.vsFailedFiles
        = bp.vsFailedFiles ++ ((List.range vsFiles.length).filter (fun i => !outcome i)).map
            (fun i => vsFiles.getD i "") := by
    intro b w hb hw
    have hset : bp.fn_setBatchSize b = { bp with iBatchSize := b } := by
      unfold BatchProcessor.fn_setBatchSize
      rw [if_pos (by omega)]
    have hrun := outcomes_internalBatchProcess K outcome ordinal launchedAt
      (bp.fn_setBatchSize b) (by rw [hset]; exact hp) (by rw [hset]; exact hs)
      vsFiles sOutputFormat sOutputDirectory iQuality bPreserveMetadata bVerbose w hw
      (by rw [hset]; exact hb)
    obtain ⟨f1, f2, f3, _, _⟩ := recordAt_fold vsFiles outcome (List.range vsFiles.length)
      (bp.fn_setBatchSize b)
    rw [hrun.1, hrun.2, f1, f2, f3, hset]
    exact ⟨rfl, rfl, rfl, rfl⟩
  obtain ⟨a1, a2, a3, a4⟩ := key b1 w1 hb1 hw1
  obtain ⟨c1, c2, c3, c4⟩ := key b2 w2 hb2 hw2
  unfold BatchProcessor.fn_getProcessedCount BatchProcessor.fn_getFailedCount
    BatchProcessor.fn_getFailedFiles
  rw [a1, a2, a3, a4, c1, c2, c3, c4]
  exact ⟨rfl, rfl, rfl, rfl⟩

/-- The statement of C26 for five files of which the fourth fails, in the pool world in
parallel mode, with chunks of 2 and chunks of 3. -/
theorem chunk_size_irrelevant_witness :
    (1 : Int) ≤ 2 ∧ (1 : Int) ≤ 3 ∧
    ParallelOutcomes (poolCollab (fun k => k != 3)) (fun k => k != 3) (fun w => w.started)
      (fun fut k => fut = k) ∧
    (fn_internalBatchProcess (poolCollab (fun k => k != 3)) (BatchProcessor.new.fn_setBatchSize 2)
        ["a", "b", "c", "d", "e"] "jpg" "out" 85 false false ⟨0, [], []⟩).2.1.fn_getFailedFiles
      = (fn_internalBatchProcess (poolCollab (fun k => k != 3))
        (BatchProcessor.new.fn_setBatchSize 3)
        ["a", "b", "c", "d", "e"] "jpg" "out" 85 false false ⟨0, [], []⟩).2.1.fn_getFailedFiles ∧
    (fn_internalBatchProcess (poolCollab (fun k => k != 3)) (BatchProcessor.new.fn_setBatchSize 2)
        ["a", "b", "c", "d", "e"] "jpg" "out" 85 false false ⟨0, [], []⟩).2.1.fn_getFailedFiles
      = ["d"] :=
  ⟨by decide, by decide, poolCollab_parallelOutcomes _,
    (chunk_size_irrelevant (poolCollab (fun k => k != 3)) (fun k => k != 3)
      (fun w => w.started) (fun fut k => fut = k) BatchProcessor.new
      ["a", "b", "c", "d", "e"] "jpg" "out" 85 false false ⟨0, [], []⟩ ⟨0, [], []⟩ 2 3
      (by decide) (by decide) (fun _ => poolCollab_parallelOutcomes _)
      (fun h => absurd h (by decide)) rfl rfl).2.2.2,
    by decide⟩


/-! ## The size bound of the BMP layout in terms of the pixel data -/

theorem bmp_size_fits_of_int_range (w h c : Int) (hw : 0 < w) (hh : 0 < h)
    (hc : c = 3 ∨ c = 4) (hint : w * c * h < 2147483648) :
    54 + h * (w * c + (4 - (w * c) % 4) % 4) < 4294967296 := by
  have hm : 0 < w * h := mul_pos hw hh
  rcases hc with rfl | rfl
  · have hpad : (4 - (w * 3) % 4) % 4 ≤ w := by omega
    have h1 : h * (w * 3 + (4 - (w * 3) % 4) % 4) ≤ h * (w * 3 + w) :=
      mul_le_mul_of_nonneg_left (by omega) (le_of_lt hh)
    have h2 : h * (w * 3 + w) = 4 * (w * h) := by ring
    have h3 : w * 3 * h = 3 * (w * h) := by ring
    rw [h3] at hint
    rw [h2] at h1
    omega
  · have hpad : (4 - (w * 4) % 4) % 4 = 0 := by omega
    rw [hpad, add_zero]
    have h3 : h * (w * 4) = w * 4 * h := by ring
    rw [h3]
    omega


/-! ## The resolver on every filesystem state -/

set_option maxRecDepth 100000 in
/-- C7, as stated, fails: on a filesystem that refuses names longer than `NAME_MAX`, the
resolver called for an input whose base name has 300 characters throws at its first status
query and returns no path, where a base name of 250 characters is resolved.  The batch
counts the file as failed without calling the converter. -/
theorem generateOutputFilename_throws_on_long_name :
    fn_generateOutputFilename nameMaxStatError ["out"]
        (String.mk (List.replicate 300 'a') ++ ".heic") "jpg" "out"
      = some (.error (.stdException
          "filesystem error: cannot get file status: File name too long")) ∧
    fn_generateOutputFilename nameMaxStatError ["out"]
        (String.mk (List.replicate 250 'a') ++ ".heic") "jpg" "out"
      = some (.ok ("out/" ++ String.mk (List.replicate 250 'a') ++ ".jpg")) ∧
    fn_processBatch (diskCollab nameMaxStatError (mockConvert "error")) BatchProcessor.new
        [String.mk (List.replicate 300 'a') ++ ".heic"] "jpg" "out" 85 false false
        ⟨["out"], ["out"], []⟩
      = (false, ⟨0, 1, [String.mk (List.replicate 300 'a') ++ ".heic"], 10, true⟩,
          ⟨["out"], ["out"], []⟩) := by
  refine ⟨by decide, by decide, by decide⟩

set_option maxRecDepth 100000 in
/-- C8, as stated, fails: with a base name of 250 characters and dir/base.jpg present, the
candidate dir/base_1.jpg does not exist, but its name has 256 bytes, the status query for it
fails, and the resolver throws instead of returning it. -/
theorem generateOutputFilename_throws_at_numbered_candidate :
    fn_generateOutputFilename nameMaxStatError
        ["out", "out/" ++ String.mk (List.replicate 250 'a') ++ ".jpg"]
        (String.mk (List.replicate 250 'a') ++ ".heic") "jpg" "out"
      = some (.error (.stdException
          "filesystem error: cannot get file status: File name too long")) ∧
    candidatePath (String.mk (List.replicate 250 'a') ++ ".heic") "jpg" "out" 0
      = "out/" ++ String.mk (List.replicate 250 'a') ++ ".jpg" ∧
    candidatePath (String.mk (List.replicate 250 'a') ++ ".heic") "jpg" "out" 1
      = "out/" ++ String.mk (List.replicate 250 'a') ++ "_1.jpg" ∧
    "out/" ++ String.mk (List.replicate 250 'a') ++ "_1.jpg"
      ∉ ["out", "out/" ++ String.mk (List.replicate 250 'a') ++ ".jpg"] := by
  refine ⟨by decide, by decide, by decide, by decide⟩


/-- C7 (amended): for every input path, target format, output directory and every
filesystem state with finitely many existing paths, `fn_generateOutputFilename` terminates
(the loop bound is never used up).  It either returns a path whose status query answered that
it does not exist in that state, or it is left by the exception of a status query that failed
and returns no path; when no status query fails it returns a path.  So the path a batch
hands to the converter never is a file that exists at that moment, such as an image1.jpg
already in the output directory: a single-file task either calls the converter once with a
path that does not exist, or, when the resolver throws, returns false without a converter
call. -/
theorem generateOutputFilename_unused (statError : StatError) (fs : FS)
    (sInputFile sOutputFormat sOutputDirectory : String)
    (conv : String → String → FS → Except Thrown Int × FS) (w : Disk)
    (iQuality : Int) (bPreserveMetadata : Bool) :
    (∃ r, fn_generateOutputFilename statError fs sInputFile sOutputFormat sOutputDirectory
      = some r) ∧
    (∀ p, fn_generateOutputFilename statError fs sInputFile sOutputFormat sOutputDirectory
        = some (.ok p) → fsExists statError fs p = .ok false ∧ p ∉ fs) ∧
    (∀ e, fn_generateOutputFilename statError fs sInputFile sOutputFormat sOutputDirectory
        = some (.error e) → ∃ q, statError q = some e) ∧
    ((∀ q, statError q = none) →
      ∃ p, fn_generateOutputFilename statError fs sInputFile sOutputFormat sOutputDirectory
        = some (.ok p) ∧ p ∉ fs) ∧
    (∃ p, fn_generateOutputFilename noStatError fs sInputFile sOutputFormat sOutputDirectory
        = some (.ok p) ∧ fsExists noStatError fs p = .ok false ∧ p ∉ fs) ∧
    ((∃ p, p ∉ w.paths ∧
        (diskCollab statError conv).resolve sInputFile sOutputFormat sOutputDirectory w
          = (.ok p, w) ∧
        (fn_processSingleFile (diskCollab statError conv) sInputFile sOutputFormat
            sOutputDirectory iQuality bPreserveMetadata w).2
          = { w with paths := (conv sInputFile p w.paths).2,
                     converted := w.converted ++ [(sInputFile, p)] }) ∨
      (∃ e, (diskCollab statError conv).resolve sInputFile sOutputFormat sOutputDirectory w
          = (.error e, w) ∧
        fn_processSingleFile (diskCollab statError conv) sInputFile sOutputFormat
            sOutputDirectory iQuality bPreserveMetadata w = (false, w))) ∧
    fn_generateOutputFilename nameMaxStatError
        ["test_output_dir", "test_output_dir/image1.jpg"]
        "test_input_dir/image1.heic" "jpg" "test_output_dir"
      = some (.ok "test_output_dir/image1_1.jpg") ∧
    (fn_processBatch (diskCollab nameMaxStatError (mockConvert "error")) BatchProcessor.new
        ["test_input_dir/image1.heic"] "jpg" "test_output_dir" 85 false false
        ⟨["test_output_dir", "test_output_dir/image1.jpg", "test_input_dir/image1.heic"],
          ["test_output_dir"], []⟩).2.2.converted
      = [("test_input_dir/image1.heic", "test_output_dir/image1_1.jpg")] := by
  have key : ∀ (se : StatError),
      (∃ p, fn_generateOutputFilename se fs sInputFile sOutputFormat sOutputDirectory
          = some (.ok p) ∧ fsExists se fs p = .ok false ∧ p ∉ fs) ∨
      (∃ e q, fn_generateOutputFilename se fs sInputFile sOutputFormat sOutputDirectory
          = some (.error e) ∧ se q = some e) := by
    intro se
    obtain ⟨k, _, _, h⟩ := generateOutputFilename_spec se fs sInputFile sOutputFormat
      sOutputDirectory
    rcases h with ⟨h1, h2⟩ | ⟨e, h1, h2⟩
    · exact Or.inl ⟨_, h2, h1, (fsExists_ok_false _ _ _ h1).2⟩
    · exact Or.inr ⟨e, _, h2, fsExists_error _ _ _ _ h1⟩
  have hnone : ∀ (se : StatError), (∀ q, se q = none) →
      ∃ p, fn_generateOutputFilename se fs sInputFile sOutputFormat sOutputDirectory
        = some (.ok p) ∧ fsExists se fs p = .ok false ∧ p ∉ fs := by
    intro se hse
    rcases key se with h | ⟨e, q, _, hq⟩
    · exact h
    · rw [hse q] at hq
      exact Option.noConfusion hq
  refine ⟨?_, ?_, ?_, ?_, hnone noStatError (fun _ => rfl), ?_, by decide, by decide⟩
  · rcases key statError with ⟨p, h, _⟩ | ⟨e, _, h, _⟩
    · exact ⟨_, h⟩
    · exact ⟨_, h⟩
  · intro p hp
    rcases key statError with ⟨p2, h, h2, h3⟩ | ⟨e, _, h, _⟩
    · rw [h] at hp
      have : p2 = p := Except.ok.inj (Option.some.inj hp)
      subst this
      exact ⟨h2, h3⟩
    · rw [h] at hp
      exact Except.noConfusion (Option.some.inj hp)
  · intro e he
    rcases key statError with ⟨p2, h, _, _⟩ | ⟨e2, q, h, hq⟩
    · rw [h] at he
      exact Except.noConfusion (Option.some.inj he)
    · rw [h] at he
      have : e2 = e := Except.error.inj (Option.some.inj he)
      subst this
      exact ⟨q, hq⟩
  · intro hse
    obtain ⟨p, h1, _, h3⟩ := hnone statError hse
    exact ⟨p, h1, h3⟩
  · rcases disk_processSingleFile_cases statError conv sInputFile sOutputFormat
      sOutputDirectory iQuality bPreserveMetadata w with
      ⟨p, _, _, _, hpn, hres, hw⟩ | ⟨e, hres, hw⟩
    · exact Or.inl ⟨p, hpn, hres, hw⟩
    · exact Or.inr ⟨e, hres, hw⟩

/-- C8 (amended): with base the stem of the input path, the resolver tests dir/base.fmt,
dir/base_1.fmt, dir/base_2.fmt, ... in this order and stops at the first candidate that is
not found to exist.  It returns dir/base.fmt when that path does not exist, and otherwise
dir/base_k.fmt for the least k >= 1 whose candidate does not exist, provided the status query
succeeds for every candidate up to that one; when a status query fails first, the resolver
throws the exception of that query and returns no path.  With photo.jpg present, photo.heic
resolves to photo_1.jpg; with photo.jpg and photo_1.jpg present, to photo_2.jpg. -/
theorem generateOutputFilename_least_counter (statError : StatError) (fs : FS)
    (sInputFile sOutputFormat sOutputDirectory : String) :
    (∃ k, k ≤ fs.length + 1 ∧
      (∀ j, j < k → fsExists statError fs
        (candidatePath sInputFile sOutputFormat sOutputDirectory j) = .ok true) ∧
      ((fsExists statError fs (candidatePath sInputFile sOutputFormat sOutputDirectory k)
            = .ok false ∧
          fn_generateOutputFilename statError fs sInputFile sOutputFormat sOutputDirectory
            = some (.ok (candidatePath sInputFile sOutputFormat sOutputDirectory k))) ∨
        (∃ e, fsExists statError fs (candidatePath sInputFile sOutputFormat sOutputDirectory k)
            = .error e ∧
          fn_generateOutputFilename statError fs sInputFile sOutputFormat sOutputDirectory
            = some (.error e)))) ∧
    (∀ k, (∀ j, j < k → fsExists statError fs
        (candidatePath sInputFile sOutputFormat sOutputDirectory j) = .ok true) →
      fsExists statError fs (candidatePath sInputFile sOutputFormat sOutputDirectory k)
        = .ok false →
      fn_generateOutputFilename statError fs sInputFile sOutputFormat sOutputDirectory
        = some (.ok (candidatePath sInputFile sOutputFormat sOutputDirectory k))) ∧
    (∀ k e, (∀ j, j < k → fsExists statError fs
        (candidatePath sInputFile sOutputFormat sOutputDirectory j) = .ok true) →
      fsExists statError fs (candidatePath sInputFile sOutputFormat sOutputDirectory k)
        = .error e →
      fn_generateOutputFilename statError fs sInputFile sOutputFormat sOutputDirectory
        = some (.error e)) ∧
    ((candidatePath sInputFile sOutputFormat sOutputDirectory 0 ∉ fs ∧
        fn_generateOutputFilename noStatError fs sInputFile sOutputFormat sOutputDirectory
          = some (.ok (candidatePath sInputFile sOutputFormat sOutputDirectory 0))) ∨
      (candidatePath sInputFile sOutputFormat sOutputDirectory 0 ∈ fs ∧
        ∃ k, 1 ≤ k ∧
          fn_generateOutputFilename noStatError fs sInputFile sOutputFormat sOutputDirectory
            = some (.ok (candidatePath sInputFile sOutputFormat sOutputDirectory k)) ∧
          candidatePath sInputFile sOutputFormat sOutputDirectory k ∉ fs ∧
          ∀ j, 1 ≤ j → j < k →
            candidatePath sInputFile sOutputFormat sOutputDirectory j ∈ fs)) ∧
    candidatePath "in/photo.heic" "jpg" "out" 0 = "out/photo.jpg" ∧
    candidatePath "in/photo.heic" "jpg" "out" 1 = "out/photo_1.jpg" ∧
    candidatePath "in/photo.heic" "jpg" "out" 12 = "out/photo_12.jpg" ∧
    fn_generateOutputFilename nameMaxStatError ["out"] "in/photo.heic" "jpg" "out"
      = some (.ok "out/photo.jpg") ∧
    fn_generateOutputFilename nameMaxStatError ["out", "out/photo.jpg"] "in/photo.heic" "jpg"
      "out" = some (.ok "out/photo_1.jpg") ∧
    fn_generateOutputFilename nameMaxStatError ["out/photo_1.jpg", "out", "out/photo.jpg"]
      "in/photo.heic" "jpg" "out" = some (.ok "out/photo_2.jpg") ∧
    fn_generateOutputFilename nameMaxStatError ["out/photo_1.jpg", "out"] "in/photo.heic" "jpg"
      "out" = some (.ok "out/photo.jpg") := by
  have huniq : ∀ (se : StatError) (k : Nat),
      (∀ j, j < k → fsExists se fs
        (candidatePath sInputFile sOutputFormat sOutputDirectory j) = .ok true) →
      fsExists se fs (candidatePath sInputFile sOutputFormat sOutputDirectory k) ≠ .ok true →
      ∃ k2, k2 = k ∧
        ((fsExists se fs (candidatePath sInputFile sOutputFormat sOutputDirectory k2)
              = .ok false ∧
            fn_generateOutputFilename se fs sInputFile sOutputFormat sOutputDirectory
              = some (.ok (candidatePath sInputFile sOutputFormat sOutputDirectory k2))) ∨
          (∃ e, fsExists se fs (candidatePath sInputFile sOutputFormat sOutputDirectory k2)
              = .error e ∧
            fn_generateOutputFilename se fs sInputFile sOutputFormat sOutputDirectory
              = some (.error e))) := by
    intro se k hbelow hk
    obtain ⟨k2, _, hb2, h2⟩ := generateOutputFilename_spec se fs sInputFile sOutputFormat
      sOutputDirectory
    have hk2 : fsExists se fs (candidatePath sInputFile sOutputFormat sOutputDirectory k2)
        ≠ .ok true := by
      rcases h2 with ⟨h, _⟩ | ⟨e, h, _⟩
      · rw [h]
        exact fun hh => Bool.noConfusion (Except.ok.inj hh)
      · rw [h]
        exact fun hh => Except.noConfusion hh
    have : k2 = k := by
      rcases Nat.lt_trichotomy k2 k with h | h | h
      · exact absurd (hbelow k2 h) hk2
      · exact h
      · exact absurd (hb2 k h) hk
    exact ⟨k2, this, h2⟩
  refine ⟨generateOutputFilename_spec statError fs sInputFile sOutputFormat sOutputDirectory,
    ?_, ?_, ?_, by decide, by decide, by decide, by decide, by decide, by decide, by decide⟩
  · intro k hbelow hk
    obtain ⟨k2, rfl, h2⟩ := huniq statError k hbelow
      (by rw [hk]; exact fun hh => Bool.noConfusion (Except.ok.inj hh))
    rcases h2 with ⟨_, h⟩ | ⟨e, h, _⟩
    · exact h
    · rw [hk] at h
      exact Except.noConfusion h
  · intro k e hbelow hk
    obtain ⟨k2, rfl, h2⟩ := huniq statError k hbelow
      (by rw [hk]; exact fun hh => Except.noConfusion hh)
    rcases h2 with ⟨h, _⟩ | ⟨e2, h, h3⟩
    · rw [hk] at h
      exact Except.noConfusion h
    · rw [hk] at h
      rw [h3, Except.error.inj h]
  · obtain ⟨k, _, hbelow, h2⟩ := generateOutputFilename_spec noStatError fs sInputFile
      sOutputFormat sOutputDirectory
    have hmem : ∀ j, j < k →
        candidatePath sInputFile sOutputFormat sOutputDirectory j ∈ fs :=
      fun j hj => fsExists_ok_true _ _ _ (hbelow j hj)
    rcases h2 with ⟨h, hres⟩ | ⟨e, h, _⟩
    · have hfree := (fsExists_ok_false _ _ _ h).2
      by_cases hk : k = 0
      · subst hk
        exact Or.inl ⟨hfree, hres⟩
      · exact Or.inr ⟨hmem 0 (by omega), k, by omega, hres, hfree,
          fun j _ hj => hmem j hj⟩
    · rw [fsExists_noStatError] at h
      exact Except.noConfusion h


/-- C21: the output-name resolver only reads the filesystem and reserves nothing.  Run against
a world, on every filesystem state, it leaves the world (the existing paths, the directories,
the record of conversions) as it was, whether it returns or throws, and a path it returns
does not exist afterwards either; on one filesystem state two inputs with the same base
name, with the same target format and output directory, get the same result, such as
a/x.heic and b/x.heic, which both get out/x.jpg, and out/x_1.jpg once out/x.jpg exists. -/
theorem resolver_reads_only (statError : StatError)
    (conv : String → String → FS → Except Thrown Int × FS) (w : Disk)
    (fs : FS) (sInputA sInputB sOutputFormat sOutputDirectory : String)
    (hstem : pathStem sInputA = pathStem sInputB) :
    ((diskCollab statError conv).resolve sInputA sOutputFormat sOutputDirectory w).2 = w ∧
    (∀ p, ((diskCollab statError conv).resolve sInputA sOutputFormat sOutputDirectory w).1
        = .ok p →
      fsExists statError
        ((diskCollab statError conv).resolve sInputA sOutputFormat sOutputDirectory w).2.paths p
        = .ok false) ∧
    (∃ p, ((diskCollab noStatError conv).resolve sInputA sOutputFormat sOutputDirectory w).1
        = .ok p ∧
      fsExists noStatError
        ((diskCollab noStatError conv).resolve sInputA sOutputFormat sOutputDirectory w).2.paths
        p = .ok false) ∧
    fn_generateOutputFilename statError fs sInputA sOutputFormat sOutputDirectory
      = fn_generateOutputFilename statError fs sInputB sOutputFormat sOutputDirectory ∧
    (diskCollab statError conv).resolve sInputA sOutputFormat sOutputDirectory w
      = (diskCollab statError conv).resolve sInputB sOutputFormat sOutputDirectory w ∧
    fn_generateOutputFilename noStatError ["out"] "a/x.heic" "jpg" "out"
      = some (.ok "out/x.jpg") ∧
    fn_generateOutputFilename noStatError ["out"] "b/x.heic" "jpg" "out"
      = some (.ok "out/x.jpg") ∧
    fn_generateOutputFilename noStatError ["out", "out/x.jpg"] "a/x.heic" "jpg" "out"
      = some (.ok "out/x_1.jpg") ∧
    fn_generateOutputFilename noStatError ["out", "out/x.jpg"] "b/x.heic" "jpg" "out"
      = some (.ok "out/x_1.jpg") := by
  have hgen : ∀ (se : StatError) (fs : FS),
      fn_generateOutputFilename se fs sInputA sOutputFormat sOutputDirectory
        = fn_generateOutputFilename se fs sInputB sOutputFormat sOutputDirectory := by
    intro se fs
    unfold fn_generateOutputFilename
    rw [hstem]
  have hres : ∀ (se : StatError),
      (∃ p, (diskCollab se conv).resolve sInputA sOutputFormat sOutputDirectory w = (.ok p, w) ∧
        fsExists se w.paths p = .ok false) ∨
      (∃ e, (diskCollab se conv).resolve sInputA sOutputFormat sOutputDirectory w
        = (.error e, w) ∧ ∃ q, se q = some e) := by
    intro se
    obtain ⟨k, _, _, h⟩ := generateOutputFilename_spec se w.paths sInputA sOutputFormat
      sOutputDirectory
    rcases h with ⟨h1, h2⟩ | ⟨e, h1, h2⟩
    · exact Or.inl ⟨_, by simp only [diskCollab, h2], h1⟩
    · exact Or.inr ⟨e, by simp only [diskCollab, h2], _, fsExists_error _ _ _ _ h1⟩
  have hAB : ∀ (se : StatError),
      (diskCollab se conv).resolve sInputA sOutputFormat sOutputDirectory w
        = (diskCollab se conv).resolve sInputB sOutputFormat sOutputDirectory w := by
    intro se
    simp only [diskCollab, hgen se w.paths]
  refine ⟨?_, ?_, ?_, hgen statError fs, hAB statError, by decide, by decide, by decide,
    by decide⟩
  · rcases hres statError with ⟨p, h, _⟩ | ⟨e, h, _⟩ <;> rw [h]
  · intro p hp
    rcases hres statError with ⟨p2, h, h2⟩ | ⟨e, h, _⟩
    · rw [h] at hp ⊢
      have : p2 = p := Except.ok.inj hp
      subst this
      exact h2
    · rw [h] at hp
      exact Except.noConfusion hp
  · rcases hres noStatError with ⟨p, h, h2⟩ | ⟨e, _, q, hq⟩
    · exact ⟨p, by rw [h], by rw [h]; exact h2⟩
    · exact Option.noConfusion hq

/-- The statement of C21 for a/x.heic and b/x.heic on a disk where out/x.jpg exists and names
longer than `NAME_MAX` are refused. -/
theorem resolver_reads_only_witness :
    pathStem "a/x.heic" = pathStem "b/x.heic" ∧
    ((diskCollab nameMaxStatError (mockConvert "error")).resolve "a/x.heic" "jpg" "out"
        ⟨["out", "out/x.jpg"], ["out"], []⟩).2 = ⟨["out", "out/x.jpg"], ["out"], []⟩ ∧
    (diskCollab nameMaxStatError (mockConvert "error")).resolve "a/x.heic" "jpg" "out"
        ⟨["out", "out/x.jpg"], ["out"], []⟩
      = (diskCollab nameMaxStatError (mockConvert "error")).resolve "b/x.heic" "jpg" "out"
        ⟨["out", "out/x.jpg"], ["out"], []⟩ :=
  ⟨by decide,
    (resolver_reads_only nameMaxStatError (mockConvert "error")
      ⟨["out", "out/x.jpg"], ["out"], []⟩ []
      "a/x.heic" "b/x.heic" "jpg" "out" (by decide)).1,
    (resolver_reads_only nameMaxStatError (mockConvert "error")
      ⟨["out", "out/x.jpg"], ["out"], []⟩ []
      "a/x.heic" "b/x.heic" "jpg" "out" (by decide)).2.2.2.2.1⟩

end HeicConverter
